import Mathlib

/-!
# CubbyFlow: grid linear-system solvers (ICCG, MGPCG) and multigrid transfer operators

A shallow embedding of

* `FDMMGUtils2::Restrict` / `FDMMGUtils2::Correct`   (Sources/FDM/FDMMGLinearSystem2.cpp),
* `FDMICCGSolver2` and its `Preconditioner`          (Sources/Solver/FDM/FDMICCGSolver2.cpp),
* `FDMMGPCGSolver2::Solve` and its `Preconditioner`  (Sources/Core/Solver/FDM/FDMMGPCGSolver2.cpp),
* the functions of `TriangleMesh3` that add triangles (Sources/Core/Geometry/TriangleMesh3.cpp),
* `BoundingBox<T, 2>`                                (Includes/Core/BoundingBox/BoundingBox2-Impl.h),
* `Cylinder3::IntersectsLocal`                       (Sources/Geometry/Cylinder3.cpp),
* `VolumeParticleEmitter2::Emit`                     (Sources/Core/Emitter/VolumeParticleEmitter2.cpp).

Conventions of the embedding

* `double` is the field of rationals (exact arithmetic); `size_t`, `ssize_t` and
  `unsigned int` values are natural numbers (grid extents are far below the word size).
* A C++ function that can hit a failed `assert`, an out-of-bounds array access or a
  division by zero returns `Except Fault`; a value `.ok r` means the run completed
  without any of these.
* A `for` loop over `[b, e)` is a fold over the list of its indices; a loop counting down
  from `n - 1` to `0` is a fold over `(List.range n).reverse`.
* Writing to the log (`CUBBYFLOW_INFO`) is left out.
* A pointer argument that a function writes through is a value passed in and returned.
  The pointer to the system that the MGPCG preconditioner keeps is not stored in the
  record of the preconditioner: the system it points to is passed to
  `Preconditioner.Solve` at every call, so it is always the system as it is at that moment.
* `ParallelRangeFor` is the call of its function on the whole index range. For `Correct`,
  whose function adds into cells that neighbouring index pairs share, runs with several
  worker threads are described separately (`CorrectWithWorkers`): the index range is cut
  into blocks, a `+=` is a read followed by a store, and a schedule gives the order of the
  steps of the workers.
* Parts of the library whose source is not at hand (the array class, the parallel helpers,
  the BLAS layer, the CG driver, vectors, rays, the point searcher) are marked
  `Modelled from the spec:`; functions of the standard library that have no exact
  counterpart (`std::sqrt`, the rotation by an angle) are parameters.
-/

namespace CubbyFlow

/-! ## Data model -/

/-- Ways in which a run can leave the defined behaviour of the program. -/
inductive Fault where
  /-- an `assert(...)` did not hold -/
  | assertion
  /-- an array was accessed outside of its bounds -/
  | outOfRange
  /-- a division by an exact zero -/
  | divisionByZero
  deriving DecidableEq

/-- Modelled from the spec: `Size2`, the extents of a 2-D grid (its header is not under the
sources). -/
structure Size2 where
  x : Nat
  y : Nat
  deriving DecidableEq

/-- Modelled from the spec: `Array2<T>`, a dense rectangular array addressed by integer
coordinates `(i, j)` with `i < size.x`, `j < size.y` (its header is not under the
sources). Only the cells inside `size` are storage of the array; an access outside of them
is undefined. -/
structure Array2 (α : Type) where
  size : Size2
  cell : Nat → Nat → α

/-- The type `FDMVector2 = Array2<double>`. -/
abbrev FDMVector2 := Array2 ℚ

/-- Modelled from the spec: `FDMMatrixRow2`, the stencil coefficients stored at one cell
(its header is not under the sources; the fields are those the solver reads). -/
structure FDMMatrixRow2 where
  center : ℚ
  right : ℚ
  up : ℚ

/-- The type `FDMMatrix2 = Array2<FDMMatrixRow2>`. -/
abbrev FDMMatrix2 := Array2 FDMMatrixRow2

namespace Array2

variable {α : Type}

/-- The index test of an access `a(i, j)`. -/
def inRange (a : Array2 α) (i j : Nat) : Prop := i < a.size.x ∧ j < a.size.y

instance (a : Array2 α) (i j : Nat) : Decidable (a.inRange i j) := by
  unfold inRange; infer_instance

/-- Modelled from the spec: the read access `a(i, j)`; outside the bounds it is undefined,
which is a fault here. -/
def get (a : Array2 α) (i j : Nat) : Except Fault α :=
  if a.inRange i j then .ok (a.cell i j) else .error .outOfRange

/-- The array after the store `a(i, j) = v` (for an index inside the bounds). -/
def write (a : Array2 α) (i j : Nat) (v : α) : Array2 α :=
  { size := a.size, cell := fun p q => if p = i ∧ q = j then v else a.cell p q }

/-- Modelled from the spec: the write access `a(i, j) = v`; outside the bounds it is
undefined, which is a fault here. -/
def put (a : Array2 α) (i j : Nat) (v : α) : Except Fault (Array2 α) :=
  if a.inRange i j then .ok (a.write i j v) else .error .outOfRange

/-- Modelled from the spec: `Array2::Set(value)` (not under the sources): every cell
becomes `value`; the size stays. -/
def Set (a : Array2 α) (v : α) : Array2 α :=
  { size := a.size, cell := fun _ _ => v }

/-- Modelled from the spec: `Array2::Resize(size, initVal)` (the array header is not under
the sources). The result has the new size; cells that both the old and the new extent
contain keep their old value (the library copies the overlap), all other cells are
`initVal`. Every property below that involves a resized buffer holds for arbitrary old
contents, hence also for a resize that initialises every cell. -/
def Resize (a : Array2 α) (size : Size2) (initVal : α) : Array2 α :=
  { size := size,
    cell := fun i j =>
      if i < min size.x a.size.x ∧ j < min size.y a.size.y then a.cell i j else initVal }

/-- Modelled from the spec: `Array2::ForEachIndex(func)` (not under the sources) calls
`func(i, j)` for every index in raster order: row by row, `j` outermost, both ascending. The
state `s` is what `func` captures by reference and updates. -/
def ForEachIndex {σ : Type} (size : Size2) (func : Nat → Nat → σ → Except Fault σ) (s : σ) :
    Except Fault σ :=
  List.foldlM (fun s j => List.foldlM (fun s i => func i j s) s (List.range size.x)) s
    (List.range size.y)

end Array2

/-- The indices of a loop `for (k = b; k < e; ++k)`, in order. -/
def loopRange (b e : Nat) : List Nat := List.range' b (e - b)

/-- Modelled from the spec: `ParallelRangeFor(beginX, endX, beginY, endY, func)` (the
parallel helpers are not under the sources) hands index ranges that together cover
`[beginX, endX) x [beginY, endY)` to `func`, to be run by worker threads. This definition
is the run in which one worker gets the whole range: the single call
`func(beginX, endX, beginY, endY)`, so every index pair is visited exactly once, one after
the other; the state `s` is what `func` captures by reference and updates. It is every run
of `Restrict`, whose function writes each coarse cell once and only reads the fine grid.
It is not every run of `Correct`, whose function adds into fine cells that neighbouring
index pairs share: for runs of `Correct` with several workers see `CorrectWithWorkers`. -/
def ParallelRangeFor {σ : Type} (beginIndexX endIndexX beginIndexY endIndexY : Nat)
    (func : Nat → Nat → Nat → Nat → σ → Except Fault σ) (s : σ) : Except Fault σ :=
  func beginIndexX endIndexX beginIndexY endIndexY s

/-! ## Multigrid transfer operators (FDMMGLinearSystem2.cpp) -/

namespace FDMMGUtils2

/-- The four fine indices that belong to coarse index `i` on an axis with `n` coarse
cells: `iIndices` / `jIndices` of `Restrict` and `Correct`. -/
def fineIndices (n i : Nat) : Nat → Nat
  | 0 => if i > 0 then 2 * i - 1 else 2 * i
  | 1 => 2 * i
  | 2 => 2 * i + 1
  | _ => if i + 1 < n then 2 * i + 2 else 2 * i + 1

/-- The constant `kernel` of `Restrict`: 0.125, 0.375, 0.375, 0.125. -/
def restrictKernel : Nat → ℚ
  | 0 => 1 / 8
  | 1 => 3 / 8
  | 2 => 3 / 8
  | 3 => 1 / 8
  | _ => 0

/-- The constant `kernel` of `Correct`: 0.25, 0.75, 0.75, 0.25. -/
def correctKernel : Nat → ℚ
  | 0 => 1 / 4
  | 1 => 3 / 4
  | 2 => 3 / 4
  | 3 => 1 / 4
  | _ => 0

/-- The two innermost loops of `Restrict` for the coarse cell `(i, j)`:
`sum += kernel[x] * kernel[y] * finer(iIndices[x], jIndices[y])`, `y` outermost. -/
def restrictSum (finer : FDMVector2) (n : Size2) (i j : Nat) : Except Fault ℚ :=
  List.foldlM (fun sum y =>
    List.foldlM (fun sum x => do
      let w := restrictKernel x * restrictKernel y
      let f ← finer.get (fineIndices n.x i x) (fineIndices n.y j y)
      pure (sum + w * f)) sum (List.range 4)) 0 (List.range 4)

/-- The function that `Restrict` passes to `ParallelRangeFor`, applied to the index range
`[iBegin, iEnd) x [jBegin, jEnd)` and acting on `*coarser`; `n` is the size of the coarse
grid. -/
def RestrictRange (finer : FDMVector2) (n : Size2) (iBegin iEnd jBegin jEnd : Nat)
    (coarser : FDMVector2) : Except Fault FDMVector2 :=
  List.foldlM (fun c j =>
    List.foldlM (fun c i => do
      let sum ← restrictSum finer n i j
      c.put i j sum) c (loopRange iBegin iEnd)) coarser (loopRange jBegin jEnd)

/-- The function `FDMMGUtils2::Restrict(finer, coarser)`; the result is the new `*coarser`. -/
def Restrict (finer coarser : FDMVector2) : Except Fault FDMVector2 :=
  if finer.size.x ≠ 2 * coarser.size.x then .error .assertion
  else if finer.size.y ≠ 2 * coarser.size.y then .error .assertion
  else
    let n := coarser.size
    ParallelRangeFor 0 n.x 0 n.y (RestrictRange finer n) coarser

/-- The two innermost loops of `Correct` for the coarse cell `(i, j)` with value `cij`:
`finer(iIndices[x], jIndices[y]) += kernel[x] * kernel[y] * cij`, `y` outermost. -/
def correctCell (n : Size2) (i j : Nat) (cij : ℚ) (finer : FDMVector2) :
    Except Fault FDMVector2 :=
  List.foldlM (fun f y =>
    List.foldlM (fun f x => do
      let w := correctKernel x * correctKernel y
      let old ← f.get (fineIndices n.x i x) (fineIndices n.y j y)
      f.put (fineIndices n.x i x) (fineIndices n.y j y) (old + w * cij)) f (List.range 4))
    finer (List.range 4)

/-- The function that `Correct` passes to `ParallelRangeFor`, applied to the index range
`[iBegin, iEnd) x [jBegin, jEnd)` and acting on `*finer`; `n` is the size of the coarse
grid. -/
def CorrectRange (coarser : FDMVector2) (n : Size2) (iBegin iEnd jBegin jEnd : Nat)
    (finer : FDMVector2) : Except Fault FDMVector2 :=
  List.foldlM (fun f j =>
    List.foldlM (fun f i => do
      let cij ← coarser.get i j
      correctCell n i j cij f) f (loopRange iBegin iEnd)) finer (loopRange jBegin jEnd)

/-- The function `FDMMGUtils2::Correct(coarser, finer)`, the whole index range being run by
one worker (see `ParallelRangeFor`); the result is the new `*finer`. Runs in which several
workers share the index range are `CorrectWithWorkers`. -/
def Correct (coarser finer : FDMVector2) : Except Fault FDMVector2 :=
  if finer.size.x ≠ 2 * coarser.size.x then .error .assertion
  else if finer.size.y ≠ 2 * coarser.size.y then .error .assertion
  else
    let n := coarser.size
    ParallelRangeFor 0 n.x 0 n.y (CorrectRange coarser n) finer

end FDMMGUtils2

/-! ## Incomplete-Cholesky preconditioner (FDMICCGSolver2.cpp) -/

/-- Modelled from the spec: `Square(x)` of the math utilities (not under the sources), the
square of `x`. -/
def Square (x : ℚ) : ℚ := x * x

/-- The quotient `a / b` of two exact numbers; dividing by zero is a fault. -/
def divide (a b : ℚ) : Except Fault ℚ :=
  if b = 0 then .error .divisionByZero else .ok (a / b)

namespace FDMICCGSolver2

/-- The class `FDMICCGSolver2::Preconditioner`: the accessor `A` of the matrix it was built for and
the buffers `d` and `y`. -/
structure Preconditioner where
  A : FDMMatrix2
  d : FDMVector2
  y : FDMVector2

namespace Preconditioner

/-- The body of the loop of `Build` at the index `(i, j)`, acting on the buffer `d`. -/
def BuildCell (matrix : FDMMatrix2) (i j : Nat) (d : FDMVector2) : Except Fault FDMVector2 := do
  let mij ← matrix.get i j
  let left ← if i > 0 then (do
      let m ← matrix.get (i - 1) j
      let dv ← d.get (i - 1) j
      pure (Square m.right * dv)) else pure 0
  let down ← if j > 0 then (do
      let m ← matrix.get i (j - 1)
      let dv ← d.get i (j - 1)
      pure (Square m.up * dv)) else pure 0
  let denom := mij.center - left - down
  if |denom| > 0 then do
    let v ← divide 1 denom
    d.put i j v
  else
    d.put i j 0

/-- The function `FDMICCGSolver2::Preconditioner::Build(matrix)`; the result is the
preconditioner as the call leaves it. -/
def Build (self : Preconditioner) (matrix : FDMMatrix2) : Except Fault Preconditioner := do
  let size := matrix.size
  let d0 := self.d.Resize size 0
  let y0 := self.y.Resize size 0
  let d ← Array2.ForEachIndex matrix.size (BuildCell matrix) d0
  pure { A := matrix, d := d, y := y0 }

/-- The body of the first loop of `Solve` (forward substitution) at `(i, j)`, acting on the
buffer `y`. -/
def ForwardCell (A : FDMMatrix2) (d b : FDMVector2) (i j : Nat) (y : FDMVector2) :
    Except Fault FDMVector2 := do
  let bij ← b.get i j
  let left ← if i > 0 then (do
      let a ← A.get (i - 1) j
      let yv ← y.get (i - 1) j
      pure (a.right * yv)) else pure 0
  let down ← if j > 0 then (do
      let a ← A.get i (j - 1)
      let yv ← y.get i (j - 1)
      pure (a.up * yv)) else pure 0
  let dij ← d.get i j
  y.put i j ((bij - left - down) * dij)

/-- The body of the second loop nest of `Solve` (backward substitution) at `(i, j)`, acting
on the output `x`; `sx`, `sy` are the extents of `b`. -/
def BackwardCell (A : FDMMatrix2) (d y : FDMVector2) (sx sy : Nat) (i j : Nat)
    (x : FDMVector2) : Except Fault FDMVector2 := do
  let yij ← y.get i j
  let right ← if i + 1 < sx then (do
      let a ← A.get i j
      let xv ← x.get (i + 1) j
      pure (a.right * xv)) else pure 0
  let up ← if j + 1 < sy then (do
      let a ← A.get i j
      let xv ← x.get i (j + 1)
      pure (a.up * xv)) else pure 0
  let dij ← d.get i j
  x.put i j ((yij - right - up) * dij)

/-- The function `FDMICCGSolver2::Preconditioner::Solve(b, x)`; returns the preconditioner (whose buffer
`y` was overwritten) and the new `*x`. -/
def Solve (self : Preconditioner) (b x : FDMVector2) :
    Except Fault (Preconditioner × FDMVector2) := do
  let size := b.size
  let sx := size.x
  let sy := size.y
  let y ← Array2.ForEachIndex b.size (ForwardCell self.A self.d b) self.y
  let x ← List.foldlM (fun x j =>
      List.foldlM (fun x i => BackwardCell self.A self.d y sx sy i j x) x
        (List.range sx).reverse) x (List.range sy).reverse
  pure ({ A := self.A, d := self.d, y := y }, x)

end Preconditioner

end FDMICCGSolver2

/-! ## The solvers (FDMICCGSolver2.cpp, FDMMGPCGSolver2.cpp)

The driver `PCG<BLAS, Preconditioner>` of `Math/CG.h` is not part of the sources at hand:
`Solve` takes it as the parameter `pcg`. -/

/-- The arguments of a call `PCG(A, b, maxNumberOfIterations, tolerance, &M, &x, &r, &d,
&q, &s, ...)`, as they are when the call is made; `P` is the type of the preconditioner. -/
structure PCGArguments (P : Type) where
  A : FDMMatrix2
  b : FDMVector2
  maxNumberOfIterations : Nat
  tolerance : ℚ
  M : P
  x : FDMVector2
  r : FDMVector2
  d : FDMVector2
  q : FDMVector2
  s : FDMVector2

/-- What a call of `PCG` leaves in the objects it was given pointers to. -/
structure PCGOutcome (P : Type) where
  M : P
  x : FDMVector2
  r : FDMVector2
  d : FDMVector2
  q : FDMVector2
  s : FDMVector2
  lastNumberOfIterations : Nat
  lastResidualNorm : ℚ

/-- A driver: any function from the arguments of `PCG` to what it leaves behind. -/
abbrev PCGDriver (P : Type) := PCGArguments P → Except Fault (PCGOutcome P)

/-- Modelled from the spec: `FDMLinearSystem2` (its header is not under the sources), the
triple of matrix `A`, solution `x` and right-hand side `b`. -/
structure FDMLinearSystem2 where
  A : FDMMatrix2
  x : FDMVector2
  b : FDMVector2

/-- The members of `FDMICCGSolver2`. -/
structure FDMICCGSolver2 where
  m_maxNumberOfIterations : Nat
  m_lastNumberOfIterations : Nat
  m_tolerance : ℚ
  m_lastResidualNorm : ℚ
  m_r : FDMVector2
  m_d : FDMVector2
  m_q : FDMVector2
  m_s : FDMVector2
  m_precond : FDMICCGSolver2.Preconditioner

namespace FDMICCGSolver2

/-- The part of `FDMICCGSolver2::Solve` up to the call of `PCG`: the two asserts, the resizing and
zeroing of the buffers and of the solution, `m_precond.Build(matrix)`; the result is the
argument list of the call. -/
def pcgArguments (self : FDMICCGSolver2) (system : FDMLinearSystem2) :
    Except Fault (PCGArguments Preconditioner) :=
  if system.A.size ≠ system.b.size then .error .assertion
  else if system.A.size ≠ system.x.size then .error .assertion
  else do
    let size := system.A.size
    let r := (self.m_r.Resize size 0).Set 0
    let d := (self.m_d.Resize size 0).Set 0
    let q := (self.m_q.Resize size 0).Set 0
    let s := (self.m_s.Resize size 0).Set 0
    let x := system.x.Set 0
    let precond ← self.m_precond.Build system.A
    pure { A := system.A, b := system.b,
           maxNumberOfIterations := self.m_maxNumberOfIterations,
           tolerance := self.m_tolerance, M := precond, x := x, r := r, d := d, q := q, s := s }

/-- The function `FDMICCGSolver2::Solve(system)`: returns the boolean result together with the solver
and the system as the call leaves them. -/
def Solve (pcg : PCGDriver Preconditioner) (self : FDMICCGSolver2)
    (system : FDMLinearSystem2) : Except Fault (Bool × FDMICCGSolver2 × FDMLinearSystem2) := do
  let args ← pcgArguments self system
  let out ← pcg args
  let self2 : FDMICCGSolver2 :=
    { m_maxNumberOfIterations := self.m_maxNumberOfIterations,
      m_lastNumberOfIterations := out.lastNumberOfIterations,
      m_tolerance := self.m_tolerance,
      m_lastResidualNorm := out.lastResidualNorm,
      m_r := out.r, m_d := out.d, m_q := out.q, m_s := out.s, m_precond := out.M }
  let system2 : FDMLinearSystem2 := { A := system.A, x := out.x, b := system.b }
  pure (decide (self2.m_lastResidualNorm ≤ self2.m_tolerance) ||
        decide (self2.m_lastNumberOfIterations < self2.m_maxNumberOfIterations),
        self2, system2)

/-- The function `FDMICCGSolver2::Solve(system)` once more, statement by statement, now
together with the solver and the system as they are when the run ends, be it at the
`return` or at a fault: a failed `assert` stops the program where it stands. (When the
driver, whose code is not at hand, faults, the solver and the system are given as they were
when it was called.) -/
def SolveRun (pcg : PCGDriver Preconditioner) (self : FDMICCGSolver2)
    (system : FDMLinearSystem2) : Except Fault Bool × FDMICCGSolver2 × FDMLinearSystem2 :=
  if system.A.size ≠ system.b.size then (.error .assertion, self, system)
  else if system.A.size ≠ system.x.size then (.error .assertion, self, system)
  else
    let size := system.A.size
    let self1 : FDMICCGSolver2 :=
      { self with m_r := self.m_r.Resize size 0, m_d := self.m_d.Resize size 0,
                  m_q := self.m_q.Resize size 0, m_s := self.m_s.Resize size 0 }
    let system1 : FDMLinearSystem2 := { system with x := system.x.Set 0 }
    let self2 : FDMICCGSolver2 :=
      { self1 with m_r := self1.m_r.Set 0, m_d := self1.m_d.Set 0,
                   m_q := self1.m_q.Set 0, m_s := self1.m_s.Set 0 }
    match self2.m_precond.Build system1.A with
    | .error e => (.error e, self2, system1)
    | .ok precond =>
      let self3 : FDMICCGSolver2 := { self2 with m_precond := precond }
      match pcg { A := system1.A, b := system1.b,
                  maxNumberOfIterations := self3.m_maxNumberOfIterations,
                  tolerance := self3.m_tolerance, M := self3.m_precond, x := system1.x,
                  r := self3.m_r, d := self3.m_d, q := self3.m_q, s := self3.m_s } with
      | .error e => (.error e, self3, system1)
      | .ok out =>
        let self4 : FDMICCGSolver2 :=
          { self3 with m_lastNumberOfIterations := out.lastNumberOfIterations,
                       m_lastResidualNorm := out.lastResidualNorm,
                       m_r := out.r, m_d := out.d, m_q := out.q, m_s := out.s,
                       m_precond := out.M }
        let system2 : FDMLinearSystem2 := { system1 with x := out.x }
        (.ok (decide (self4.m_lastResidualNorm ≤ self4.m_tolerance) ||
              decide (self4.m_lastNumberOfIterations < self4.m_maxNumberOfIterations)),
          self4, system2)

end FDMICCGSolver2

/-- The type `FDMMGMatrix2`: one matrix per level, finest first. -/
structure FDMMGMatrix2 where
  levels : List FDMMatrix2

/-- The type `FDMMGVector2`: one vector per level, finest first. -/
structure FDMMGVector2 where
  levels : List FDMVector2

/-- The type `FDMMGLinearSystem2`: the hierarchies `A`, `x` and `b`. -/
structure FDMMGLinearSystem2 where
  A : FDMMGMatrix2
  x : FDMMGVector2
  b : FDMMGVector2

/-- The access `levels.front()` of a `std::vector`; on an empty vector it is outside the
bounds. -/
def front {α : Type} (levels : List α) : Except Fault α :=
  match levels with
  | [] => .error .outOfRange
  | a :: _ => .ok a

/-- The levels after `levels.front() = v`. -/
def setFront {α : Type} (levels : List α) (v : α) : Except Fault (List α) :=
  match levels with
  | [] => .error .outOfRange
  | _ :: rest => .ok (v :: rest)

namespace FDMMGPCGSolver2

/-- The class `FDMMGPCGSolver2::Preconditioner`. Its member `system` is a pointer to the
system of the caller, not a copy of it: whoever follows the pointer finds that system as
it is at that moment, with every write made to it since `Build`. A pointer has no value of
its own here; the function that follows it (`Preconditioner::Solve`) takes the system it
points to, as that system is when the call is made, as its argument `system`. What is left
as a member is the parameter set. `MGParams` stands for `MGParameters<FDMBLAS2>`, declared
outside the sources at hand. -/
structure Preconditioner (MGParams : Type) where
  mgParams : MGParams

/-- The function `FDMMGPCGSolver2::Preconditioner::Build(system, mgParams)`: it stores the
pointer (see `Preconditioner`) and the parameters; it does not read the system. -/
def Preconditioner.Build {MGParams : Type} (_self : Preconditioner MGParams)
    (mgParams : MGParams) : Preconditioner MGParams :=
  { mgParams := mgParams }

end FDMMGPCGSolver2

/-- What the call of `PCG` in `FDMMGPCGSolver2::Solve` is given, as it is when the call is
made. The arguments `A`, `b` and `x` of that call are references into the system
(`system->A.levels.front()`, `system->b.levels.front()`, `&system->x.levels.front()`) and
the preconditioner holds a pointer to the same system, so the record holds the system
itself, not copies of its parts: the solution the driver works on is the finest solution
level of `system`. -/
structure MGPCGArguments (MGParams : Type) where
  system : FDMMGLinearSystem2
  maxNumberOfIterations : Nat
  tolerance : ℚ
  M : FDMMGPCGSolver2.Preconditioner MGParams
  r : FDMVector2
  d : FDMVector2
  q : FDMVector2
  s : FDMVector2

/-- What that call of `PCG` leaves in the objects it can reach: the system (through `x`,
and through the pointer that the preconditioner holds), the preconditioner, the buffers
and the two numbers it reports. -/
structure MGPCGOutcome (MGParams : Type) where
  system : FDMMGLinearSystem2
  M : FDMMGPCGSolver2.Preconditioner MGParams
  r : FDMVector2
  d : FDMVector2
  q : FDMVector2
  s : FDMVector2
  lastNumberOfIterations : Nat
  lastResidualNorm : ℚ

/-- A driver for the multigrid solver: any function from what the call of `PCG` is given
to what it leaves behind. -/
abbrev MGPCGDriver (MGParams : Type) :=
  MGPCGArguments MGParams → Except Fault (MGPCGOutcome MGParams)

/-- The members of `FDMMGPCGSolver2`; `m_mgParams` is the member of the base class
`FDMMGSolver2` that `GetParams()` returns. -/
structure FDMMGPCGSolver2 (MGParams : Type) where
  m_mgParams : MGParams
  m_maxNumberOfIterations : Nat
  m_lastNumberOfIterations : Nat
  m_tolerance : ℚ
  m_lastResidualNorm : ℚ
  m_r : FDMVector2
  m_d : FDMVector2
  m_q : FDMVector2
  m_s : FDMVector2
  m_precond : FDMMGPCGSolver2.Preconditioner MGParams

namespace FDMMGPCGSolver2

variable {MGParams : Type}

/-- Modelled from the spec: `FDMMGSolver2::GetParams()` (the base class is not under the
sources) returns the parameter set of the solver. -/
def GetParams (self : FDMMGPCGSolver2 MGParams) : MGParams := self.m_mgParams

/-- The part of `FDMMGPCGSolver2::Solve` up to the call of `PCG`: the resizing and zeroing of the
buffers, the zeroing of the finest solution, `m_precond.Build(system, GetParams())`, and
the three `levels.front()` of the argument list; the result is what the call is given. -/
def pcgArguments (self : FDMMGPCGSolver2 MGParams) (system : FDMMGLinearSystem2) :
    Except Fault (MGPCGArguments MGParams) := do
  let size := (← front system.A.levels).size
  let r := (self.m_r.Resize size 0).Set 0
  let d := (self.m_d.Resize size 0).Set 0
  let q := (self.m_q.Resize size 0).Set 0
  let s := (self.m_s.Resize size 0).Set 0
  let x0 ← front system.x.levels
  let xlevels ← setFront system.x.levels (x0.Set 0)
  let system1 : FDMMGLinearSystem2 := { A := system.A, x := { levels := xlevels }, b := system.b }
  let precond := self.m_precond.Build (GetParams self)
  let _ ← front system1.A.levels
  let _ ← front system1.b.levels
  let _ ← front system1.x.levels
  pure { system := system1, maxNumberOfIterations := self.m_maxNumberOfIterations,
         tolerance := self.m_tolerance, M := precond, r := r, d := d, q := q, s := s }

/-- The function `FDMMGPCGSolver2::Solve(system)`: returns the boolean result together with the solver
and the system as the call leaves them. After the call of `PCG` nothing is written to the
system: it is as the driver left it. -/
def Solve (pcg : MGPCGDriver MGParams) (self : FDMMGPCGSolver2 MGParams)
    (system : FDMMGLinearSystem2) :
    Except Fault (Bool × FDMMGPCGSolver2 MGParams × FDMMGLinearSystem2) := do
  let args ← pcgArguments self system
  let out ← pcg args
  let self2 : FDMMGPCGSolver2 MGParams :=
    { m_mgParams := self.m_mgParams,
      m_maxNumberOfIterations := self.m_maxNumberOfIterations,
      m_lastNumberOfIterations := out.lastNumberOfIterations,
      m_tolerance := self.m_tolerance,
      m_lastResidualNorm := out.lastResidualNorm,
      m_r := out.r, m_d := out.d, m_q := out.q, m_s := out.s, m_precond := out.M }
  pure (decide (self2.m_lastResidualNorm ≤ self2.m_tolerance) ||
        decide (self2.m_lastNumberOfIterations < self2.m_maxNumberOfIterations),
        self2, out.system)

end FDMMGPCGSolver2

/-! ## The conjugate-gradient driver, modelled from the specification

`Math/CG.h` and the BLAS layer `FDMBLAS2` are not part of the sources at hand. -/

namespace FDMBLAS2

/-- Modelled from the spec: the matrix-vector product of the stencil matrix
(`FDMBLAS2::MVM`, not under the sources). A cell combines its centre coefficient with its
in-range neighbours; the coefficient towards the left / lower neighbour is the one stored
at that neighbour (symmetry of the matrix); there is no wraparound. -/
def MVM (A : FDMMatrix2) (v : FDMVector2) : FDMVector2 :=
  { size := A.size,
    cell := fun i j =>
      (A.cell i j).center * v.cell i j
        + (if i > 0 then (A.cell (i - 1) j).right * v.cell (i - 1) j else 0)
        + (if i + 1 < A.size.x then (A.cell i j).right * v.cell (i + 1) j else 0)
        + (if j > 0 then (A.cell i (j - 1)).up * v.cell i (j - 1) else 0)
        + (if j + 1 < A.size.y then (A.cell i j).up * v.cell i (j + 1) else 0) }

/-- Modelled from the spec: the residual `b - A x` (`FDMBLAS2::Residual`, not under the
sources). -/
def Residual (A : FDMMatrix2) (x b : FDMVector2) : FDMVector2 :=
  { size := A.size, cell := fun i j => b.cell i j - (MVM A x).cell i j }

/-- Modelled from the spec: the dot product of two grids (`FDMBLAS2::Dot`, not under the
sources). -/
def Dot (a b : FDMVector2) : ℚ :=
  ∑ j in Finset.range a.size.y, ∑ i in Finset.range a.size.x, a.cell i j * b.cell i j

/-- Modelled from the spec: the update `a * x + y` (`FDMBLAS2::AXPlusY`, not under the
sources). -/
def AXPlusY (a : ℚ) (x y : FDMVector2) : FDMVector2 :=
  { size := x.size, cell := fun i j => a * x.cell i j + y.cell i j }

end FDMBLAS2

/-- The variables of the conjugate-gradient iteration. -/
structure PCGState (P : Type) where
  M : P
  x : FDMVector2
  r : FDMVector2
  d : FDMVector2
  q : FDMVector2
  s : FDMVector2
  sigma : ℚ
  iter : Nat

/-- Modelled from the spec: the loop of the preconditioned conjugate-gradient driver
(`PCG` of `Math/CG.h`, not under the sources), section 4.3 of the specification. The loop
stops when the residual norm is at most `tolerance` or when `maxIter` iterations were
made (`fuel` counts the iterations that remain). One iteration makes one matrix-vector
product, one preconditioner solve and the dot products and updates of standard CG; a step
whose denominator is zero is taken as zero. `norm` is the residual norm, `solve` the
`Solve` of the preconditioner. -/
def PCGLoop {P : Type} (norm : FDMVector2 → ℚ)
    (solve : P → FDMVector2 → FDMVector2 → Except Fault (P × FDMVector2))
    (A : FDMMatrix2) (tolerance : ℚ) : Nat → PCGState P → Except Fault (PCGState P)
  | 0, st => .ok st
  | fuel + 1, st =>
    if norm st.r ≤ tolerance then .ok st
    else do
      let q := FDMBLAS2.MVM A st.d
      let dq := FDMBLAS2.Dot st.d q
      let alpha := if dq = 0 then 0 else st.sigma / dq
      let x := FDMBLAS2.AXPlusY alpha st.d st.x
      let r := FDMBLAS2.AXPlusY (-alpha) q st.r
      let (M, s) ← solve st.M r st.s
      let sigmaNew := FDMBLAS2.Dot r s
      let beta := if st.sigma = 0 then 0 else sigmaNew / st.sigma
      let d := FDMBLAS2.AXPlusY beta st.d s
      PCGLoop norm solve A tolerance fuel
        { M := M, x := x, r := r, d := d, q := q, s := s, sigma := sigmaNew,
          iter := st.iter + 1 }

/-- Modelled from the spec: the preconditioned conjugate-gradient driver (`PCG` of
`Math/CG.h`, not under the sources), section 4.3 of the specification: it maintains the
residual `r = b - A x` and the search direction `d` (the preconditioner applied to `r`),
iterates as `PCGLoop` says and reports the number of iterations made and the final
residual norm. -/
def PCG {P : Type} (norm : FDMVector2 → ℚ)
    (solve : P → FDMVector2 → FDMVector2 → Except Fault (P × FDMVector2)) : PCGDriver P :=
  fun args => do
    let r := FDMBLAS2.Residual args.A args.x args.b
    let (M, d) ← solve args.M r args.d
    let sigma := FDMBLAS2.Dot r d
    let st ← PCGLoop norm solve args.A args.tolerance args.maxNumberOfIterations
      { M := M, x := args.x, r := r, d := d, q := args.q, s := args.s, sigma := sigma,
        iter := 0 }
    pure { M := st.M, x := st.x, r := st.r, d := st.d, q := st.q, s := st.s,
           lastNumberOfIterations := st.iter, lastResidualNorm := norm st.r }

/-- The maximum norm of a grid: the largest absolute value of a cell (`0` for an empty
grid); one residual norm with which `PCG` can be run. -/
def maxNorm (v : FDMVector2) : ℚ :=
  (List.range v.size.y).foldl (fun m j =>
    (List.range v.size.x).foldl (fun m i => max m |v.cell i j|) m) 0

/-- Modelled from the spec: `Array2::Set(other)` (not under the sources): the array becomes
a copy of `other`, its size included. -/
def Array2.SetArray {α : Type} (_a other : Array2 α) : Array2 α := other

/-- The arguments of a call `MGVCycle(A, params, &x, &b, &buffer)`, as they are when the
call is made. -/
structure MGVCycleArguments (MGParams : Type) where
  A : FDMMGMatrix2
  params : MGParams
  x : FDMMGVector2
  b : FDMMGVector2
  buffer : FDMMGVector2

/-- What a call of `MGVCycle` leaves in the three hierarchies it was given pointers to. -/
structure MGVCycleOutcome where
  x : FDMMGVector2
  b : FDMMGVector2
  buffer : FDMMGVector2

/-- A V-cycle: any function from the arguments of `MGVCycle` to what it leaves behind. -/
abbrev MGVCycleFunction (MGParams : Type) :=
  MGVCycleArguments MGParams → Except Fault MGVCycleOutcome

/-- A run that keeps the list of the calls (their arguments, in order) made so far to a
function given as a parameter. -/
abbrev Traced (C : Type) (α : Type) := StateT (List C) (Except Fault) α

/-- One call of the function `f` with the argument `c`: the call is appended to the list
of calls, then `f c` is the result. -/
def invoke {C R : Type} (f : C → Except Fault R) (c : C) : Traced C R := do
  modify (fun calls => calls ++ [c])
  StateT.lift (f c)

namespace FDMMGPCGSolver2

/-- The function `FDMMGPCGSolver2::Preconditioner::Solve(b, x)`; `system` is the system
that the member `system` points to, as it is when the call is made, and the result is the
new `*x`. The three hierarchies are copies of the solution hierarchy of that system; the
function writes to the copies and to `*x` only. -/
def Preconditioner.Solve {MGParams : Type} (MGVCycle : MGVCycleFunction MGParams)
    (self : Preconditioner MGParams) (system : FDMMGLinearSystem2) (b x : FDMVector2) :
    Traced (MGVCycleArguments MGParams) FDMVector2 := do
  let mgX := system.x
  let mgB := system.x
  let mgBuffer := system.x
  let x0 ← StateT.lift (front mgX.levels)
  let mgXlevels ← StateT.lift (setFront mgX.levels (x0.SetArray x))
  let b0 ← StateT.lift (front mgB.levels)
  let mgBlevels ← StateT.lift (setFront mgB.levels (b0.SetArray b))
  let out ← invoke MGVCycle
    { A := system.A, params := self.mgParams, x := ⟨mgXlevels⟩, b := ⟨mgBlevels⟩,
      buffer := mgBuffer }
  let top ← StateT.lift (front out.x.levels)
  pure (x.SetArray top)

end FDMMGPCGSolver2

/-! ## The smoother and the V-cycle, modelled from the specification

The smoothers (`FDMGaussSeidelSolver2::Relax`) and `MGVCycle` are not part of the sources
at hand. -/

/-- Modelled from the spec: the parameter set of the V-cycle (`MGParameters<FDMBLAS2>`, not
under the sources), section 4.5 of the specification. -/
structure MGParameters where
  numberOfRestrictionIter : Nat
  numberOfCorrectionIter : Nat
  numberOfCoarsestIter : Nat
  numberOfFinalIter : Nat
  sorFactor : ℚ
  useRedBlackOrdering : Bool

/-- Modelled from the spec: the update of one cell in a smoothing sweep (the smoothers are
not under the sources), section 4.2 of the specification: the value of the cell moves by
`sorFactor` times its current residual `b - A x`, divided by the centre coefficient. -/
def RelaxCell (A : FDMMatrix2) (b : FDMVector2) (sorFactor : ℚ) (i j : Nat) (x : FDMVector2) :
    Except Fault FDMVector2 := do
  let r := b.cell i j - (FDMBLAS2.MVM A x).cell i j
  let q ← divide (sorFactor * r) (A.cell i j).center
  x.put i j (x.cell i j + q)

/-- Modelled from the spec: one smoothing sweep `Relax(system, sorFactor,
useRedBlackOrdering)` (the smoothers are not under the sources), section 4.2 of the
specification. Without red-black ordering every cell is updated in place in raster order;
with it the sweep is two passes, first over the cells whose coordinate sum is even, then
over those whose coordinate sum is odd. -/
def Relax (A : FDMMatrix2) (b : FDMVector2) (sorFactor : ℚ) (useRedBlackOrdering : Bool)
    (x : FDMVector2) : Except Fault FDMVector2 :=
  if useRedBlackOrdering then do
    let x ← Array2.ForEachIndex A.size
      (fun i j x => if (i + j) % 2 = 0 then RelaxCell A b sorFactor i j x else pure x) x
    Array2.ForEachIndex A.size
      (fun i j x => if (i + j) % 2 = 1 then RelaxCell A b sorFactor i j x else pure x) x
  else
    Array2.ForEachIndex A.size (RelaxCell A b sorFactor) x

/-- Modelled from the spec: `n` smoothing sweeps in a row. -/
def RelaxSweeps (A : FDMMatrix2) (b : FDMVector2) (params : MGParameters) :
    Nat → FDMVector2 → Except Fault FDMVector2
  | 0, x => .ok x
  | n + 1, x => do
    let x ← Relax A b params.sorFactor params.useRedBlackOrdering x
    RelaxSweeps A b params n x

/-- Modelled from the spec: the descent and ascent of the V-cycle over the levels, finest
first (`MGVCycle` is not under the sources), steps 1 to 3 of section 4.5 of the
specification. On a level that is not the coarsest: `numberOfRestrictionIter` smoothing
sweeps, the residual (kept in the buffer), its restriction to the right-hand side of the
next level, that level's solution reset to zero, the levels below, the correction of this
level's solution by the next level's solution, `numberOfCorrectionIter` smoothing sweeps.
On the coarsest level: `numberOfCoarsestIter` smoothing sweeps. -/
def MGVCycleLevels (params : MGParameters) :
    List FDMMatrix2 → List FDMVector2 → List FDMVector2 → List FDMVector2 →
      Except Fault (List FDMVector2 × List FDMVector2 × List FDMVector2)
  | [A], [x], [b], [buffer] => do
    let x ← RelaxSweeps A b params params.numberOfCoarsestIter x
    pure ([x], [b], [buffer])
  | A :: A1 :: As, x :: x1 :: xs, b :: b1 :: bs, _ :: buffers => do
    let x ← RelaxSweeps A b params params.numberOfRestrictionIter x
    let r := FDMBLAS2.Residual A x b
    let b1 ← FDMMGUtils2.Restrict r b1
    let x1 := x1.Set 0
    let (xs, bs, buffers) ← MGVCycleLevels params (A1 :: As) (x1 :: xs) (b1 :: bs) buffers
    let x1 ← front xs
    let x ← FDMMGUtils2.Correct x1 x
    let x ← RelaxSweeps A b params params.numberOfCorrectionIter x
    pure (x :: xs, b :: bs, r :: buffers)
  | _, _, _, _ => .error .outOfRange

/-- Modelled from the spec: one V-cycle (`MGVCycle` of `Core/Math/MG.h`, not under the
sources), section 4.5 of the specification: the descent and ascent over the levels, then
`numberOfFinalIter` more smoothing sweeps on the finest level. -/
def MGVCycle : MGVCycleFunction MGParameters :=
  fun args => do
    let (xs, bs, buffers) ←
      MGVCycleLevels args.params args.A.levels args.x.levels args.b.levels args.buffer.levels
    let A0 ← front args.A.levels
    let b0 ← front bs
    let x0 ← front xs
    let x0 ← RelaxSweeps A0 b0 args.params args.params.numberOfFinalIter x0
    let xs ← setFront xs x0
    pure { x := ⟨xs⟩, b := ⟨bs⟩, buffer := ⟨buffers⟩ }

/-! ## Triangle mesh (TriangleMesh3.cpp) -/

/-- Modelled from the spec: `Vector2D`, a pair of numbers (its header is not under the
sources). -/
structure Vector2D where
  x : ℚ
  y : ℚ

/-- Modelled from the spec: `Vector3D`, a triple of numbers (its header is not under the
sources). -/
structure Vector3D where
  x : ℚ
  y : ℚ
  z : ℚ

/-- Modelled from the spec: `Point3UI`, a triple of indices (its header is not under the
sources). -/
structure Point3UI where
  x : Nat
  y : Nat
  z : Nat

/-- The members of `TriangleMesh3` that the functions below use; an array with `Append`
is a list that grows at its end. -/
structure TriangleMesh3 where
  m_points : List Vector3D
  m_normals : List Vector3D
  m_uvs : List Vector2D
  m_pointIndices : List Point3UI
  m_normalIndices : List Point3UI
  m_uvIndices : List Point3UI
  m_bvhInvalidated : Bool

namespace TriangleMesh3

/-- A mesh without points, normals, UVs and triangles. -/
def empty : TriangleMesh3 := ⟨[], [], [], [], [], [], true⟩

/-- The function `TriangleMesh3::InvalidateBVH()`. -/
def InvalidateBVH (self : TriangleMesh3) : TriangleMesh3 :=
  { self with m_bvhInvalidated := true }

/-- The function `TriangleMesh3::NumberOfUVs()`. -/
def NumberOfUVs (self : TriangleMesh3) : Nat := self.m_uvs.length

/-- The function `TriangleMesh3::NumberOfTriangles()`. -/
def NumberOfTriangles (self : TriangleMesh3) : Nat := self.m_pointIndices.length

/-- The function `TriangleMesh3::AddPoint(pt)`. -/
def AddPoint (self : TriangleMesh3) (pt : Vector3D) : TriangleMesh3 :=
  { self with m_points := self.m_points ++ [pt] }

/-- The function `TriangleMesh3::AddNormal(n)`. -/
def AddNormal (self : TriangleMesh3) (n : Vector3D) : TriangleMesh3 :=
  { self with m_normals := self.m_normals ++ [n] }

/-- The function `TriangleMesh3::AddUV(t)`. -/
def AddUV (self : TriangleMesh3) (t : Vector2D) : TriangleMesh3 :=
  { self with m_uvs := self.m_uvs ++ [t] }

/-- The function `TriangleMesh3::AddPointTriangle(newPointIndices)`. -/
def AddPointTriangle (self : TriangleMesh3) (newPointIndices : Point3UI) : TriangleMesh3 :=
  InvalidateBVH { self with m_pointIndices := self.m_pointIndices ++ [newPointIndices] }

/-- The function `TriangleMesh3::AddPointUVNormalTriangle(newPointIndices, newUVIndices,
newNormalIndices)`. -/
def AddPointUVNormalTriangle (self : TriangleMesh3)
    (newPointIndices newUVIndices newNormalIndices : Point3UI) : Except Fault TriangleMesh3 :=
  if self.m_pointIndices.length ≠ self.m_normalIndices.length then .error .assertion
  else if self.m_pointIndices.length ≠ self.m_uvIndices.length then .error .assertion
  else
    .ok (InvalidateBVH
      { self with
        m_pointIndices := self.m_pointIndices ++ [newPointIndices],
        m_normalIndices := self.m_normalIndices ++ [newNormalIndices],
        m_uvIndices := self.m_uvIndices ++ [newUVIndices] })

/-- The function `TriangleMesh3::AddPointUVTriangle(newPointIndices, newUVIndices)`; its
assert compares `m_pointIndices.size()` with `m_uvs.size()`. -/
def AddPointUVTriangle (self : TriangleMesh3) (newPointIndices newUVIndices : Point3UI) :
    Except Fault TriangleMesh3 :=
  if self.m_pointIndices.length ≠ self.m_uvs.length then .error .assertion
  else
    .ok (InvalidateBVH
      { self with
        m_pointIndices := self.m_pointIndices ++ [newPointIndices],
        m_uvIndices := self.m_uvIndices ++ [newUVIndices] })

end TriangleMesh3

/-! ## Bounding box (BoundingBox2-Impl.h) -/

/-- The class `BoundingBox<T, 2>`: an axis-aligned box kept as its two corners. -/
structure BoundingBox2 where
  lowerCorner : Vector2D
  upperCorner : Vector2D

namespace BoundingBox2

/-- The method `BoundingBox<T, 2>::Overlaps`. -/
def Overlaps (self other : BoundingBox2) : Bool :=
  if self.upperCorner.x < other.lowerCorner.x ∨ self.lowerCorner.x > other.upperCorner.x then
    false
  else if self.upperCorner.y < other.lowerCorner.y ∨
      self.lowerCorner.y > other.upperCorner.y then
    false
  else
    true

/-- The method `BoundingBox<T, 2>::Contains`. -/
def Contains (self : BoundingBox2) (point : Vector2D) : Bool :=
  if self.upperCorner.x < point.x ∨ self.lowerCorner.x > point.x then
    false
  else if self.upperCorner.y < point.y ∨ self.lowerCorner.y > point.y then
    false
  else
    true

/-- The method `BoundingBox<T, 2>::Reset`; `numericMax` is `std::numeric_limits<T>::max()`,
the largest finite value of the number type `T`. -/
def Reset (numericMax : ℚ) (_self : BoundingBox2) : BoundingBox2 :=
  { lowerCorner := ⟨numericMax, numericMax⟩
    upperCorner := ⟨-numericMax, -numericMax⟩ }

/-- The method `BoundingBox<T, 2>::Merge` for a point. -/
def Merge (self : BoundingBox2) (point : Vector2D) : BoundingBox2 :=
  { lowerCorner := ⟨min self.lowerCorner.x point.x, min self.lowerCorner.y point.y⟩
    upperCorner := ⟨max self.upperCorner.x point.x, max self.upperCorner.y point.y⟩ }

end BoundingBox2

/-! ## Cylinder (Cylinder3.cpp) -/

namespace Vector2D

/-- Modelled from the spec: `Vector2D::LengthSquared()`. -/
def LengthSquared (v : Vector2D) : ℚ := v.x * v.x + v.y * v.y

end Vector2D

namespace Vector3D

/-- Modelled from the spec: the difference `a - b` of two vectors. -/
def sub (a b : Vector3D) : Vector3D := ⟨a.x - b.x, a.y - b.y, a.z - b.z⟩

/-- Modelled from the spec: the sum `a + b` of two vectors. -/
def add (a b : Vector3D) : Vector3D := ⟨a.x + b.x, a.y + b.y, a.z + b.z⟩

/-- The vector `v` after the assignment `v.y = 0.0`. -/
def horizontal (v : Vector3D) : Vector3D := ⟨v.x, 0, v.z⟩

/-- Modelled from the spec: `Vector3D::LengthSquared()`. -/
def LengthSquared (v : Vector3D) : ℚ := v.x * v.x + v.y * v.y + v.z * v.z

/-- Modelled from the spec: `Vector3D::Dot(other)`. -/
def Dot (v w : Vector3D) : ℚ := v.x * w.x + v.y * w.y + v.z * w.z

end Vector3D

/-- Modelled from the spec: `Ray3D`, a ray given by its origin and its direction (its header
is not under the sources). -/
structure Ray3D where
  origin : Vector3D
  direction : Vector3D

/-- Modelled from the spec: `Ray3D::PointAt(t)`, the point `origin + t * direction`. -/
def Ray3D.PointAt (ray : Ray3D) (t : ℚ) : Vector3D :=
  ⟨ray.origin.x + t * ray.direction.x, ray.origin.y + t * ray.direction.y,
    ray.origin.z + t * ray.direction.z⟩

/-- Modelled from the spec: `BoundingBox3D`, a box kept as its two corners (its header is
not under the sources). -/
structure BoundingBox3D where
  lowerCorner : Vector3D
  upperCorner : Vector3D

/-- Modelled from the spec: `Plane3`, a plane given by its normal and a point on it (its
files are not under the sources). -/
structure Plane3 where
  normal : Vector3D
  point : Vector3D

/-- Modelled from the spec: `SurfaceRayIntersection3`, the result of a ray query (its header
is not under the sources). -/
structure SurfaceRayIntersection3 where
  isIntersecting : Bool
  distance : ℚ
  point : Vector3D
  normal : Vector3D

/-- The value `std::numeric_limits<double>::epsilon()`, which is `2^-52`. -/
def doubleEpsilon : ℚ := 1 / 2 ^ 52

/-- The members `center`, `radius` and `height` of `Cylinder3`. -/
structure Cylinder3 where
  center : Vector3D
  radius : ℚ
  height : ℚ

namespace Cylinder3

/-- The function `Cylinder3::BoundingBoxLocal()`. -/
def BoundingBoxLocal (self : Cylinder3) : BoundingBox3D :=
  ⟨self.center.sub ⟨self.radius, 1 / 2 * self.height, self.radius⟩,
    self.center.add ⟨self.radius, 1 / 2 * self.height, self.radius⟩⟩

/-- The function `Cylinder3::IntersectsLocal(ray)`. Three things it calls are not under the
sources and are parameters here: `sqrt` is `std::sqrt`, `BoundingBox` is
`Surface3::BoundingBox()` of this cylinder, and `ClosestIntersection` is
`Plane3::ClosestIntersection`. The two divisions by `A` are made where `A` is at least
`epsilon`. -/
def IntersectsLocal (sqrt : ℚ → ℚ) (BoundingBox : Cylinder3 → BoundingBox3D)
    (ClosestIntersection : Plane3 → Ray3D → SurfaceRayIntersection3)
    (self : Cylinder3) (ray : Ray3D) : Bool :=
  let d := ray.direction.horizontal
  let o := (ray.origin.sub self.center).horizontal
  let A := d.LengthSquared
  let B := d.Dot o
  let C := o.LengthSquared - Square self.radius
  let bbox := BoundingBox self
  let upperPlane : Plane3 := ⟨⟨0, 1, 0⟩, bbox.upperCorner⟩
  let lowerPlane : Plane3 := ⟨⟨0, -1, 0⟩, bbox.lowerCorner⟩
  let upperIntersection := ClosestIntersection upperPlane ray
  let lowerIntersection := ClosestIntersection lowerPlane ray
  if A < doubleEpsilon ∨ B * B - A * C < 0 then
    let r := ray.origin.sub self.center
    let rr : Vector2D := ⟨r.x, r.z⟩
    if rr.LengthSquared ≤ Square self.radius ∧
        (upperIntersection.isIntersecting = true ∨ lowerIntersection.isIntersecting = true) then
      true
    else
      false
  else
    let t1 := (-B + sqrt (B * B - A * C)) / A
    let t2 := (-B - sqrt (B * B - A * C)) / A
    let tCylinder := if t2 < 0 then t1 else t2
    let pointOnCylinder := ray.PointAt tCylinder
    if pointOnCylinder.y ≥ self.center.y - 1 / 2 * self.height ∨
        pointOnCylinder.y ≤ self.center.y + 1 / 2 * self.height then
      true
    else if upperIntersection.isIntersecting = true ∧
        (upperIntersection.point.sub self.center).horizontal.LengthSquared
          ≤ Square self.radius then
      true
    else if lowerIntersection.isIntersecting = true ∧
        (lowerIntersection.point.sub self.center).horizontal.LengthSquared
          ≤ Square self.radius then
      true
    else
      false

end Cylinder3

/-! ## Volume particle emitter (VolumeParticleEmitter2.cpp) -/

namespace Vector2D

/-- Modelled from the spec: the sum `a + b` of two vectors. -/
def add (a b : Vector2D) : Vector2D := ⟨a.x + b.x, a.y + b.y⟩

/-- Modelled from the spec: the product `s * v` of a number and a vector. -/
def scale (s : ℚ) (v : Vector2D) : Vector2D := ⟨s * v.x, s * v.y⟩

/-- Modelled from the spec: `Vector2D::DistanceSquaredTo(other)`. -/
def DistanceSquaredTo (a b : Vector2D) : ℚ :=
  (a.x - b.x) * (a.x - b.x) + (a.y - b.y) * (a.y - b.y)

end Vector2D

/-- Modelled from the spec: `Matrix2x2D`, a matrix with the rows `(m00, m01)` and
`(m10, m11)` (its header is not under the sources). -/
structure Matrix2x2D where
  m00 : ℚ
  m01 : ℚ
  m10 : ℚ
  m11 : ℚ

/-- Modelled from the spec: the product `m * v` of a matrix and a vector. -/
def Matrix2x2D.mulVec (m : Matrix2x2D) (v : Vector2D) : Vector2D :=
  ⟨m.m00 * v.x + m.m01 * v.y, m.m10 * v.x + m.m11 * v.y⟩

/-- Modelled from the spec: the constant `PI_DOUBLE`, the `double` nearest to pi. -/
def PI_DOUBLE : ℚ := 884279719003555 / 281474976710656

/-- Modelled from the spec: `Array1::Resize(size)` on an array kept as a list: the first
`size` entries stay, new entries are `Vector2D()`, the zero vector. -/
def Array1.Resize (a : List Vector2D) (size : Nat) : List Vector2D :=
  a.take size ++ List.replicate (size - a.length) ⟨0, 0⟩

/-- Modelled from the spec: `Array1::Set(value)`: every entry becomes `value`. -/
def Array1.Set (a : List Vector2D) (value : Vector2D) : List Vector2D :=
  a.map (fun _ => value)

/-- Modelled from the spec: `PointHashGridSearcher2` (not under the sources), kept as the
list of the points it holds. -/
structure PointHashGridSearcher2 where
  points : List Vector2D

namespace PointHashGridSearcher2

/-- Modelled from the spec: `Build(points)` replaces the points held by `points`. -/
def Build (_self : PointHashGridSearcher2) (points : List Vector2D) :
    PointHashGridSearcher2 := ⟨points⟩

/-- Modelled from the spec: `Add(point)` adds one point. -/
def Add (self : PointHashGridSearcher2) (point : Vector2D) : PointHashGridSearcher2 :=
  ⟨self.points ++ [point]⟩

/-- Modelled from the spec: `HasNearbyPoint(origin, radius)` tells whether a held point lies
within the distance `radius` of `origin`. -/
def HasNearbyPoint (self : PointHashGridSearcher2) (origin : Vector2D) (radius : ℚ) : Bool :=
  self.points.any (fun p => decide (p.DistanceSquaredTo origin ≤ radius * radius))

end PointHashGridSearcher2

/-- Modelled from the spec: `PointGenerator2::ForEachPoint(bounds, spacing, callback)` (not
under the sources) calls `callback` for the points it generates, in order, until a call
returns `false`; `points` are the generated points and the state `s` is what the callback
captures by reference and updates. -/
def ForEachPoint {σ : Type} (callback : Vector2D → σ → σ × Bool) :
    List Vector2D → σ → σ
  | [], s => s
  | point :: rest, s =>
    if (callback point s).2 = true then ForEachPoint callback rest (callback point s).1
    else (callback point s).1

/-- The members of `VolumeParticleEmitter2`. The generator `m_rng` is kept as the stream of
the draws of `Random()` still to come, the surface `m_implicitSurface` as its signed
distance function (`none` is `nullptr`), and the point generator `m_pointsGen` as the
function that gives the points `ForEachPoint` visits for a box and a spacing. -/
structure VolumeParticleEmitter2 where
  m_rng : Nat → ℚ
  m_implicitSurface : Option (Vector2D → ℚ)
  m_bounds : BoundingBox2
  m_spacing : ℚ
  m_initialVel : Vector2D
  m_pointsGen : BoundingBox2 → ℚ → List Vector2D
  m_maxNumberOfParticles : Nat
  m_numberOfEmittedParticles : Nat
  m_jitter : ℚ
  m_isOneShot : Bool
  m_allowOverlapping : Bool

namespace VolumeParticleEmitter2

/-- The function `VolumeParticleEmitter2::GetJitter()`. -/
def GetJitter (self : VolumeParticleEmitter2) : ℚ := self.m_jitter

/-- The function `VolumeParticleEmitter2::Random()`: the next draw, and the emitter with
the generator advanced. -/
def Random (self : VolumeParticleEmitter2) : ℚ × VolumeParticleEmitter2 :=
  (self.m_rng 0, { self with m_rng := fun k => self.m_rng (k + 1) })

/-- The first five statements of both callbacks of `Emit`: the candidate position for the
lattice point `point`, and the emitter after the draw. `MakeRotationMatrix` is
`Matrix2x2D::MakeRotationMatrix`, which is not under the sources. -/
def candidateFor (MakeRotationMatrix : ℚ → Matrix2x2D) (maxJitterDist : ℚ)
    (point : Vector2D) (self : VolumeParticleEmitter2) : Vector2D × VolumeParticleEmitter2 :=
  let newAngleInRadian := (self.Random.1 - 1 / 2) * (2 * PI_DOUBLE)
  let rotationMatrix := MakeRotationMatrix newAngleInRadian
  let randomDir := rotationMatrix.mulVec ⟨0, 0⟩
  let offset := Vector2D.scale maxJitterDist randomDir
  (point.add offset, self.Random.2)

/-- The callback of the first `ForEachPoint` of `Emit` (overlapping allowed, or one-shot);
it captures the emitter and `*newPositions`. -/
def emitOverlapping (MakeRotationMatrix : ℚ → Matrix2x2D) (surface : Vector2D → ℚ)
    (maxJitterDist : ℚ) (point : Vector2D) (s : VolumeParticleEmitter2 × List Vector2D) :
    (VolumeParticleEmitter2 × List Vector2D) × Bool :=
  let candidate := (candidateFor MakeRotationMatrix maxJitterDist point s.1).1
  let self := (candidateFor MakeRotationMatrix maxJitterDist point s.1).2
  if surface candidate ≤ 0 then
    if self.m_numberOfEmittedParticles < self.m_maxNumberOfParticles then
      (({ self with m_numberOfEmittedParticles := self.m_numberOfEmittedParticles + 1 },
        s.2 ++ [candidate]), true)
    else
      ((self, s.2), false)
  else
    ((self, s.2), true)

/-- The callback of the second `ForEachPoint` of `Emit`; it captures the emitter,
`*newPositions` and the neighbour searcher. -/
def emitSeparated (MakeRotationMatrix : ℚ → Matrix2x2D) (surface : Vector2D → ℚ)
    (maxJitterDist : ℚ) (point : Vector2D)
    (s : VolumeParticleEmitter2 × List Vector2D × PointHashGridSearcher2) :
    (VolumeParticleEmitter2 × List Vector2D × PointHashGridSearcher2) × Bool :=
  let candidate := (candidateFor MakeRotationMatrix maxJitterDist point s.1).1
  let self := (candidateFor MakeRotationMatrix maxJitterDist point s.1).2
  if surface candidate ≤ 0 ∧
      (self.m_allowOverlapping = false ∧
        s.2.2.HasNearbyPoint candidate self.m_spacing = false) then
    if self.m_numberOfEmittedParticles < self.m_maxNumberOfParticles then
      (({ self with m_numberOfEmittedParticles := self.m_numberOfEmittedParticles + 1 },
        s.2.1 ++ [candidate], s.2.2.Add candidate), true)
    else
      ((self, s.2.1, s.2.2), false)
  else
    ((self, s.2.1, s.2.2), true)

/-- The function `VolumeParticleEmitter2::Emit(particles, newPositions, newVelocities)`;
`particlePositions` is `particles->GetPositions()`, and the result is the emitter,
`*newPositions` and `*newVelocities` as the call leaves them. The call
`UpdateQueryEngine()` changes none of them. -/
def Emit (MakeRotationMatrix : ℚ → Matrix2x2D) (self : VolumeParticleEmitter2)
    (particlePositions newPositions newVelocities : List Vector2D) :
    VolumeParticleEmitter2 × List Vector2D × List Vector2D :=
  match self.m_implicitSurface with
  | none => (self, newPositions, newVelocities)
  | some surface =>
    let j := self.GetJitter
    let maxJitterDist := 1 / 2 * j * self.m_spacing
    let points := self.m_pointsGen self.m_bounds self.m_spacing
    let r : VolumeParticleEmitter2 × List Vector2D :=
      if self.m_allowOverlapping = true ∨ self.m_isOneShot = true then
        ForEachPoint (emitOverlapping MakeRotationMatrix surface maxJitterDist) points
          (self, newPositions)
      else
        let neighborSearcher : PointHashGridSearcher2 :=
          if self.m_allowOverlapping = false then
            PointHashGridSearcher2.Build ⟨[]⟩ particlePositions
          else ⟨[]⟩
        let r3 := ForEachPoint (emitSeparated MakeRotationMatrix surface maxJitterDist) points
          (self, newPositions, neighborSearcher)
        (r3.1, r3.2.1)
    (r.1, r.2, Array1.Set (Array1.Resize newVelocities r.2.length) r.1.m_initialVel)

end VolumeParticleEmitter2

/-! ## The function Correct under worker threads

`ParallelRangeFor` is not part of the sources at hand. Section 5 of the specification has
a pool of worker threads execute the index ranges. The definitions below describe a run of
`Correct` in which the index range is cut into blocks, every block is run by one worker,
and the steps of the workers follow one another in any order. -/

/-- One statement `finer(p, q) += amount` of `Correct`. -/
structure FineUpdate where
  p : Nat
  q : Nat
  amount : ℚ

/-- The statement `finer(p, q) += amount`, run without interruption: the cell is read, then
the sum is stored. -/
def FineUpdate.run (finer : FDMVector2) (u : FineUpdate) : Except Fault FDMVector2 := do
  let old ← finer.get u.p u.q
  finer.put u.p u.q (old + u.amount)

namespace FDMMGUtils2

/-- The sixteen statements `finer(iIndices[x], jIndices[y]) += kernel[x] * kernel[y] * cij`
that the two innermost loops of `Correct` execute for the coarse cell `(i, j)`, in program
order (`y` outermost). -/
def correctCellStatements (n : Size2) (i j : Nat) (cij : ℚ) : List FineUpdate :=
  (List.range 4).flatMap (fun y => (List.range 4).map (fun x =>
    ⟨fineIndices n.x i x, fineIndices n.y j y, correctKernel x * correctKernel y * cij⟩))

/-- The statements that the function which `Correct` passes to `ParallelRangeFor` executes
on the index range `[iBegin, iEnd) x [jBegin, jEnd)`, in program order; reading
`coarser(i, j)` outside of the coarse grid is a fault. -/
def correctStatements (coarser : FDMVector2) (n : Size2) (iBegin iEnd jBegin jEnd : Nat) :
    Except Fault (List FineUpdate) :=
  List.foldlM (fun statements j =>
    List.foldlM (fun statements i => do
      let cij ← coarser.get i j
      pure (statements ++ correctCellStatements n i j cij)) statements
      (loopRange iBegin iEnd))
    [] (loopRange jBegin jEnd)

end FDMMGUtils2

/-- Modelled from the spec: a worker thread of the pool (section 5 of the specification)
that runs one block: the statements it still has to execute and, while it is in the middle
of a `+=`, the value it has read. -/
structure Worker where
  statements : List FineUpdate
  loaded : Option ℚ

/-- Modelled from the spec: one step of a worker on the fine grid that all workers share.
The statement `finer(p, q) += amount` is not atomic: it is a read of the cell followed by
a store of the sum, and other workers can take steps in between. A worker without
statements left does nothing. -/
def Worker.step (w : Worker) (finer : FDMVector2) : Except Fault (Worker × FDMVector2) :=
  match w.statements, w.loaded with
  | [], _ => .ok (w, finer)
  | u :: _, none => do
    let old ← finer.get u.p u.q
    pure ({ w with loaded := some old }, finer)
  | u :: rest, some old => do
    let finer ← finer.put u.p u.q (old + u.amount)
    pure ({ statements := rest, loaded := none }, finer)

/-- Modelled from the spec: a run of the workers. The schedule lists, step by step, the
number of the worker that takes the next step (a number that names no worker is skipped);
the result is the workers and the fine grid after the last step. -/
def runWorkers :
    List Nat → List Worker → FDMVector2 → Except Fault (List Worker × FDMVector2)
  | [], workers, finer => .ok (workers, finer)
  | k :: rest, workers, finer =>
    match workers[k]? with
    | none => runWorkers rest workers finer
    | some w => do
      let r ← w.step finer
      runWorkers rest (workers.set k r.1) r.2

/-- An index range `[iBegin, iEnd) x [jBegin, jEnd)` handed to one worker. -/
structure IndexBlock where
  iBegin : Nat
  iEnd : Nat
  jBegin : Nat
  jEnd : Nat

/-- Modelled from the spec: `FDMMGUtils2::Correct(coarser, finer)` when `ParallelRangeFor`
cuts the index range into `blocks` and hands every block to a worker of its own; the
workers take their steps as `schedule` says. The result is the workers and `*finer` after
the last step of the schedule. -/
def CorrectWithWorkers (coarser finer : FDMVector2) (blocks : List IndexBlock)
    (schedule : List Nat) : Except Fault (List Worker × FDMVector2) :=
  if finer.size.x ≠ 2 * coarser.size.x then .error .assertion
  else if finer.size.y ≠ 2 * coarser.size.y then .error .assertion
  else do
    let n := coarser.size
    let workers ← blocks.mapM (fun block => do
      let statements ← FDMMGUtils2.correctStatements coarser n block.iBegin block.iEnd
        block.jBegin block.jEnd
      pure ({ statements := statements, loaded := none } : Worker))
    runWorkers schedule workers finer

/-! ## Auxiliary definitions used in the statements -/

/-- The cells visited by two nested loops, the outer one over `ly` (second coordinate),
the inner one over `lx` (first coordinate), in the order of the visits. -/
def visitOrder (lx ly : List Nat) : List (Nat × Nat) :=
  ly.flatMap (fun j => lx.map (fun i => (i, j)))

/-- The value `Restrict` computes for the coarse cell `(i, j)` of a coarse grid of size `n`:
the sum over `a, c` in `0..3` of `k[a] * k[c] * finer(I_a(i), J_c(j))`. -/
def restrictValue (finer : FDMVector2) (n : Size2) (i j : Nat) : ℚ :=
  ∑ a in Finset.range 4, ∑ c in Finset.range 4,
    FDMMGUtils2.restrictKernel a * FDMMGUtils2.restrictKernel c *
      finer.cell (FDMMGUtils2.fineIndices n.x i a) (FDMMGUtils2.fineIndices n.y j c)

/-- The amount `Correct` adds to the fine cell `(p, q)`: the sum, over all coarse cells
`(i, j)` of a coarse grid of size `n` and all slots `a, b` in `0..3` whose fine indices are
`(p, q)`, of `k[a] * k[b] * coarser(i, j)`. -/
def correctValue (coarser : FDMVector2) (n : Size2) (p q : Nat) : ℚ :=
  ∑ j in Finset.range n.y, ∑ i in Finset.range n.x,
    ∑ b in Finset.range 4, ∑ a in Finset.range 4,
      if p = FDMMGUtils2.fineIndices n.x i a ∧ q = FDMMGUtils2.fineIndices n.y j b then
        FDMMGUtils2.correctKernel a * FDMMGUtils2.correctKernel b * coarser.cell i j
      else 0

/-- What one call of `Emit` in a sequence of calls did: the number of particles emitted
before the call, and the two arrays it returned. -/
structure EmitRecord where
  emittedBefore : Nat
  newPositions : List Vector2D
  newVelocities : List Vector2D

/-- A sequence of calls of `Emit` on the same emitter, each made as `OnUpdate` makes it,
with two new empty arrays; `calls` lists, for every call, the positions the particle
system holds at that call. The result is the emitter after the last call and the record
of every call. -/
def EmitCalls (MakeRotationMatrix : ℚ → Matrix2x2D) :
    VolumeParticleEmitter2 → List (List Vector2D) → VolumeParticleEmitter2 × List EmitRecord
  | self, [] => (self, [])
  | self, particlePositions :: rest =>
    ((EmitCalls MakeRotationMatrix
        (VolumeParticleEmitter2.Emit MakeRotationMatrix self particlePositions [] []).1
        rest).1,
      ⟨self.m_numberOfEmittedParticles,
        (VolumeParticleEmitter2.Emit MakeRotationMatrix self particlePositions [] []).2.1,
        (VolumeParticleEmitter2.Emit MakeRotationMatrix self particlePositions [] []).2.2⟩ ::
      (EmitCalls MakeRotationMatrix
        (VolumeParticleEmitter2.Emit MakeRotationMatrix self particlePositions [] []).1
        rest).2)

/-! ## The transfer operators as the specification words them -/

namespace Spec

/-- The restriction weights `k = (1/8, 3/8, 3/8, 1/8)`. -/
def restrictWeights : List ℚ := [1 / 8, 3 / 8, 3 / 8, 1 / 8]

/-- The correction weights `k = (1/4, 3/4, 3/4, 1/4)`. -/
def correctWeights : List ℚ := [1 / 4, 3 / 4, 3 / 4, 1 / 4]

/-- The clamped neighbourhood of the coarse index `i` on an axis of `n` coarse cells:
`I(i) = (2i-1 if i > 0 else 2i, 2i, 2i+1, 2i+2 if i+1 < n else 2i+1)`. -/
def clampedIndices (n i : Nat) : List Nat :=
  [if i > 0 then 2 * i - 1 else 2 * i, 2 * i, 2 * i + 1,
    if i + 1 < n then 2 * i + 2 else 2 * i + 1]

/-- The restricted value of the coarse cell `(i, j)`: the sum over `a, c` in `0..3` of
`k[a] * k[c] * fine(I_a(i), J_c(j))`. -/
def restrictValue (fine : Nat → Nat → ℚ) (nx ny i j : Nat) : ℚ :=
  ∑ a in Finset.range 4, ∑ c in Finset.range 4,
    restrictWeights.getD a 0 * restrictWeights.getD c 0 *
      fine ((clampedIndices nx i).getD a 0) ((clampedIndices ny j).getD c 0)

/-- The correction received by the fine cell `(p, q)`: the sum of `k[a] * k[b] * c(i, j)`
over all coarse cells `(i, j)` and slots `a, b` in `0..3` whose clamped fine indices
equal `(p, q)`. -/
def correctValue (c : Nat → Nat → ℚ) (nx ny p q : Nat) : ℚ :=
  ∑ i in Finset.range nx, ∑ j in Finset.range ny,
    ∑ a in Finset.range 4, ∑ b in Finset.range 4,
      if (clampedIndices nx i).getD a 0 = p ∧ (clampedIndices ny j).getD b 0 = q then
        correctWeights.getD a 0 * correctWeights.getD b 0 * c i j
      else 0

end Spec

/-! ## The incomplete-Cholesky preconditioner as the specification words it -/

namespace Spec

/-- The factorization denominator of the cell `(i, j)`:
`center(i,j) - right(i-1,j)^2 * d(i-1,j) - up(i,j-1)^2 * d(i,j-1)`, where a term is `0`
when `i = 0`, respectively `j = 0`. -/
def factorDenom (A : Nat → Nat → FDMMatrixRow2) (d : Nat → Nat → ℚ) (i j : Nat) : ℚ :=
  (A i j).center
    - (if i = 0 then 0 else (A (i - 1) j).right ^ 2 * d (i - 1) j)
    - (if j = 0 then 0 else (A i (j - 1)).up ^ 2 * d i (j - 1))

/-- The factor of the cell `(i, j)`: `1 / denom`, and `0` when the denominator is zero. -/
def factorValue (A : Nat → Nat → FDMMatrixRow2) (d : Nat → Nat → ℚ) (i j : Nat) : ℚ :=
  if factorDenom A d i j = 0 then 0 else 1 / factorDenom A d i j

/-- Forward substitution at `(i, j)`:
`(b(i,j) - right(i-1,j) * y(i-1,j) - up(i,j-1) * y(i,j-1)) * d(i,j)`, where a term is `0`
when its neighbour is outside the grid. -/
def forwardValue (A : Nat → Nat → FDMMatrixRow2) (d b y : Nat → Nat → ℚ) (i j : Nat) : ℚ :=
  (b i j
    - (if i = 0 then 0 else (A (i - 1) j).right * y (i - 1) j)
    - (if j = 0 then 0 else (A i (j - 1)).up * y i (j - 1))) * d i j

/-- Backward substitution at `(i, j)` on a grid of extents `(sx, sy)`:
`(y(i,j) - right(i,j) * x(i+1,j) - up(i,j) * x(i,j+1)) * d(i,j)`, where a term is `0`
when its neighbour is outside the grid. -/
def backwardValue (A : Nat → Nat → FDMMatrixRow2) (d y x : Nat → Nat → ℚ) (sx sy : Nat)
    (i j : Nat) : ℚ :=
  (y i j
    - (if i + 1 < sx then (A i j).right * x (i + 1) j else 0)
    - (if j + 1 < sy then (A i j).up * x i (j + 1) else 0)) * d i j

end Spec

/-! ## Concrete grids used to instantiate the theorems -/

namespace Examples

/-- A `4 x 2` fine grid with all cells equal to `5`. -/
def constFine : FDMVector2 := ⟨⟨4, 2⟩, fun _ _ => 5⟩

/-- A `4 x 2` fine grid with all cells equal to `0`. -/
def zeroFine : FDMVector2 := ⟨⟨4, 2⟩, fun _ _ => 0⟩

/-- A `4 x 2` fine grid with the cell values `i + 10 j`. -/
def rampFine : FDMVector2 := ⟨⟨4, 2⟩, fun i j => i + 10 * j⟩

/-- A `2 x 1` coarse grid with all cells equal to `7`. -/
def constCoarse : FDMVector2 := ⟨⟨2, 1⟩, fun _ _ => 7⟩

/-- A `2 x 1` coarse grid with the cell values `1 + i`. -/
def rampCoarse : FDMVector2 := ⟨⟨2, 1⟩, fun i _ => 1 + i⟩

end Examples

namespace Examples

/-- A `2 x 2` matrix with the coefficients `center = 4`, `right = up = -1` in every cell. -/
def matrix22 : FDMMatrix2 := ⟨⟨2, 2⟩, fun _ _ => ⟨4, -1, -1⟩⟩

/-- A `2 x 2` grid with the cell values `1 + i + 2 j`. -/
def ramp22 : FDMVector2 := ⟨⟨2, 2⟩, fun i j => 1 + i + 2 * j⟩

/-- A `2 x 2` grid with all cells equal to `0`. -/
def zero22 : FDMVector2 := ⟨⟨2, 2⟩, fun _ _ => 0⟩

/-- A `2 x 2` grid with all cells equal to `9`. -/
def nine22 : FDMVector2 := ⟨⟨2, 2⟩, fun _ _ => 9⟩

/-- A grid without cells. -/
def emptyVector : FDMVector2 := ⟨⟨0, 0⟩, fun _ _ => 0⟩

/-- A preconditioner that was never built. -/
def freshPreconditioner : FDMICCGSolver2.Preconditioner :=
  ⟨⟨⟨0, 0⟩, fun _ _ => ⟨0, 0, 0⟩⟩, emptyVector, emptyVector⟩

/-- An ICCG solver with at most `3` iterations and tolerance `1/4`, not used before. -/
def iccgSolver : FDMICCGSolver2 :=
  ⟨3, 0, 1 / 4, 1000, emptyVector, emptyVector, emptyVector, emptyVector, freshPreconditioner⟩

/-- A `2 x 2` system with the right-hand side `ramp22` and the initial guess `nine22`. -/
def system22 : FDMLinearSystem2 := ⟨matrix22, nine22, ramp22⟩

/-- The same system with an all-zero initial guess. -/
def system22b : FDMLinearSystem2 := ⟨matrix22, zero22, ramp22⟩

/-- A `2 x 2` system with an all-zero right-hand side and the initial guess `nine22`. -/
def systemZeroRhs : FDMLinearSystem2 := ⟨matrix22, nine22, zero22⟩

/-- A driver that does nothing and reports `3` iterations and the residual norm `1/2`. -/
def idleDriver (P : Type) : PCGDriver P :=
  fun a => .ok ⟨a.M, a.x, a.r, a.d, a.q, a.s, 3, 1 / 2⟩

/-- An MGPCG solver (parameters of type `Unit`) with at most `3` iterations and tolerance
`1/4`, not used before. -/
def mgpcgSolver : FDMMGPCGSolver2 Unit :=
  ⟨(), 3, 0, 1 / 4, 1000, emptyVector, emptyVector, emptyVector, emptyVector, ⟨()⟩⟩

/-- A driver for the multigrid solver that does nothing and reports `3` iterations and the
residual norm `1/2`. -/
def idleSystemDriver (MGParams : Type) : MGPCGDriver MGParams :=
  fun a => .ok ⟨a.system, a.M, a.r, a.d, a.q, a.s, 3, 1 / 2⟩

/-- A multigrid system with the single level `system22`. -/
def mgSystem : FDMMGLinearSystem2 := ⟨⟨[matrix22]⟩, ⟨[nine22]⟩, ⟨[ramp22]⟩⟩

end Examples

namespace Examples

/-- A `3 x 3` fine grid with all cells equal to `1`. -/
def fine33 : FDMVector2 := ⟨⟨3, 3⟩, fun _ _ => 1⟩

/-- A `2 x 2` coarse grid (the size `3 x 3` halved, rounded up) with all cells equal
to `1`. -/
def coarse22 : FDMVector2 := ⟨⟨2, 2⟩, fun _ _ => 1⟩

/-- A `1 x 1` matrix with `center = 2` and `right = up = 0`. -/
def diagonal11 : FDMMatrix2 := ⟨⟨1, 1⟩, fun _ _ => ⟨2, 0, 0⟩⟩

/-- A `1 x 1` grid with the cell value `1`. -/
def one11 : FDMVector2 := ⟨⟨1, 1⟩, fun _ _ => 1⟩

/-- A preconditioner with stale contents: buffers of size `3 x 3` filled with `7`, and
the accessor of a `3 x 3` matrix. -/
def stalePreconditioner : FDMICCGSolver2.Preconditioner :=
  ⟨⟨⟨3, 3⟩, fun _ _ => ⟨5, 1, 1⟩⟩, ⟨⟨3, 3⟩, fun _ _ => 7⟩, ⟨⟨3, 3⟩, fun _ _ => 7⟩⟩

/-- A multigrid system with one level whose matrix is `2 x 2`, whose solution is `3 x 3`
and whose right-hand side is `1 x 1`. -/
def mgMismatched : FDMMGLinearSystem2 := ⟨⟨[matrix22]⟩, ⟨[fine33]⟩, ⟨[one11]⟩⟩

/-- A multigrid system without levels. -/
def mgNoLevels : FDMMGLinearSystem2 := ⟨⟨[]⟩, ⟨[]⟩, ⟨[]⟩⟩

/-- A `2 x 2` system whose right-hand side is `1 x 1`. -/
def systemMismatched : FDMLinearSystem2 := ⟨matrix22, nine22, one11⟩

/-- A `2 x 1` matrix with `center = 2`, `right = 1` and `up = 0` in every cell. -/
def matrix21 : FDMMatrix2 := ⟨⟨2, 1⟩, fun _ _ => ⟨2, 1, 0⟩⟩

/-- A `2 x 1` grid with all cells equal to `1`. -/
def one21 : FDMVector2 := ⟨⟨2, 1⟩, fun _ _ => 1⟩

/-- A `2 x 1` grid with all cells equal to `0`. -/
def zero21 : FDMVector2 := ⟨⟨2, 1⟩, fun _ _ => 0⟩

/-- A `2 x 1` grid with the cells `(0, 2)`. -/
def other21 : FDMVector2 := ⟨⟨2, 1⟩, fun i _ => if i = 1 then 2 else 0⟩

/-- The parameters of a V-cycle that makes one plain Gauss-Seidel sweep on the coarsest
level and no other sweep. -/
def oneSweep : MGParameters := ⟨0, 0, 1, 0, 1, false⟩

/-- A multigrid preconditioner with the parameters `oneSweep`. -/
def mgPreconditioner : FDMMGPCGSolver2.Preconditioner MGParameters := ⟨oneSweep⟩

/-- A one-level `2 x 1` system, to which `mgPreconditioner` points in the examples. -/
def mgBound : FDMMGLinearSystem2 := ⟨⟨[matrix21]⟩, ⟨[zero21]⟩, ⟨[one21]⟩⟩

/-- The empty mesh after `AddUV((0, 0))`: one UV, no triangle. -/
def meshOneUV : TriangleMesh3 := TriangleMesh3.empty.AddUV ⟨0, 0⟩

end Examples

namespace Examples

/-- The box with the corners `(0, 0)` and `(1, 1)`. -/
def unitBox : BoundingBox2 := ⟨⟨0, 0⟩, ⟨1, 1⟩⟩

/-- The box with the corners `(1, 1)` and `(2, 2)`; it meets `unitBox` in one corner. -/
def cornerBox : BoundingBox2 := ⟨⟨1, 1⟩, ⟨2, 2⟩⟩

end Examples

namespace Examples

/-- A `2 x 1` matrix with `right = 1`, `up = 0` and the centers `0` (cell `(0, 0)`) and `3`
(cell `(1, 0)`): the factor `d` of the first cell is the degenerate `0`. -/
def degenerate21 : FDMMatrix2 := ⟨⟨2, 1⟩, fun i _ => ⟨if i = 0 then 0 else 3, 1, 0⟩⟩

end Examples

namespace Examples

/-- The cylinder with the center `(0, 0, 0)`, the radius `1` and the height `2`: its `y`
range is `[-1, 1]`. -/
def cylinder : Cylinder3 := ⟨⟨0, 0, 0⟩, 1, 2⟩

/-- The horizontal ray from `(-2, 5, 0)` in the direction `(1, 0, 0)`: it runs at the height
`y = 5`, above the cylinder. -/
def highRay : Ray3D := ⟨⟨-2, 5, 0⟩, ⟨1, 0, 0⟩⟩

end Examples

namespace Examples

/-- A stand-in for `Matrix2x2D::MakeRotationMatrix` that returns the identity matrix for
every angle. -/
def identityRotation : ℚ → Matrix2x2D := fun _ => ⟨1, 0, 0, 1⟩

/-- An emitter with the cap `1` that has emitted nothing yet: the signed distance is `-1`
everywhere, the generator visits the points `(0, 0)` and `(1, 0)`, overlapping is allowed
and the initial velocity is `(0, -1)`. -/
def cappedEmitter : VolumeParticleEmitter2 :=
  { m_rng := fun _ => 1 / 2
    m_implicitSurface := some (fun _ => -1)
    m_bounds := unitBox
    m_spacing := 1
    m_initialVel := ⟨0, -1⟩
    m_pointsGen := fun _ _ => [⟨0, 0⟩, ⟨1, 0⟩]
    m_maxNumberOfParticles := 1
    m_numberOfEmittedParticles := 0
    m_jitter := 0
    m_isOneShot := false
    m_allowOverlapping := true }

end Examples

namespace Examples

end Examples

namespace Examples

/-- A `1 x 2` coarse grid all of whose cells are `7`: two rows of one coarse cell. -/
def coarse12 : FDMVector2 := ⟨⟨1, 2⟩, fun _ _ => 7⟩

/-- The all-zero `2 x 4` fine grid. -/
def zeroFine24 : FDMVector2 := ⟨⟨2, 4⟩, fun _ _ => 0⟩

/-- The `2 x 4` fine grid with `f(p, q) = p + 10 q`. -/
def rampFine24 : FDMVector2 := ⟨⟨2, 4⟩, fun p q => p + 10 * q⟩

/-- The `2 x 4` fine grid that is `1` in the cell `(0, 1)` and `0` elsewhere. -/
def spikeFine24 : FDMVector2 := ⟨⟨2, 4⟩, fun p q => if p = 0 ∧ q = 1 then 1 else 0⟩

/-- The two blocks `[0, 1) x [0, 1)` and `[0, 1) x [1, 2)` into which the index range of a
`1 x 2` coarse grid is cut when the range of `j` is divided between two workers: one row
of coarse cells each. -/
def rowBlocks : List IndexBlock := [⟨0, 1, 0, 1⟩, ⟨0, 1, 1, 2⟩]

/-- The schedule in which worker 0 takes all its 32 steps (16 statements, a read and a
store each) and then worker 1 takes all of its. -/
def serialSchedule : List Nat := List.replicate 32 0 ++ List.replicate 32 1

/-- The schedule in which worker 1 takes one step (the read of its first statement), then
worker 0 takes all its 32 steps, then worker 1 takes its remaining 31 steps. -/
def racingSchedule : List Nat := 1 :: (List.replicate 32 0 ++ List.replicate 31 1)

end Examples

/-! ## Loops as folds: general facts -/

section FoldFacts

theorem ok_bind {α β : Type} (a : α) (f : α → Except Fault β) :
    (Except.ok a >>= f) = f a := rfl

theorem error_bind {α β : Type} (e : Fault) (f : α → Except Fault β) :
    ((Except.error e : Except Fault α) >>= f) = Except.error e := rfl

theorem pure_eq_ok {α : Type} (a : α) : (pure a : Except Fault α) = Except.ok a := rfl

/-- A loop all of whose iterations complete (under an invariant `I` of the state) computes
the fold of the completed iterations. -/
theorem foldlM_ok_of_inv {σ ι : Type} (I : σ → Prop) (step : σ → ι → Except Fault σ)
    (f : σ → ι → σ) (l : List ι)
    (h : ∀ s u, u ∈ l → I s → step s u = .ok (f s u) ∧ I (f s u)) :
    ∀ s, I s → List.foldlM step s l = .ok (List.foldl f s l) ∧ I (List.foldl f s l) := by
  induction l with
  | nil => intro s hs; exact ⟨rfl, hs⟩
  | cons a l ih =>
    intro s hs
    obtain ⟨h1, h2⟩ := h s a (List.mem_cons_self _ _) hs
    have h3 := ih (fun s u hu => h s u (List.mem_cons_of_mem _ hu)) (f s a) h2
    simp only [List.foldlM_cons, h1, List.foldl_cons, ok_bind]
    exact h3

theorem loopRange_zero (n : Nat) : loopRange 0 n = List.range n := by
  simp [loopRange, List.range_eq_range']

/-- Nested loops (outer over `ly`, inner over `lx`) visit the cells of this list in order. -/
theorem foldl_nested_eq {σ : Type} (F : σ → Nat → Nat → σ) (lx ly : List Nat) (s : σ) :
    List.foldl (fun s j => List.foldl (fun s i => F s i j) s lx) s ly
      = List.foldl (fun s p => F s p.1 p.2) s (visitOrder lx ly) := by
  unfold visitOrder
  induction ly generalizing s with
  | nil => rfl
  | cons j ly ih =>
    simp only [List.foldl_cons, List.flatMap_cons, List.foldl_append, List.foldl_map]
    exact ih _

theorem mem_visitOrder (lx ly : List Nat) (p : Nat × Nat) :
    p ∈ visitOrder lx ly ↔ p.1 ∈ lx ∧ p.2 ∈ ly := by
  obtain ⟨i, j⟩ := p
  simp only [visitOrder, List.mem_flatMap, List.mem_map, Prod.mk.injEq]
  constructor
  · rintro ⟨b, hb, a, ha, rfl, rfl⟩
    exact ⟨ha, hb⟩
  · rintro ⟨ha, hb⟩
    exact ⟨j, hb, i, ha, rfl, rfl⟩

/-- Order of the visits: if `R` orders both loops, a cell is visited before another one
exactly as the lexicographic order (row first) says. -/
theorem visitOrder_pairwise (R : Nat → Nat → Prop) (lx ly : List Nat)
    (hx : lx.Pairwise R) (hy : ly.Pairwise R) :
    (visitOrder lx ly).Pairwise
      (fun a b => (a.1 ∈ lx ∧ a.2 ∈ ly ∧ b.1 ∈ lx ∧ b.2 ∈ ly) ∧
        (R a.2 b.2 ∨ (a.2 = b.2 ∧ R a.1 b.1))) := by
  unfold visitOrder
  rw [List.pairwise_flatMap]
  constructor
  · intro j hj
    rw [List.pairwise_map]
    refine List.Pairwise.imp_of_mem ?_ hx
    intro a b ha hb hab
    exact ⟨⟨ha, hj, hb, hj⟩, Or.inr ⟨rfl, hab⟩⟩
  · refine List.Pairwise.imp_of_mem ?_ hy
    intro j1 j2 hj1 hj2 hj x hxm y hym
    simp only [List.mem_map] at hxm hym
    obtain ⟨a, ha, rfl⟩ := hxm
    obtain ⟨b, hb, rfl⟩ := hym
    exact ⟨⟨ha, hj1, hb, hj2⟩, Or.inl hj⟩

/-- Stores to cells of `l` do not change an observation that no store to a cell of `l`
can change. -/
theorem foldl_write_frame {α β : Type} (G : Array2 α → Nat → Nat → α) (obs : Array2 α → β)
    (l : List (Nat × Nat))
    (h : ∀ b ∈ l, ∀ s v, obs (Array2.write s b.1 b.2 v) = obs s) :
    ∀ s, obs (List.foldl (fun s p => Array2.write s p.1 p.2 (G s p.1 p.2)) s l) = obs s := by
  induction l with
  | nil => intro s; rfl
  | cons a l ih =>
    intro s
    simp only [List.foldl_cons]
    rw [ih (fun b hb => h b (List.mem_cons_of_mem _ hb)), h a (List.mem_cons_self _ _)]

/-- A loop that stores `G s i j` into cell `(i, j)` for the cells of `l` in turn, where
the value stored at a cell is not affected by the stores made at that cell and later,
ends in a state `t` with `t(i, j) = G t i j` on all cells of `l`. -/
theorem foldl_write_once {α : Type} (G : Array2 α → Nat → Nat → α) (l : List (Nat × Nat))
    (hself : ∀ a ∈ l, ∀ s v, G (Array2.write s a.1 a.2 v) a.1 a.2 = G s a.1 a.2)
    (hpw : l.Pairwise (fun a b => a ≠ b ∧
      ∀ s v, G (Array2.write s b.1 b.2 v) a.1 a.2 = G s a.1 a.2)) :
    ∀ s, (List.foldl (fun s p => Array2.write s p.1 p.2 (G s p.1 p.2)) s l).size = s.size ∧
      (∀ a ∈ l, (List.foldl (fun s p => Array2.write s p.1 p.2 (G s p.1 p.2)) s l).cell a.1 a.2
        = G (List.foldl (fun s p => Array2.write s p.1 p.2 (G s p.1 p.2)) s l) a.1 a.2) ∧
      (∀ p q, (p, q) ∉ l →
        (List.foldl (fun s p => Array2.write s p.1 p.2 (G s p.1 p.2)) s l).cell p q
          = s.cell p q) := by
  induction l with
  | nil => intro s; simp
  | cons a l ih =>
    intro s
    rw [List.pairwise_cons] at hpw
    obtain ⟨ha, hl⟩ := hpw
    obtain ⟨h1, h2, h3⟩ := ih (fun b hb => hself b (List.mem_cons_of_mem _ hb)) hl
      (Array2.write s a.1 a.2 (G s a.1 a.2))
    simp only [List.foldl_cons]
    refine ⟨by rw [h1]; rfl, ?_, ?_⟩
    · intro b hb
      rcases List.mem_cons.1 hb with rfl | hb
      · have hnot : (b.1, b.2) ∉ l := fun hm => (ha _ hm).1 rfl
        rw [h3 b.1 b.2 hnot]
        rw [foldl_write_frame G (fun t => G t b.1 b.2) l (fun c hc => (ha c hc).2)]
        rw [hself b (List.mem_cons_self _ _)]
        simp [Array2.write]
      · exact h2 b hb
    · intro p q hpq
      rw [List.mem_cons, not_or] at hpq
      rw [h3 p q hpq.2]
      have : ¬ (p = a.1 ∧ q = a.2) := fun h => hpq.1 (by rw [h.1, h.2])
      simp [Array2.write, this]

/-- A loop over `[0, n)` all of whose iterations complete and add `g u k` to the observed
quantities `obs s k` completes and adds the sums of the `g u k`. -/
theorem foldlM_range_additive {σ κ : Type} (I : σ → Prop) (obs : σ → κ → ℚ)
    (step : σ → Nat → Except Fault σ) (g : Nat → κ → ℚ) (n : Nat)
    (h : ∀ s u, u < n → I s →
      ∃ t, step s u = .ok t ∧ I t ∧ ∀ k, obs t k = obs s k + g u k) :
    ∀ s, I s → ∃ t, List.foldlM step s (List.range n) = .ok t ∧ I t ∧
      ∀ k, obs t k = obs s k + ∑ u in Finset.range n, g u k := by
  induction n with
  | zero => intro s hs; exact ⟨s, rfl, hs, by simp⟩
  | succ n ih =>
    intro s hs
    obtain ⟨t, h1, h2, h3⟩ := ih (fun s u hu => h s u (Nat.lt_succ_of_lt hu)) s hs
    obtain ⟨r, h4, h5, h6⟩ := h t n (Nat.lt_succ_self n) h2
    refine ⟨r, ?_, h5, ?_⟩
    · rw [List.range_succ, List.foldlM_append, h1]
      simp only [ok_bind, List.foldlM_cons, List.foldlM_nil, h4]
      rfl
    · intro k
      rw [h6, h3, Finset.sum_range_succ]
      ring

/-- Two nested loops whose body at `(i, j)` stores `G s i j` into the cell `(i, j)`, where
that value is not affected by the stores made at that cell and later: the loops complete
and end in a state `t` with `t(i, j) = G t i j` on all visited cells. -/
theorem loops_write_once {α : Type} (lx ly : List Nat) (size : Size2)
    (step : Nat → Nat → Array2 α → Except Fault (Array2 α)) (G : Array2 α → Nat → Nat → α)
    (hstep : ∀ s i j, i ∈ lx → j ∈ ly → s.size = size →
      step i j s = .ok (Array2.write s i j (G s i j)))
    (hself : ∀ a : Nat × Nat, ∀ s v, G (Array2.write s a.1 a.2 v) a.1 a.2 = G s a.1 a.2)
    (hpw : (visitOrder lx ly).Pairwise (fun a b => a ≠ b ∧
      ∀ s v, G (Array2.write s b.1 b.2 v) a.1 a.2 = G s a.1 a.2)) :
    ∀ s : Array2 α, s.size = size →
      ∃ t, List.foldlM (fun s j => List.foldlM (fun s i => step i j s) s lx) s ly = .ok t ∧
        t.size = size ∧ (∀ i j, i ∈ lx → j ∈ ly → t.cell i j = G t i j) ∧
        (∀ p q, ¬ (p ∈ lx ∧ q ∈ ly) → t.cell p q = s.cell p q) := by
  intro s hs
  have hin : ∀ j, j ∈ ly → ∀ s : Array2 α, s.size = size →
      List.foldlM (fun s i => step i j s) s lx
        = .ok (List.foldl (fun s i => Array2.write s i j (G s i j)) s lx) ∧
        (List.foldl (fun s i => Array2.write s i j (G s i j)) s lx).size = size := by
    intro j hj
    refine foldlM_ok_of_inv (fun s : Array2 α => s.size = size) _ _ _ ?_
    intro s i hi hs
    exact ⟨hstep s i j hi hj hs, hs⟩
  have hout := foldlM_ok_of_inv (fun s : Array2 α => s.size = size) _ _ ly
    (fun s j hj hs => hin j hj s hs) s hs
  have key := foldl_write_once G (visitOrder lx ly) (fun a _ => hself a) hpw s
  rw [← foldl_nested_eq (fun s i j => Array2.write s i j (G s i j))] at key
  refine ⟨_, hout.1, hout.2, ?_, ?_⟩
  · intro i j hi hj
    exact key.2.1 (i, j) ((mem_visitOrder _ _ _).2 ⟨hi, hj⟩)
  · intro p q hpq
    exact key.2.2 p q (fun hm => hpq ((mem_visitOrder _ _ _).1 hm))

end FoldFacts

/-! ## Restrict: closed form -/

namespace FDMMGUtils2

theorem fineIndices_lt (n i x : Nat) (hi : i < n) : fineIndices n i x < 2 * n := by
  unfold fineIndices
  split <;> (try split_ifs) <;> omega

/-- The weighted sum that `Restrict` stores into the coarse cell `(i, j)`. -/
theorem restrictSum_eq (finer : FDMVector2) (n : Size2) (i j : Nat)
    (hx : finer.size.x = 2 * n.x) (hy : finer.size.y = 2 * n.y) (hi : i < n.x) (hj : j < n.y) :
    restrictSum finer n i j = .ok (restrictValue finer n i j) := by
  unfold restrictValue
  have hI : ∀ x, fineIndices n.x i x < finer.size.x := fun x => hx ▸ fineIndices_lt _ _ _ hi
  have hJ : ∀ y, fineIndices n.y j y < finer.size.y := fun y => hy ▸ fineIndices_lt _ _ _ hj
  have hr : List.range 4 = [0, 1, 2, 3] := rfl
  simp only [restrictSum, hr, List.foldlM_cons, List.foldlM_nil, Array2.get, Array2.inRange,
    hI, hJ, and_self, if_true, ok_bind, pure_eq_ok, Finset.sum_range_succ, Finset.sum_range_zero]
  congr 1
  ring

/-- What `Restrict` returns on grids of matching sizes: every coarse cell holds its
weighted sum, nothing else changes. -/
theorem Restrict_spec (finer coarser : FDMVector2)
    (hx : finer.size.x = 2 * coarser.size.x) (hy : finer.size.y = 2 * coarser.size.y) :
    ∃ c, Restrict finer coarser = .ok c ∧ c.size = coarser.size ∧
      (∀ i j, i < coarser.size.x → j < coarser.size.y →
        c.cell i j = restrictValue finer coarser.size i j) := by
  have hin : ∀ j, j ∈ List.range coarser.size.y → ∀ s : FDMVector2, s.size = coarser.size →
      List.foldlM (fun c i => do
          let sum ← restrictSum finer coarser.size i j
          c.put i j sum) s (List.range coarser.size.x)
        = .ok (List.foldl (fun c i => Array2.write c i j (restrictValue finer coarser.size i j))
            s (List.range coarser.size.x)) ∧
        (List.foldl (fun c i => Array2.write c i j (restrictValue finer coarser.size i j))
            s (List.range coarser.size.x)).size = coarser.size := by
    intro j hj
    refine foldlM_ok_of_inv (fun s : FDMVector2 => s.size = coarser.size) _ _ _ ?_
    intro s i hi hs
    rw [List.mem_range] at hi hj
    rw [restrictSum_eq finer coarser.size i j hx hy hi hj]
    simp [ok_bind, Array2.put, Array2.inRange, hs, hi, hj, Array2.write]
  have hout := foldlM_ok_of_inv (fun s : FDMVector2 => s.size = coarser.size) _ _
    (List.range coarser.size.y) (fun s j hj hs => hin j hj s hs) coarser rfl
  refine ⟨_, ?_, hout.2, ?_⟩
  · unfold Restrict ParallelRangeFor RestrictRange
    rw [if_neg (by simpa using hx), if_neg (by simpa using hy)]
    simp only [loopRange_zero]
    exact hout.1
  · intro i j hi hj
    rw [foldl_nested_eq (fun c i j => Array2.write c i j (restrictValue finer coarser.size i j))]
    have hpw := visitOrder_pairwise (· < ·) _ _ (List.pairwise_lt_range coarser.size.x)
      (List.pairwise_lt_range coarser.size.y)
    have key := foldl_write_once (fun _ i j => restrictValue finer coarser.size i j)
      (visitOrder (List.range coarser.size.x) (List.range coarser.size.y))
      (fun _ _ _ _ => rfl)
      (hpw.imp (fun {a b} h => ⟨by
        intro hab
        rcases h.2 with h2 | ⟨_, h2⟩
        · rw [hab] at h2; exact absurd h2 (lt_irrefl _)
        · rw [hab] at h2; exact absurd h2 (lt_irrefl _), fun _ _ => rfl⟩)) coarser
    exact key.2.1 (i, j) ((mem_visitOrder _ _ _).2
      ⟨List.mem_range.2 hi, List.mem_range.2 hj⟩)

/-! ## Correct: closed form -/

/-- What `Correct` returns on grids of matching sizes: every fine cell has grown by the
coarse values distributed to it. -/
theorem Correct_spec (coarser finer : FDMVector2)
    (hx : finer.size.x = 2 * coarser.size.x) (hy : finer.size.y = 2 * coarser.size.y) :
    ∃ f, Correct coarser finer = .ok f ∧ f.size = finer.size ∧
      ∀ p q, f.cell p q = finer.cell p q + correctValue coarser coarser.size p q := by
  have hmain := foldlM_range_additive (fun s : FDMVector2 => s.size = finer.size)
    (fun s (k : Nat × Nat) => s.cell k.1 k.2)
    (fun f j => List.foldlM (fun f i => do
        let cij ← coarser.get i j
        correctCell coarser.size i j cij f) f (List.range coarser.size.x))
    (fun j k => ∑ i in Finset.range coarser.size.x,
      ∑ b in Finset.range 4, ∑ a in Finset.range 4,
        if k.1 = fineIndices coarser.size.x i a ∧ k.2 = fineIndices coarser.size.y j b then
          correctKernel a * correctKernel b * coarser.cell i j
        else 0)
    coarser.size.y ?_ finer rfl
  · obtain ⟨f, h1, h2, h3⟩ := hmain
    refine ⟨f, ?_, h2, fun p q => h3 (p, q)⟩
    unfold Correct ParallelRangeFor CorrectRange
    rw [if_neg (by simpa using hx), if_neg (by simpa using hy)]
    simp only [loopRange_zero]
    exact h1
  · intro s j hj hs
    refine foldlM_range_additive (fun s : FDMVector2 => s.size = finer.size)
      (fun s (k : Nat × Nat) => s.cell k.1 k.2) _
      (fun i k => ∑ b in Finset.range 4, ∑ a in Finset.range 4,
        if k.1 = fineIndices coarser.size.x i a ∧ k.2 = fineIndices coarser.size.y j b then
          correctKernel a * correctKernel b * coarser.cell i j
        else 0) coarser.size.x ?_ s hs
    intro s i hi hs
    simp only [Array2.get, Array2.inRange, hi, hj, and_self, if_true, ok_bind]
    unfold correctCell
    refine foldlM_range_additive (fun s : FDMVector2 => s.size = finer.size)
      (fun s (k : Nat × Nat) => s.cell k.1 k.2) _
      (fun b k => ∑ a in Finset.range 4,
        if k.1 = fineIndices coarser.size.x i a ∧ k.2 = fineIndices coarser.size.y j b then
          correctKernel a * correctKernel b * coarser.cell i j
        else 0) 4 ?_ s hs
    intro s b _ hs
    refine foldlM_range_additive (fun s : FDMVector2 => s.size = finer.size)
      (fun s (k : Nat × Nat) => s.cell k.1 k.2) _
      (fun a k =>
        if k.1 = fineIndices coarser.size.x i a ∧ k.2 = fineIndices coarser.size.y j b then
          correctKernel a * correctKernel b * coarser.cell i j
        else 0) 4 ?_ s hs
    intro s a _ hs
    have hI : fineIndices coarser.size.x i a < s.size.x := by
      rw [hs, hx]; exact fineIndices_lt _ _ _ hi
    have hJ : fineIndices coarser.size.y j b < s.size.y := by
      rw [hs, hy]; exact fineIndices_lt _ _ _ hj
    refine ⟨Array2.write s (fineIndices coarser.size.x i a) (fineIndices coarser.size.y j b)
      (s.cell (fineIndices coarser.size.x i a) (fineIndices coarser.size.y j b) +
        correctKernel a * correctKernel b * coarser.cell i j), ?_, ?_, ?_⟩
    · simp only [Array2.get, Array2.put, Array2.inRange, hI, hJ, and_self, if_true, ok_bind]
    · exact hs
    · intro k
      simp only [Array2.write]
      split_ifs with hk
      · rw [hk.1, hk.2]
      · simp

/-- On one axis, the weights with which `Correct` reaches a given fine index add up to 1. -/
theorem correct_weights_sum (n p : Nat) (hp : p < 2 * n) :
    (∑ i in Finset.range n, ∑ a in Finset.range 4,
      if p = fineIndices n i a then correctKernel a else 0) = 1 := by
  have expand : ∀ i, (∑ a in Finset.range 4,
      if p = fineIndices n i a then correctKernel a else 0) =
      (if p = (if i > 0 then 2 * i - 1 else 2 * i) then (1 / 4 : ℚ) else 0) +
        (if p = 2 * i then (3 / 4 : ℚ) else 0) + (if p = 2 * i + 1 then (3 / 4 : ℚ) else 0) +
        (if p = (if i + 1 < n then 2 * i + 2 else 2 * i + 1) then (1 / 4 : ℚ) else 0) := by
    intro i
    simp [Finset.sum_range_succ, fineIndices, correctKernel]
  have key : ∀ m m2 : Nat, m < n → m2 < n →
      (∀ i, i < n → (∑ a in Finset.range 4,
        if p = fineIndices n i a then correctKernel a else 0) =
        (if i = m then (3 / 4 : ℚ) else 0) + (if i = m2 then (1 / 4 : ℚ) else 0)) →
      (∑ i in Finset.range n, ∑ a in Finset.range 4,
        if p = fineIndices n i a then correctKernel a else 0) = 1 := by
    intro m m2 hm hm2 h
    rw [Finset.sum_congr rfl (fun i hi => h i (Finset.mem_range.1 hi)),
      Finset.sum_add_distrib, Finset.sum_ite_eq', Finset.sum_ite_eq',
      if_pos (Finset.mem_range.2 hm), if_pos (Finset.mem_range.2 hm2)]
    norm_num
  rcases Nat.even_or_odd' p with ⟨m, rfl | rfl⟩
  · by_cases hm : m = 0
    · refine key 0 0 (by omega) (by omega) ?_
      intro i hi
      rw [expand]
      split_ifs <;> first | omega | norm_num
    · refine key m (m - 1) (by omega) (by omega) ?_
      intro i hi
      rw [expand]
      split_ifs <;> first | omega | norm_num
  · by_cases hm : m + 1 < n
    · refine key m (m + 1) (by omega) (by omega) ?_
      intro i hi
      rw [expand]
      split_ifs <;> first | omega | norm_num
    · refine key m m (by omega) (by omega) ?_
      intro i hi
      rw [expand]
      split_ifs <;> first | omega | norm_num

/-- For a constant coarse field the amount added to a fine cell is that constant. -/
theorem correctValue_const (coarser : FDMVector2) (n : Size2) (v : ℚ) (p q : Nat)
    (hv : ∀ i j, i < n.x → j < n.y → coarser.cell i j = v)
    (hp : p < 2 * n.x) (hq : q < 2 * n.y) : correctValue coarser n p q = v := by
  unfold correctValue
  have hterm : ∀ j ∈ Finset.range n.y, ∀ i ∈ Finset.range n.x,
      ∀ b ∈ Finset.range 4, ∀ a ∈ Finset.range 4,
      (if p = fineIndices n.x i a ∧ q = fineIndices n.y j b then
        correctKernel a * correctKernel b * coarser.cell i j else 0) =
      (if p = fineIndices n.x i a then correctKernel a else 0) *
        ((if q = fineIndices n.y j b then correctKernel b else 0) * v) := by
    intro j hj i hi b _ a _
    rw [hv i j (Finset.mem_range.1 hi) (Finset.mem_range.1 hj)]
    by_cases h1 : p = fineIndices n.x i a <;> by_cases h2 : q = fineIndices n.y j b <;>
      simp only [h1, h2, and_self, and_true, and_false, if_true, if_false, zero_mul, mul_zero]
    ring
  rw [Finset.sum_congr rfl (fun j hj => Finset.sum_congr rfl (fun i hi =>
    Finset.sum_congr rfl (fun b hb => Finset.sum_congr rfl (fun a ha => hterm j hj i hi b hb a ha))))]
  simp only [← Finset.sum_mul, ← Finset.mul_sum]
  rw [correct_weights_sum n.x p hp, correct_weights_sum n.y q hq]
  ring

/-- For a constant fine field the weighted sum of `Restrict` is that constant. -/
theorem restrictValue_const (finer : FDMVector2) (n : Size2) (v : ℚ) (i j : Nat)
    (hv : ∀ p q, p < 2 * n.x → q < 2 * n.y → finer.cell p q = v)
    (hi : i < n.x) (hj : j < n.y) : restrictValue finer n i j = v := by
  unfold restrictValue
  have h : ∀ a c, finer.cell (fineIndices n.x i a) (fineIndices n.y j c) = v :=
    fun a c => hv _ _ (fineIndices_lt _ _ _ hi) (fineIndices_lt _ _ _ hj)
  simp only [h, Finset.sum_range_succ, Finset.sum_range_zero, restrictKernel]
  ring

theorem fineIndices_eq_spec (n i a : Nat) (ha : a < 4) :
    fineIndices n i a = (Spec.clampedIndices n i).getD a 0 := by
  interval_cases a <;> rfl

theorem restrictKernel_eq_spec (a : Nat) :
    restrictKernel a = Spec.restrictWeights.getD a 0 := by
  match a with
  | 0 | 1 | 2 | 3 => rfl
  | _ + 4 => rfl

theorem correctKernel_eq_spec (a : Nat) :
    correctKernel a = Spec.correctWeights.getD a 0 := by
  match a with
  | 0 | 1 | 2 | 3 => rfl
  | _ + 4 => rfl

theorem restrictValue_eq_spec (finer : FDMVector2) (n : Size2) (i j : Nat) :
    restrictValue finer n i j = Spec.restrictValue finer.cell n.x n.y i j := by
  unfold restrictValue Spec.restrictValue
  refine Finset.sum_congr rfl (fun a ha => Finset.sum_congr rfl (fun c hc => ?_))
  rw [fineIndices_eq_spec _ _ a (Finset.mem_range.1 ha),
    fineIndices_eq_spec _ _ c (Finset.mem_range.1 hc), restrictKernel_eq_spec,
    restrictKernel_eq_spec]

theorem correctValue_eq_spec (coarser : FDMVector2) (n : Size2) (p q : Nat) :
    correctValue coarser n p q = Spec.correctValue coarser.cell n.x n.y p q := by
  unfold correctValue Spec.correctValue
  rw [Finset.sum_comm]
  refine Finset.sum_congr rfl (fun i _ => Finset.sum_congr rfl (fun j _ => ?_))
  rw [Finset.sum_comm]
  refine Finset.sum_congr rfl (fun a ha => Finset.sum_congr rfl (fun b hb => ?_))
  rw [fineIndices_eq_spec _ _ a (Finset.mem_range.1 ha),
    fineIndices_eq_spec _ _ b (Finset.mem_range.1 hb), correctKernel_eq_spec,
    correctKernel_eq_spec]
  simp only [eq_comm]

end FDMMGUtils2

/-! ## Incomplete-Cholesky preconditioner: what the loops compute -/

theorem write_cell_of_ne {α : Type} (s : Array2 α) (i j p q : Nat) (v : α)
    (h : p ≠ i ∨ q ≠ j) : (Array2.write s i j v).cell p q = s.cell p q := by
  have : ¬ (p = i ∧ q = j) := fun hpq => h.elim (fun h1 => h1 hpq.1) (fun h2 => h2 hpq.2)
  simp [Array2.write, this]

namespace FDMICCGSolver2.Preconditioner

/-- One iteration of the loop of `Build` stores the factor of the cell. -/
theorem BuildCell_eq (matrix : FDMMatrix2) (d : FDMVector2) (i j : Nat)
    (hd : d.size = matrix.size) (hi : i < matrix.size.x) (hj : j < matrix.size.y) :
    BuildCell matrix i j d
      = .ok (Array2.write d i j (Spec.factorValue matrix.cell d.cell i j)) := by
  have hi1 : i - 1 < matrix.size.x := by omega
  have hj1 : j - 1 < matrix.size.y := by omega
  unfold BuildCell Spec.factorValue Spec.factorDenom
  simp only [Array2.get, Array2.put, Array2.inRange, hd, hi, hj, hi1, hj1, and_self,
    if_true, ok_bind, pure_eq_ok, Square, divide, abs_pos, gt_iff_lt, pow_two]
  by_cases h1 : i = 0 <;> by_cases h2 : j = 0 <;>
    simp only [h1, h2, if_true, if_false, Nat.pos_iff_ne_zero, ne_eq, not_true_eq_false,
      not_false_eq_true, ok_bind, lt_irrefl] <;>
    split_ifs <;> rfl

/-- The denominator at `a` does not read a cell visited at `a` or later in row order. -/
theorem factorValue_frame (A : Nat → Nat → FDMMatrixRow2) (a b : Nat × Nat)
    (h : a.2 < b.2 ∨ (a.2 = b.2 ∧ a.1 ≤ b.1)) (s : FDMVector2) (v : ℚ) :
    Spec.factorValue A (Array2.write s b.1 b.2 v).cell a.1 a.2
      = Spec.factorValue A s.cell a.1 a.2 := by
  have e1 : a.1 ≠ 0 → (Array2.write s b.1 b.2 v).cell (a.1 - 1) a.2 = s.cell (a.1 - 1) a.2 :=
    fun h0 => write_cell_of_ne _ _ _ _ _ _ (by omega)
  have e2 : a.2 ≠ 0 → (Array2.write s b.1 b.2 v).cell a.1 (a.2 - 1) = s.cell a.1 (a.2 - 1) :=
    fun h0 => write_cell_of_ne _ _ _ _ _ _ (by omega)
  have e3 : (if a.1 = 0 then 0
      else (A (a.1 - 1) a.2).right ^ 2 * (Array2.write s b.1 b.2 v).cell (a.1 - 1) a.2)
      = (if a.1 = 0 then 0 else (A (a.1 - 1) a.2).right ^ 2 * s.cell (a.1 - 1) a.2) := by
    split_ifs with h0
    · rfl
    · rw [e1 h0]
  have e4 : (if a.2 = 0 then 0
      else (A a.1 (a.2 - 1)).up ^ 2 * (Array2.write s b.1 b.2 v).cell a.1 (a.2 - 1))
      = (if a.2 = 0 then 0 else (A a.1 (a.2 - 1)).up ^ 2 * s.cell a.1 (a.2 - 1)) := by
    split_ifs with h0
    · rfl
    · rw [e2 h0]
  unfold Spec.factorValue Spec.factorDenom
  rw [e3, e4]

/-- In the row order of the loops, a cell is different from every cell visited later, and
of not smaller row-major position. -/
theorem rowOrder_pairwise (nx ny : Nat) :
    (visitOrder (List.range nx) (List.range ny)).Pairwise
      (fun a b => a ≠ b ∧ (a.2 < b.2 ∨ (a.2 = b.2 ∧ a.1 ≤ b.1))) := by
  refine (visitOrder_pairwise (· < ·) _ _ (List.pairwise_lt_range nx)
    (List.pairwise_lt_range ny)).imp ?_
  intro a b h
  refine ⟨?_, ?_⟩
  · intro hab
    rcases h.2 with h2 | ⟨_, h2⟩
    · rw [hab] at h2; exact absurd h2 (lt_irrefl _)
    · rw [hab] at h2; exact absurd h2 (lt_irrefl _)
  · rcases h.2 with h2 | ⟨h1, h2⟩
    · exact Or.inl h2
    · exact Or.inr ⟨h1, le_of_lt h2⟩

/-- The same for the loops that count down. -/
theorem reverseOrder_pairwise (nx ny : Nat) :
    (visitOrder (List.range nx).reverse (List.range ny).reverse).Pairwise
      (fun a b => a ≠ b ∧ (b.2 < a.2 ∨ (b.2 = a.2 ∧ b.1 ≤ a.1))) := by
  refine (visitOrder_pairwise (fun u w => w < u) _ _
    (List.pairwise_reverse.2 (List.pairwise_lt_range nx))
    (List.pairwise_reverse.2 (List.pairwise_lt_range ny))).imp ?_
  intro a b h
  refine ⟨?_, ?_⟩
  · intro hab
    rcases h.2 with h2 | ⟨_, h2⟩
    · rw [hab] at h2; exact absurd h2 (lt_irrefl _)
    · rw [hab] at h2; exact absurd h2 (lt_irrefl _)
  · rcases h.2 with h2 | ⟨h1, h2⟩
    · exact Or.inl h2
    · exact Or.inr ⟨h1.symm, le_of_lt h2⟩

/-- What `Build` returns: it completes for every matrix and every prior state of the
preconditioner, and every cell of `d` holds the factor computed from the final `d`. -/
theorem Build_spec (self : Preconditioner) (matrix : FDMMatrix2) :
    ∃ P, Build self matrix = .ok P ∧ P.A = matrix ∧ P.d.size = matrix.size ∧
      P.y.size = matrix.size ∧
      ∀ i j, i < matrix.size.x → j < matrix.size.y →
        P.d.cell i j = Spec.factorValue matrix.cell P.d.cell i j := by
  have hin : ∀ j, j ∈ List.range matrix.size.y → ∀ s : FDMVector2, s.size = matrix.size →
      List.foldlM (fun s i => BuildCell matrix i j s) s (List.range matrix.size.x)
        = .ok (List.foldl (fun s i => Array2.write s i j
            (Spec.factorValue matrix.cell s.cell i j)) s (List.range matrix.size.x)) ∧
        (List.foldl (fun s i => Array2.write s i j
            (Spec.factorValue matrix.cell s.cell i j)) s (List.range matrix.size.x)).size
          = matrix.size := by
    intro j hj
    refine foldlM_ok_of_inv (fun s : FDMVector2 => s.size = matrix.size) _ _ _ ?_
    intro s i hi hs
    rw [List.mem_range] at hi hj
    exact ⟨BuildCell_eq matrix s i j hs hi hj, hs⟩
  have hout := foldlM_ok_of_inv (fun s : FDMVector2 => s.size = matrix.size) _ _
    (List.range matrix.size.y) (fun s j hj hs => hin j hj s hs)
    (self.d.Resize matrix.size 0) rfl
  refine ⟨⟨matrix, _, self.y.Resize matrix.size 0⟩, ?_, rfl, hout.2, rfl, ?_⟩
  · unfold Build Array2.ForEachIndex
    simp only [hout.1, ok_bind, pure_eq_ok]
  · intro i j hi hj
    simp only
    rw [foldl_nested_eq (fun s i j => Array2.write s i j
      (Spec.factorValue matrix.cell s.cell i j))]
    have key := foldl_write_once (fun s i j => Spec.factorValue matrix.cell s.cell i j)
      (visitOrder (List.range matrix.size.x) (List.range matrix.size.y))
      (fun a _ s v => factorValue_frame matrix.cell a a (Or.inr ⟨rfl, le_refl _⟩) s v)
      ((rowOrder_pairwise _ _).imp (fun {a b} h =>
        ⟨h.1, fun s v => factorValue_frame matrix.cell a b h.2 s v⟩))
      (self.d.Resize matrix.size 0)
    exact key.2.1 (i, j) ((mem_visitOrder _ _ _).2
      ⟨List.mem_range.2 hi, List.mem_range.2 hj⟩)

/-- One iteration of the forward substitution stores the forward value of the cell. -/
theorem ForwardCell_eq (A : FDMMatrix2) (d b y : FDMVector2) (i j : Nat)
    (hA : A.size = b.size) (hd : d.size = b.size) (hy : y.size = b.size)
    (hi : i < b.size.x) (hj : j < b.size.y) :
    ForwardCell A d b i j y
      = .ok (Array2.write y i j (Spec.forwardValue A.cell d.cell b.cell y.cell i j)) := by
  have hi1 : i - 1 < b.size.x := by omega
  have hj1 : j - 1 < b.size.y := by omega
  unfold ForwardCell Spec.forwardValue
  simp only [Array2.get, Array2.put, Array2.inRange, hA, hd, hy, hi, hj, hi1, hj1, and_self,
    if_true, ok_bind, pure_eq_ok, gt_iff_lt]
  by_cases h1 : i = 0 <;> by_cases h2 : j = 0 <;>
    simp only [h1, h2, if_true, if_false, Nat.pos_iff_ne_zero, ne_eq, not_true_eq_false,
      not_false_eq_true, ok_bind, lt_irrefl]

/-- One iteration of the backward substitution stores the backward value of the cell. -/
theorem BackwardCell_eq (A : FDMMatrix2) (d y x : FDMVector2) (size : Size2) (i j : Nat)
    (hA : A.size = size) (hd : d.size = size) (hy : y.size = size) (hx : x.size = size)
    (hi : i < size.x) (hj : j < size.y) :
    BackwardCell A d y size.x size.y i j x
      = .ok (Array2.write x i j
          (Spec.backwardValue A.cell d.cell y.cell x.cell size.x size.y i j)) := by
  unfold BackwardCell Spec.backwardValue
  simp only [Array2.get, Array2.put, Array2.inRange, hA, hd, hy, hx, hi, hj, and_self,
    if_true, ok_bind, pure_eq_ok]
  by_cases h1 : i + 1 < size.x <;> by_cases h2 : j + 1 < size.y <;>
    simp only [h1, h2, if_true, if_false, and_self, and_true, true_and, hi, hj, ok_bind,
      pure_eq_ok]

theorem forwardValue_frame (A : Nat → Nat → FDMMatrixRow2) (d b : Nat → Nat → ℚ)
    (a c : Nat × Nat) (h : a.2 < c.2 ∨ (a.2 = c.2 ∧ a.1 ≤ c.1)) (s : FDMVector2) (v : ℚ) :
    Spec.forwardValue A d b (Array2.write s c.1 c.2 v).cell a.1 a.2
      = Spec.forwardValue A d b s.cell a.1 a.2 := by
  have e1 : a.1 ≠ 0 → (Array2.write s c.1 c.2 v).cell (a.1 - 1) a.2 = s.cell (a.1 - 1) a.2 :=
    fun h0 => write_cell_of_ne _ _ _ _ _ _ (by omega)
  have e2 : a.2 ≠ 0 → (Array2.write s c.1 c.2 v).cell a.1 (a.2 - 1) = s.cell a.1 (a.2 - 1) :=
    fun h0 => write_cell_of_ne _ _ _ _ _ _ (by omega)
  have e3 : (if a.1 = 0 then 0
      else (A (a.1 - 1) a.2).right * (Array2.write s c.1 c.2 v).cell (a.1 - 1) a.2)
      = (if a.1 = 0 then 0 else (A (a.1 - 1) a.2).right * s.cell (a.1 - 1) a.2) := by
    split_ifs with h0
    · rfl
    · rw [e1 h0]
  have e4 : (if a.2 = 0 then 0
      else (A a.1 (a.2 - 1)).up * (Array2.write s c.1 c.2 v).cell a.1 (a.2 - 1))
      = (if a.2 = 0 then 0 else (A a.1 (a.2 - 1)).up * s.cell a.1 (a.2 - 1)) := by
    split_ifs with h0
    · rfl
    · rw [e2 h0]
  unfold Spec.forwardValue
  rw [e3, e4]

theorem backwardValue_frame (A : Nat → Nat → FDMMatrixRow2) (d y : Nat → Nat → ℚ)
    (sx sy : Nat) (a c : Nat × Nat) (h : c.2 < a.2 ∨ (c.2 = a.2 ∧ c.1 ≤ a.1))
    (s : FDMVector2) (v : ℚ) :
    Spec.backwardValue A d y (Array2.write s c.1 c.2 v).cell sx sy a.1 a.2
      = Spec.backwardValue A d y s.cell sx sy a.1 a.2 := by
  have e1 : (Array2.write s c.1 c.2 v).cell (a.1 + 1) a.2 = s.cell (a.1 + 1) a.2 :=
    write_cell_of_ne _ _ _ _ _ _ (by omega)
  have e2 : (Array2.write s c.1 c.2 v).cell a.1 (a.2 + 1) = s.cell a.1 (a.2 + 1) :=
    write_cell_of_ne _ _ _ _ _ _ (by omega)
  unfold Spec.backwardValue
  rw [e1, e2]

/-- What `Solve(b, x)` returns when the matrix, the buffers, `b` and `x` have one size:
it completes, `y` satisfies the forward and `x` the backward substitution equations. -/
theorem Solve_spec (self : Preconditioner) (b x : FDMVector2)
    (hA : self.A.size = b.size) (hd : self.d.size = b.size) (hy : self.y.size = b.size)
    (hx : x.size = b.size) :
    ∃ P t, Solve self b x = .ok (P, t) ∧ P.A = self.A ∧ P.d = self.d ∧
      P.y.size = b.size ∧ t.size = b.size ∧
      (∀ i j, i < b.size.x → j < b.size.y →
        P.y.cell i j = Spec.forwardValue self.A.cell self.d.cell b.cell P.y.cell i j) ∧
      (∀ i j, i < b.size.x → j < b.size.y →
        t.cell i j = Spec.backwardValue self.A.cell self.d.cell P.y.cell t.cell
          b.size.x b.size.y i j) := by
  obtain ⟨y, f1, f2, f3, _⟩ := loops_write_once (List.range b.size.x) (List.range b.size.y)
    b.size (ForwardCell self.A self.d b)
    (fun s i j => Spec.forwardValue self.A.cell self.d.cell b.cell s.cell i j)
    (fun s i j hi hj hs => ForwardCell_eq self.A self.d b s i j hA hd hs
      (List.mem_range.1 hi) (List.mem_range.1 hj))
    (fun a s v => forwardValue_frame _ _ _ a a (Or.inr ⟨rfl, le_refl _⟩) s v)
    ((rowOrder_pairwise _ _).imp (fun {a c} h =>
      ⟨h.1, fun s v => forwardValue_frame _ _ _ a c h.2 s v⟩))
    self.y hy
  obtain ⟨t, g1, g2, g3, _⟩ := loops_write_once (List.range b.size.x).reverse
    (List.range b.size.y).reverse b.size
    (BackwardCell self.A self.d y b.size.x b.size.y)
    (fun s i j => Spec.backwardValue self.A.cell self.d.cell y.cell s.cell
      b.size.x b.size.y i j)
    (fun s i j hi hj hs => BackwardCell_eq self.A self.d y s b.size i j hA hd f2 hs
      (List.mem_range.1 (List.mem_reverse.1 hi)) (List.mem_range.1 (List.mem_reverse.1 hj)))
    (fun a s v => backwardValue_frame _ _ _ _ _ a a (Or.inr ⟨rfl, le_refl _⟩) s v)
    ((reverseOrder_pairwise _ _).imp (fun {a c} h =>
      ⟨h.1, fun s v => backwardValue_frame _ _ _ _ _ a c h.2 s v⟩))
    x hx
  refine ⟨⟨self.A, self.d, y⟩, t, ?_, rfl, rfl, f2, g2, ?_, ?_⟩
  · unfold Solve Array2.ForEachIndex
    simp only [f1, g1, ok_bind, pure_eq_ok]
  · intro i j hi hj
    exact f3 i j (List.mem_range.2 hi) (List.mem_range.2 hj)
  · intro i j hi hj
    exact g3 i j (List.mem_reverse.2 (List.mem_range.2 hi))
      (List.mem_reverse.2 (List.mem_range.2 hj))

/-- The factor of a cell depends on `d` through the left and the lower neighbour only. -/
theorem factorValue_congr (A : Nat → Nat → FDMMatrixRow2) (d1 d2 : Nat → Nat → ℚ) (i j : Nat)
    (hl : i ≠ 0 → d1 (i - 1) j = d2 (i - 1) j) (hd : j ≠ 0 → d1 i (j - 1) = d2 i (j - 1)) :
    Spec.factorValue A d1 i j = Spec.factorValue A d2 i j := by
  have e3 : (if i = 0 then 0 else (A (i - 1) j).right ^ 2 * d1 (i - 1) j)
      = (if i = 0 then 0 else (A (i - 1) j).right ^ 2 * d2 (i - 1) j) := by
    split_ifs with h0
    · rfl
    · rw [hl h0]
  have e4 : (if j = 0 then 0 else (A i (j - 1)).up ^ 2 * d1 i (j - 1))
      = (if j = 0 then 0 else (A i (j - 1)).up ^ 2 * d2 i (j - 1)) := by
    split_ifs with h0
    · rfl
    · rw [hd h0]
  unfold Spec.factorValue Spec.factorDenom
  rw [e3, e4]

/-- The factorization equations have at most one solution on a grid. -/
theorem factor_unique (A : Nat → Nat → FDMMatrixRow2) (nx ny : Nat) (d1 d2 : Nat → Nat → ℚ)
    (h1 : ∀ i j, i < nx → j < ny → d1 i j = Spec.factorValue A d1 i j)
    (h2 : ∀ i j, i < nx → j < ny → d2 i j = Spec.factorValue A d2 i j) :
    ∀ j, j < ny → ∀ i, i < nx → d1 i j = d2 i j := by
  intro j
  induction j using Nat.strong_induction_on with
  | _ j ihj =>
    intro hj i
    induction i using Nat.strong_induction_on with
    | _ i ihi =>
      intro hi
      rw [h1 i j hi hj, h2 i j hi hj]
      exact factorValue_congr A d1 d2 i j
        (fun h0 => ihi (i - 1) (by omega) (by omega))
        (fun h0 => ihj (j - 1) (by omega) (by omega) i hi)

end FDMICCGSolver2.Preconditioner

/-! ## The solvers: the call of the driver -/

/-- The all-zero grid of a given size. -/
theorem resize_set_zero (a : FDMVector2) (size : Size2) :
    (a.Resize size 0).Set 0 = ⟨size, fun _ _ => 0⟩ := rfl

/-- When both asserts hold, `FDMICCGSolver2::Solve` reaches the call of `PCG`, with zeroed
solution and buffers and the preconditioner built for the matrix. -/
theorem FDMICCGSolver2.iccg_pcgArguments_spec (self : FDMICCGSolver2) (system : FDMLinearSystem2)
    (hb : system.A.size = system.b.size) (hx : system.A.size = system.x.size) :
    ∃ P, self.m_precond.Build system.A = .ok P ∧ P.A = system.A ∧
      P.d.size = system.A.size ∧ P.y.size = system.A.size ∧
      FDMICCGSolver2.pcgArguments self system = .ok
        { A := system.A, b := system.b,
          maxNumberOfIterations := self.m_maxNumberOfIterations,
          tolerance := self.m_tolerance, M := P,
          x := ⟨system.x.size, fun _ _ => 0⟩,
          r := ⟨system.A.size, fun _ _ => 0⟩, d := ⟨system.A.size, fun _ _ => 0⟩,
          q := ⟨system.A.size, fun _ _ => 0⟩, s := ⟨system.A.size, fun _ _ => 0⟩ } := by
  obtain ⟨P, hP, h1, h2, h3, _⟩ :=
    FDMICCGSolver2.Preconditioner.Build_spec self.m_precond system.A
  refine ⟨P, hP, h1, h2, h3, ?_⟩
  unfold FDMICCGSolver2.pcgArguments
  rw [if_neg (by simpa using hb), if_neg (by simpa using hx)]
  simp only [hP, ok_bind, pure_eq_ok, resize_set_zero]
  rfl

/-- When no level vector is empty, `FDMMGPCGSolver2::Solve` reaches the call of `PCG`: the
finest solution of the system is zeroed in place (it keeps its size), the buffers are
all-zero grids of the size of the finest matrix. -/
theorem FDMMGPCGSolver2.mgpcg_pcgArguments_spec {MGParams : Type} (self : FDMMGPCGSolver2 MGParams)
    (A0 : FDMMatrix2) (As : List FDMMatrix2) (x0 : FDMVector2) (xs : List FDMVector2)
    (b0 : FDMVector2) (bs : List FDMVector2) :
    FDMMGPCGSolver2.pcgArguments self ⟨⟨A0 :: As⟩, ⟨x0 :: xs⟩, ⟨b0 :: bs⟩⟩ = .ok
      { system := ⟨⟨A0 :: As⟩, ⟨⟨x0.size, fun _ _ => 0⟩ :: xs⟩, ⟨b0 :: bs⟩⟩,
        maxNumberOfIterations := self.m_maxNumberOfIterations,
        tolerance := self.m_tolerance,
        M := ⟨self.m_mgParams⟩,
        r := ⟨A0.size, fun _ _ => 0⟩, d := ⟨A0.size, fun _ _ => 0⟩,
        q := ⟨A0.size, fun _ _ => 0⟩, s := ⟨A0.size, fun _ _ => 0⟩ } := rfl

/-- The boolean that both `Solve` functions return. -/
theorem success_flag (rho tol : ℚ) (k kmax : Nat) :
    (((decide (rho ≤ tol) || decide (k < kmax)) = true ↔ (rho ≤ tol ∨ k < kmax)) ∧
      ((decide (rho ≤ tol) || decide (k < kmax)) = false ↔ (kmax ≤ k ∧ tol < rho))) := by
  constructor
  · simp
  · simp only [Bool.or_eq_false_iff, decide_eq_false_iff_not, not_le, not_lt]
    exact ⟨fun h => ⟨h.2, h.1⟩, fun h => ⟨h.2, h.1⟩⟩

/-! ## Claims on the transfer operators -/

/-- C1. Restrict partition of unity: for a coarse grid of size `(nx, ny)` (any prior
contents) and a fine grid of size `(2nx, 2ny)` all of whose cells equal `v`, `Restrict`
completes and every coarse cell, boundary cells included, equals `v`. (For `nx = 0` or
`ny = 0` there is no cell and the statement holds as well.) -/
theorem Restrict_partition_of_unity (nx ny : Nat) (finer coarser : FDMVector2) (v : ℚ)
    (hf : finer.size = ⟨2 * nx, 2 * ny⟩) (hc : coarser.size = ⟨nx, ny⟩)
    (hv : ∀ p q, p < 2 * nx → q < 2 * ny → finer.cell p q = v) :
    ∃ c, FDMMGUtils2.Restrict finer coarser = .ok c ∧ c.size = ⟨nx, ny⟩ ∧
      ∀ i j, i < nx → j < ny → c.cell i j = v := by
  obtain ⟨c, h1, h2, h3⟩ := FDMMGUtils2.Restrict_spec finer coarser
    (by rw [hf, hc]) (by rw [hf, hc])
  refine ⟨c, h1, h2.trans hc, ?_⟩
  intro i j hi hj
  rw [hc] at h3
  rw [h3 i j hi hj]
  exact FDMMGUtils2.restrictValue_const finer ⟨nx, ny⟩ v i j hv hi hj

theorem Restrict_partition_of_unity_witness :
    (Examples.constFine.size = ⟨2 * 2, 2 * 1⟩ ∧ Examples.rampCoarse.size = ⟨2, 1⟩ ∧
      ∀ p q, p < 2 * 2 → q < 2 * 1 → Examples.constFine.cell p q = 5) ∧
    ∃ c, FDMMGUtils2.Restrict Examples.constFine Examples.rampCoarse = .ok c ∧
      c.size = ⟨2, 1⟩ ∧ ∀ i j, i < 2 → j < 1 → c.cell i j = 5 :=
  ⟨⟨rfl, rfl, fun _ _ _ _ => rfl⟩,
    Restrict_partition_of_unity 2 1 Examples.constFine Examples.rampCoarse 5 rfl rfl
      (fun _ _ _ _ => rfl)⟩

/-- One worker on the whole index range: for a coarse grid of size `(nx, ny)` all of whose
cells equal `v` and an all-zero fine grid of size `(2nx, 2ny)`, `Correct`, visiting the
coarse cells one after the other, completes and leaves every fine cell, boundary cells
included, equal to `v`. -/
theorem Correct_serial_partition_of_unity (nx ny : Nat) (coarser finer : FDMVector2) (v : ℚ)
    (hf : finer.size = ⟨2 * nx, 2 * ny⟩) (hc : coarser.size = ⟨nx, ny⟩)
    (hv : ∀ i j, i < nx → j < ny → coarser.cell i j = v)
    (hz : ∀ p q, p < 2 * nx → q < 2 * ny → finer.cell p q = 0) :
    ∃ f, FDMMGUtils2.Correct coarser finer = .ok f ∧ f.size = ⟨2 * nx, 2 * ny⟩ ∧
      ∀ p q, p < 2 * nx → q < 2 * ny → f.cell p q = v := by
  obtain ⟨f, h1, h2, h3⟩ := FDMMGUtils2.Correct_spec coarser finer
    (by rw [hf, hc]) (by rw [hf, hc])
  refine ⟨f, h1, h2.trans hf, ?_⟩
  intro p q hp hq
  rw [h3 p q, hz p q hp hq, hc, zero_add]
  exact FDMMGUtils2.correctValue_const coarser ⟨nx, ny⟩ v p q hv hp hq

/-- C9. Restrict definition: for coarse size `(nx, ny)` and fine size `(2nx, 2ny)`,
`Restrict` completes and every coarse cell `(i, j)` equals the sum over `a, c` in `0..3`
of `k[a] * k[c] * fine(I_a(i), J_c(j))` with the weights and clamped indices of
`Spec.restrictValue`; started from any other prior coarse contents of the same size it
yields the same coarse cells. -/
theorem Restrict_definition (nx ny : Nat) (finer coarser : FDMVector2)
    (hf : finer.size = ⟨2 * nx, 2 * ny⟩) (hc : coarser.size = ⟨nx, ny⟩) :
    ∃ c, FDMMGUtils2.Restrict finer coarser = .ok c ∧ c.size = ⟨nx, ny⟩ ∧
      (∀ i j, i < nx → j < ny → c.cell i j = Spec.restrictValue finer.cell nx ny i j) ∧
      (∀ prior : FDMVector2, prior.size = ⟨nx, ny⟩ →
        ∃ c2, FDMMGUtils2.Restrict finer prior = .ok c2 ∧ c2.size = c.size ∧
          ∀ i j, i < nx → j < ny → c2.cell i j = c.cell i j) := by
  have main : ∀ prior : FDMVector2, prior.size = ⟨nx, ny⟩ →
      ∃ c, FDMMGUtils2.Restrict finer prior = .ok c ∧ c.size = ⟨nx, ny⟩ ∧
        ∀ i j, i < nx → j < ny → c.cell i j = Spec.restrictValue finer.cell nx ny i j := by
    intro prior hp
    obtain ⟨c, h1, h2, h3⟩ := FDMMGUtils2.Restrict_spec finer prior
      (by rw [hf, hp]) (by rw [hf, hp])
    refine ⟨c, h1, h2.trans hp, ?_⟩
    intro i j hi hj
    rw [hp] at h3
    rw [h3 i j hi hj, FDMMGUtils2.restrictValue_eq_spec]
  obtain ⟨c, h1, h2, h3⟩ := main coarser hc
  refine ⟨c, h1, h2, h3, ?_⟩
  intro prior hp
  obtain ⟨c2, g1, g2, g3⟩ := main prior hp
  exact ⟨c2, g1, g2.trans h2.symm, fun i j hi hj => (g3 i j hi hj).trans (h3 i j hi hj).symm⟩

theorem Restrict_definition_witness :
    (Examples.rampFine.size = ⟨2 * 2, 2 * 1⟩ ∧ Examples.constCoarse.size = ⟨2, 1⟩) ∧
    ∃ c, FDMMGUtils2.Restrict Examples.rampFine Examples.constCoarse = .ok c ∧
      c.size = ⟨2, 1⟩ ∧
      (∀ i j, i < 2 → j < 1 →
        c.cell i j = Spec.restrictValue Examples.rampFine.cell 2 1 i j) ∧
      (∀ prior : FDMVector2, prior.size = ⟨2, 1⟩ →
        ∃ c2, FDMMGUtils2.Restrict Examples.rampFine prior = .ok c2 ∧ c2.size = c.size ∧
          ∀ i j, i < 2 → j < 1 → c2.cell i j = c.cell i j) :=
  ⟨⟨rfl, rfl⟩, Restrict_definition 2 1 Examples.rampFine Examples.constCoarse rfl rfl⟩

/-- One worker on the whole index range: for a coarse field `c` of size `(nx, ny)` and a
fine field `f` of size `(2nx, 2ny)`, `Correct(c, f)` and `Correct(c, 0)`, visiting the
coarse cells one after the other, complete and, cell by cell,
`Correct(c, f) = f + Correct(c, 0)`, where `Correct(c, 0)(p, q)` is the sum of
`k[a] * k[b] * c(i, j)` over the coarse cells and slots whose clamped fine indices are
`(p, q)` (`Spec.correctValue`); an all-zero coarse field leaves the fine field unchanged. -/
theorem Correct_serial_additive (nx ny : Nat) (coarser finer : FDMVector2)
    (hf : finer.size = ⟨2 * nx, 2 * ny⟩) (hc : coarser.size = ⟨nx, ny⟩) :
    ∃ f z, FDMMGUtils2.Correct coarser finer = .ok f ∧
      FDMMGUtils2.Correct coarser (finer.Set 0) = .ok z ∧
      f.size = finer.size ∧ z.size = finer.size ∧
      (∀ p q, p < 2 * nx → q < 2 * ny →
        f.cell p q = finer.cell p q + z.cell p q ∧
        z.cell p q = Spec.correctValue coarser.cell nx ny p q) ∧
      ((∀ i j, i < nx → j < ny → coarser.cell i j = 0) →
        ∀ p q, p < 2 * nx → q < 2 * ny → f.cell p q = finer.cell p q) := by
  obtain ⟨f, h1, h2, h3⟩ := FDMMGUtils2.Correct_spec coarser finer
    (by rw [hf, hc]) (by rw [hf, hc])
  obtain ⟨z, g1, g2, g3⟩ := FDMMGUtils2.Correct_spec coarser (finer.Set 0)
    (by simp [Array2.Set, hf, hc]) (by simp [Array2.Set, hf, hc])
  have hz : ∀ p q, z.cell p q = Spec.correctValue coarser.cell nx ny p q := by
    intro p q
    rw [g3 p q, FDMMGUtils2.correctValue_eq_spec, hc]
    simp [Array2.Set]
  refine ⟨f, z, h1, g1, h2, g2, ?_, ?_⟩
  · intro p q _ _
    refine ⟨?_, hz p q⟩
    rw [h3 p q, hz p q, FDMMGUtils2.correctValue_eq_spec, hc]
  · intro h0 p q hp hq
    rw [h3 p q, hc, FDMMGUtils2.correctValue_const coarser ⟨nx, ny⟩ 0 p q h0 hp hq, add_zero]

/-! ## Claims on the incomplete-Cholesky preconditioner -/

/-- C6. ICCG factorization formula: `Build(matrix)` completes, and afterwards every cell
`(i, j)` whose denominator
`center(i,j) - right(i-1,j)^2 * d(i-1,j) - up(i,j-1)^2 * d(i,j-1)` (a term is `0` when
`i = 0`, respectively `j = 0`) is not zero has `d(i,j) = 1 / denom(i,j)`; the factors are
determined by the matrix: `Build` from any other prior state of the preconditioner gives
the same `d`. -/
theorem ICCG_factorization_formula (self : FDMICCGSolver2.Preconditioner)
    (matrix : FDMMatrix2) :
    ∃ P, FDMICCGSolver2.Preconditioner.Build self matrix = .ok P ∧ P.A = matrix ∧
      P.d.size = matrix.size ∧
      (∀ i j, i < matrix.size.x → j < matrix.size.y →
        Spec.factorDenom matrix.cell P.d.cell i j ≠ 0 →
        P.d.cell i j = 1 / Spec.factorDenom matrix.cell P.d.cell i j) ∧
      (∀ other : FDMICCGSolver2.Preconditioner,
        ∃ P2, FDMICCGSolver2.Preconditioner.Build other matrix = .ok P2 ∧
          ∀ i j, i < matrix.size.x → j < matrix.size.y → P2.d.cell i j = P.d.cell i j) := by
  obtain ⟨P, h1, h2, h3, _, h4⟩ := FDMICCGSolver2.Preconditioner.Build_spec self matrix
  refine ⟨P, h1, h2, h3, ?_, ?_⟩
  · intro i j hi hj hne
    rw [h4 i j hi hj]
    simp only [Spec.factorValue, hne, if_false]
  · intro other
    obtain ⟨P2, g1, _, _, _, g4⟩ := FDMICCGSolver2.Preconditioner.Build_spec other matrix
    refine ⟨P2, g1, ?_⟩
    intro i j hi hj
    exact FDMICCGSolver2.Preconditioner.factor_unique matrix.cell matrix.size.x matrix.size.y
      P2.d.cell P.d.cell g4 h4 j hj i hi

/-- C7. ICCG degenerate fallback: for every matrix (and every prior state of the
preconditioner) `Build` completes, so it never divides by zero; every cell whose
factorization denominator is zero gets `d = 0`. For a matrix all of whose coefficients are
zero every `d` is `0`, and `Preconditioner::Solve(b, x)` completes with an all-zero `x`
for any `b` (and any incoming `x`) of the size of the matrix. -/
theorem ICCG_degenerate_fallback (self : FDMICCGSolver2.Preconditioner)
    (matrix : FDMMatrix2) :
    ∃ P, FDMICCGSolver2.Preconditioner.Build self matrix = .ok P ∧
      (∀ i j, i < matrix.size.x → j < matrix.size.y →
        Spec.factorDenom matrix.cell P.d.cell i j = 0 → P.d.cell i j = 0) ∧
      ((∀ i j, i < matrix.size.x → j < matrix.size.y →
          (matrix.cell i j).center = 0 ∧ (matrix.cell i j).right = 0 ∧
            (matrix.cell i j).up = 0) →
        (∀ i j, i < matrix.size.x → j < matrix.size.y → P.d.cell i j = 0) ∧
        ∀ b x : FDMVector2, b.size = matrix.size → x.size = matrix.size →
          ∃ P2 t, FDMICCGSolver2.Preconditioner.Solve P b x = .ok (P2, t) ∧
            t.size = matrix.size ∧
            ∀ i j, i < matrix.size.x → j < matrix.size.y → t.cell i j = 0) := by
  obtain ⟨P, h1, h2, h3, h5, h4⟩ := FDMICCGSolver2.Preconditioner.Build_spec self matrix
  refine ⟨P, h1, ?_, ?_⟩
  · intro i j hi hj h0
    rw [h4 i j hi hj]
    simp only [Spec.factorValue, h0, if_true]
  · intro hz
    have hd : ∀ i j, i < matrix.size.x → j < matrix.size.y → P.d.cell i j = 0 := by
      intro i j hi hj
      rw [h4 i j hi hj]
      have hden : Spec.factorDenom matrix.cell P.d.cell i j = 0 := by
        unfold Spec.factorDenom
        rw [(hz i j hi hj).1]
        have e1 : (if i = 0 then (0 : ℚ)
            else (matrix.cell (i - 1) j).right ^ 2 * P.d.cell (i - 1) j) = 0 := by
          split_ifs with h0
          · rfl
          · rw [(hz (i - 1) j (by omega) hj).2.1]; ring
        have e2 : (if j = 0 then (0 : ℚ)
            else (matrix.cell i (j - 1)).up ^ 2 * P.d.cell i (j - 1)) = 0 := by
          split_ifs with h0
          · rfl
          · rw [(hz i (j - 1) hi (by omega)).2.2]; ring
        rw [e1, e2]
        ring
      simp only [Spec.factorValue, hden, if_true]
    refine ⟨hd, ?_⟩
    intro b x hb hx
    obtain ⟨P2, t, g1, _, _, _, g2, _, g3⟩ := FDMICCGSolver2.Preconditioner.Solve_spec P b x
      (by rw [h2, hb]) (by rw [h3, hb]) (by rw [h5, hb]) (by rw [hx, hb])
    refine ⟨P2, t, g1, g2.trans hb, ?_⟩
    intro i j hi hj
    rw [g3 i j (by rw [hb]; exact hi) (by rw [hb]; exact hj)]
    unfold Spec.backwardValue
    rw [hd i j hi hj, mul_zero]

/-- C8. ICCG substitution: after `Build(matrix)`, `Preconditioner::Solve(b, x)` with `b`
and `x` of the size of the matrix completes and produces `y` and `x` with, for every
cell, `y(i,j) = (b(i,j) - right(i-1,j) * y(i-1,j) - up(i,j-1) * y(i,j-1)) * d(i,j)` and
`x(i,j) = (y(i,j) - right(i,j) * x(i+1,j) - up(i,j) * x(i,j+1)) * d(i,j)`, where a term is
`0` when its neighbour is outside the grid. -/
theorem ICCG_substitution (self : FDMICCGSolver2.Preconditioner) (matrix : FDMMatrix2)
    (b x : FDMVector2) (hb : b.size = matrix.size) (hx : x.size = matrix.size) :
    ∃ P P2 t, FDMICCGSolver2.Preconditioner.Build self matrix = .ok P ∧
      FDMICCGSolver2.Preconditioner.Solve P b x = .ok (P2, t) ∧
      P2.A = matrix ∧ P2.d = P.d ∧ P2.y.size = matrix.size ∧ t.size = matrix.size ∧
      ∀ i j, i < matrix.size.x → j < matrix.size.y →
        P2.y.cell i j = Spec.forwardValue matrix.cell P.d.cell b.cell P2.y.cell i j ∧
        t.cell i j = Spec.backwardValue matrix.cell P.d.cell P2.y.cell t.cell
          matrix.size.x matrix.size.y i j := by
  obtain ⟨P, h1, h2, h3, h5, _⟩ := FDMICCGSolver2.Preconditioner.Build_spec self matrix
  obtain ⟨P2, t, g1, g2, g3, g4, g5, g6, g7⟩ := FDMICCGSolver2.Preconditioner.Solve_spec P b x
    (by rw [h2, hb]) (by rw [h3, hb]) (by rw [h5, hb]) (by rw [hx, hb])
  refine ⟨P, P2, t, h1, g1, g2.trans h2, g3, g4.trans hb, g5.trans hb, ?_⟩
  intro i j hi hj
  rw [h2, hb] at g6 g7
  exact ⟨g6 i j hi hj, g7 i j hi hj⟩

theorem ICCG_substitution_witness :
    (Examples.ramp22.size = Examples.matrix22.size ∧
      Examples.nine22.size = Examples.matrix22.size) ∧
    ∃ P P2 t,
      FDMICCGSolver2.Preconditioner.Build Examples.freshPreconditioner Examples.matrix22
        = .ok P ∧
      FDMICCGSolver2.Preconditioner.Solve P Examples.ramp22 Examples.nine22 = .ok (P2, t) ∧
      P2.A = Examples.matrix22 ∧ P2.d = P.d ∧ P2.y.size = Examples.matrix22.size ∧
      t.size = Examples.matrix22.size ∧
      ∀ i j, i < Examples.matrix22.size.x → j < Examples.matrix22.size.y →
        P2.y.cell i j = Spec.forwardValue Examples.matrix22.cell P.d.cell
          Examples.ramp22.cell P2.y.cell i j ∧
        t.cell i j = Spec.backwardValue Examples.matrix22.cell P.d.cell P2.y.cell t.cell
          Examples.matrix22.size.x Examples.matrix22.size.y i j :=
  ⟨⟨rfl, rfl⟩,
    ICCG_substitution Examples.freshPreconditioner Examples.matrix22 Examples.ramp22
      Examples.nine22 rfl rfl⟩

/-! ## Claims on the solvers -/

/-- C3. Success policy: for `FDMICCGSolver2::Solve` and for `FDMMGPCGSolver2::Solve`,
whatever iteration count `k` and residual norm `rho` the driver reports, `Solve` stores
them as the last iteration count and the last residual (tolerance and iteration limit
stay) and returns `true` if and only if `rho <= tolerance` or
`k < maxNumberOfIterations`; it returns `false` exactly when
`k >= maxNumberOfIterations` and `rho > tolerance`. -/
theorem Solve_success_policy {MGParams : Type} :
    (∀ (pcg : PCGDriver FDMICCGSolver2.Preconditioner) (self : FDMICCGSolver2)
        (system : FDMLinearSystem2) (args : PCGArguments FDMICCGSolver2.Preconditioner)
        (out : PCGOutcome FDMICCGSolver2.Preconditioner),
      FDMICCGSolver2.pcgArguments self system = .ok args → pcg args = .ok out →
      ∃ ret self2 system2, FDMICCGSolver2.Solve pcg self system = .ok (ret, self2, system2) ∧
        self2.m_lastNumberOfIterations = out.lastNumberOfIterations ∧
        self2.m_lastResidualNorm = out.lastResidualNorm ∧
        self2.m_tolerance = self.m_tolerance ∧
        self2.m_maxNumberOfIterations = self.m_maxNumberOfIterations ∧
        (ret = true ↔ (out.lastResidualNorm ≤ self.m_tolerance ∨
          out.lastNumberOfIterations < self.m_maxNumberOfIterations)) ∧
        (ret = false ↔ (self.m_maxNumberOfIterations ≤ out.lastNumberOfIterations ∧
          self.m_tolerance < out.lastResidualNorm))) ∧
    (∀ (pcg : MGPCGDriver MGParams)
        (self : FDMMGPCGSolver2 MGParams) (system : FDMMGLinearSystem2)
        (args : MGPCGArguments MGParams) (out : MGPCGOutcome MGParams),
      FDMMGPCGSolver2.pcgArguments self system = .ok args → pcg args = .ok out →
      ∃ ret self2 system2, FDMMGPCGSolver2.Solve pcg self system = .ok (ret, self2, system2) ∧
        self2.m_lastNumberOfIterations = out.lastNumberOfIterations ∧
        self2.m_lastResidualNorm = out.lastResidualNorm ∧
        self2.m_tolerance = self.m_tolerance ∧
        self2.m_maxNumberOfIterations = self.m_maxNumberOfIterations ∧
        (ret = true ↔ (out.lastResidualNorm ≤ self.m_tolerance ∨
          out.lastNumberOfIterations < self.m_maxNumberOfIterations)) ∧
        (ret = false ↔ (self.m_maxNumberOfIterations ≤ out.lastNumberOfIterations ∧
          self.m_tolerance < out.lastResidualNorm))) := by
  constructor
  · intro pcg self system args out h1 h2
    refine ⟨_, ⟨self.m_maxNumberOfIterations, out.lastNumberOfIterations, self.m_tolerance,
      out.lastResidualNorm, out.r, out.d, out.q, out.s, out.M⟩, ⟨system.A, out.x, system.b⟩,
      ?_, rfl, rfl, rfl, rfl, (success_flag _ _ _ _).1, (success_flag _ _ _ _).2⟩
    unfold FDMICCGSolver2.Solve
    simp only [h1, h2, ok_bind, pure_eq_ok]
  · intro pcg self system args out h1 h2
    refine ⟨_, ⟨self.m_mgParams, self.m_maxNumberOfIterations, out.lastNumberOfIterations,
      self.m_tolerance, out.lastResidualNorm, out.r, out.d, out.q, out.s, out.M⟩,
      out.system,
      ?_, rfl, rfl, rfl, rfl, (success_flag _ _ _ _).1, (success_flag _ _ _ _).2⟩
    unfold FDMMGPCGSolver2.Solve
    simp only [h1, h2, ok_bind, pure_eq_ok]

theorem Solve_success_policy_witness :
    (∃ ret self2 system2,
      FDMICCGSolver2.Solve (Examples.idleDriver _) Examples.iccgSolver Examples.system22
        = .ok (ret, self2, system2) ∧
      self2.m_lastNumberOfIterations = 3 ∧ self2.m_lastResidualNorm = 1 / 2 ∧
      ret = false) ∧
    (∃ ret self2 system2,
      FDMMGPCGSolver2.Solve (Examples.idleSystemDriver _) Examples.mgpcgSolver
          Examples.mgSystem
        = .ok (ret, self2, system2) ∧
      self2.m_lastNumberOfIterations = 3 ∧ self2.m_lastResidualNorm = 1 / 2 ∧
      ret = false) := by
  constructor
  · obtain ⟨P, _, _, _, _, h⟩ :=
      FDMICCGSolver2.iccg_pcgArguments_spec Examples.iccgSolver Examples.system22 rfl rfl
    obtain ⟨ret, self2, system2, h1, h2, h3, _, _, _, h4⟩ :=
      (@Solve_success_policy Unit).1 (Examples.idleDriver _) _ _ _ _ h rfl
    refine ⟨ret, self2, system2, h1, h2, h3, h4.2 ?_⟩
    simp only [Examples.iccgSolver, Examples.idleDriver]
    norm_num
  · obtain ⟨ret, self2, system2, h1, h2, h3, _, _, _, h4⟩ :=
      (@Solve_success_policy Unit).2 (Examples.idleSystemDriver _) Examples.mgpcgSolver
        Examples.mgSystem _ _
        (FDMMGPCGSolver2.mgpcg_pcgArguments_spec Examples.mgpcgSolver Examples.matrix22 []
          Examples.nine22 [] Examples.ramp22 []) rfl
    refine ⟨ret, self2, system2, h1, h2, h3, h4.2 ?_⟩
    simp only [Examples.mgpcgSolver, Examples.idleSystemDriver]
    norm_num

/-- C4. Zero-input idempotence for ICCG, with the driver `PCG` as the specification
describes it and any residual norm that vanishes on an all-zero grid: for every matrix,
every tolerance `>= 0` and every iteration budget, `FDMICCGSolver2::Solve` on a system (of
matching sizes) whose right-hand side is all zero completes, leaves the solution all zero
whatever it held before, and returns `true`. -/
theorem ICCG_zero_rhs (norm : FDMVector2 → ℚ)
    (hnorm : ∀ v : FDMVector2,
      (∀ i j, i < v.size.x → j < v.size.y → v.cell i j = 0) → norm v = 0)
    (self : FDMICCGSolver2) (system : FDMLinearSystem2)
    (hb : system.A.size = system.b.size) (hx : system.A.size = system.x.size)
    (htol : 0 ≤ self.m_tolerance)
    (hzero : ∀ i j, i < system.b.size.x → j < system.b.size.y → system.b.cell i j = 0) :
    ∃ self2 system2,
      FDMICCGSolver2.Solve (PCG norm FDMICCGSolver2.Preconditioner.Solve) self system
        = .ok (true, self2, system2) ∧
      system2.A = system.A ∧ system2.b = system.b ∧ system2.x.size = system.x.size ∧
      (∀ i j, system2.x.cell i j = 0) ∧
      self2.m_lastNumberOfIterations = 0 ∧ self2.m_lastResidualNorm = 0 := by
  obtain ⟨P, _, hPA, hPd, hPy, hargs⟩ := FDMICCGSolver2.iccg_pcgArguments_spec self system hb hx
  have hr : norm (FDMBLAS2.Residual system.A ⟨system.x.size, fun _ _ => 0⟩ system.b) = 0 := by
    apply hnorm
    intro i j hi hj
    simp only [FDMBLAS2.Residual] at hi hj
    rw [hb] at hi hj
    simp [FDMBLAS2.Residual, FDMBLAS2.MVM, hzero i j hi hj]
  obtain ⟨P2, t, hsolve, _⟩ := FDMICCGSolver2.Preconditioner.Solve_spec P
    (FDMBLAS2.Residual system.A ⟨system.x.size, fun _ _ => 0⟩ system.b)
    ⟨system.A.size, fun _ _ => 0⟩ (by rw [hPA]; rfl) (by rw [hPd]; rfl) (by rw [hPy]; rfl) rfl
  have hloop : ∀ (fuel : Nat) (st : PCGState FDMICCGSolver2.Preconditioner),
      norm st.r ≤ self.m_tolerance →
      PCGLoop norm FDMICCGSolver2.Preconditioner.Solve system.A self.m_tolerance fuel st
        = .ok st := by
    intro fuel st h
    cases fuel with
    | zero => rfl
    | succ n => simp only [PCGLoop, h, if_true]
  refine ⟨⟨self.m_maxNumberOfIterations, 0, self.m_tolerance, 0,
      FDMBLAS2.Residual system.A ⟨system.x.size, fun _ _ => 0⟩ system.b, t,
      ⟨system.A.size, fun _ _ => 0⟩, ⟨system.A.size, fun _ _ => 0⟩, P2⟩,
    ⟨system.A, ⟨system.x.size, fun _ _ => 0⟩, system.b⟩, ?_, rfl, rfl, rfl, fun _ _ => rfl,
    rfl, rfl⟩
  have hst := hloop self.m_maxNumberOfIterations
    { M := P2, x := ⟨system.x.size, fun _ _ => 0⟩,
      r := FDMBLAS2.Residual system.A ⟨system.x.size, fun _ _ => 0⟩ system.b, d := t,
      q := ⟨system.A.size, fun _ _ => 0⟩, s := ⟨system.A.size, fun _ _ => 0⟩,
      sigma := FDMBLAS2.Dot
        (FDMBLAS2.Residual system.A ⟨system.x.size, fun _ _ => 0⟩ system.b) t,
      iter := 0 } (hr.le.trans htol)
  unfold FDMICCGSolver2.Solve
  simp only [hargs, ok_bind, PCG, hsolve, hst, pure_eq_ok, hr, htol, decide_True, Bool.true_or]

theorem maxNorm_zero (v : FDMVector2)
    (h : ∀ i j, i < v.size.x → j < v.size.y → v.cell i j = 0) : maxNorm v = 0 := by
  unfold maxNorm
  have hin : ∀ j, j < v.size.y → ∀ n, n ≤ v.size.x →
      List.foldl (fun m i => max m |v.cell i j|) (0 : ℚ) (List.range n) = 0 := by
    intro j hj n
    induction n with
    | zero => intro _; rfl
    | succ n ih =>
      intro hn
      rw [List.range_succ, List.foldl_append, ih (by omega)]
      simp [h n j (by omega) hj]
  have hout : ∀ n, n ≤ v.size.y →
      List.foldl (fun m j => List.foldl (fun m i => max m |v.cell i j|) m
        (List.range v.size.x)) (0 : ℚ) (List.range n) = 0 := by
    intro n
    induction n with
    | zero => intro _; rfl
    | succ n ih =>
      intro hn
      rw [List.range_succ, List.foldl_append, ih (by omega)]
      simp only [List.foldl_cons, List.foldl_nil]
      exact hin n (by omega) _ (le_refl _)
  exact hout _ (le_refl _)

theorem ICCG_zero_rhs_witness :
    ((∀ v : FDMVector2,
        (∀ i j, i < v.size.x → j < v.size.y → v.cell i j = 0) → maxNorm v = 0) ∧
      Examples.systemZeroRhs.A.size = Examples.systemZeroRhs.b.size ∧
      Examples.systemZeroRhs.A.size = Examples.systemZeroRhs.x.size ∧
      0 ≤ Examples.iccgSolver.m_tolerance ∧
      ∀ i j, i < Examples.systemZeroRhs.b.size.x → j < Examples.systemZeroRhs.b.size.y →
        Examples.systemZeroRhs.b.cell i j = 0) ∧
    ∃ self2 system2,
      FDMICCGSolver2.Solve (PCG maxNorm FDMICCGSolver2.Preconditioner.Solve)
        Examples.iccgSolver Examples.systemZeroRhs = .ok (true, self2, system2) ∧
      system2.A = Examples.systemZeroRhs.A ∧ system2.b = Examples.systemZeroRhs.b ∧
      system2.x.size = Examples.systemZeroRhs.x.size ∧
      (∀ i j, system2.x.cell i j = 0) ∧
      self2.m_lastNumberOfIterations = 0 ∧ self2.m_lastResidualNorm = 0 :=
  have htol : 0 ≤ Examples.iccgSolver.m_tolerance := by
    simp only [Examples.iccgSolver]; norm_num
  ⟨⟨maxNorm_zero, rfl, rfl, htol, fun _ _ _ _ => rfl⟩,
    ICCG_zero_rhs maxNorm maxNorm_zero Examples.iccgSolver Examples.systemZeroRhs rfl rfl
      htol (fun _ _ _ _ => rfl)⟩

/-- C5 (counterexample). On the one-level system whose matrix is `2 x 2` and whose
solution is `3 x 3`, `FDMMGPCGSolver2::Solve` reaches the call of `PCG` and hands it a
finest solution that is all zero but still `3 x 3`: it was not resized to the size of the
matrix, unlike the buffers, which are `2 x 2`. -/
theorem MGPCG_solution_not_resized :
    ∃ args,
      FDMMGPCGSolver2.pcgArguments Examples.mgpcgSolver Examples.mgMismatched = .ok args ∧
      args.system.A.levels = [Examples.matrix22] ∧ Examples.matrix22.size = ⟨2, 2⟩ ∧
      args.system.x.levels = [⟨⟨3, 3⟩, fun _ _ => 0⟩] ∧
      args.r = ⟨⟨2, 2⟩, fun _ _ => 0⟩ ∧
      (⟨3, 3⟩ : Size2) ≠ ⟨2, 2⟩ :=
  ⟨_, rfl, rfl, rfl, rfl, rfl, by decide⟩

/-- C5 (amended). The initial guess is discarded. `FDMICCGSolver2::Solve`, whose asserts
force the solution to have the size of the matrix, hands to `PCG` an all-zero solution and
all-zero buffers `r`, `d`, `q`, `s` of the matrix size. `FDMMGPCGSolver2::Solve` hands to
`PCG` all-zero buffers of the size of the finest matrix and a system whose finest solution
is zeroed in place: it keeps the size it came with (it is not resized), and nothing else
of the system is changed. For both solvers two calls on systems that differ only in the
values of the incoming (finest-level) solution hand `PCG` the same. -/
theorem initial_guess_discarded {MGParams : Type} :
    (∀ (self : FDMICCGSolver2) (sys1 sys2 : FDMLinearSystem2),
      sys1.A = sys2.A → sys1.b = sys2.b → sys1.x.size = sys2.x.size →
      sys1.A.size = sys1.b.size → sys1.A.size = sys1.x.size →
      ∃ args, FDMICCGSolver2.pcgArguments self sys1 = .ok args ∧
        FDMICCGSolver2.pcgArguments self sys2 = .ok args ∧
        args.x = ⟨sys1.A.size, fun _ _ => 0⟩ ∧ args.r = ⟨sys1.A.size, fun _ _ => 0⟩ ∧
        args.d = ⟨sys1.A.size, fun _ _ => 0⟩ ∧ args.q = ⟨sys1.A.size, fun _ _ => 0⟩ ∧
        args.s = ⟨sys1.A.size, fun _ _ => 0⟩) ∧
    (∀ (self : FDMMGPCGSolver2 MGParams) (A0 : FDMMatrix2) (As : List FDMMatrix2)
        (x1 x2 : FDMVector2) (xs : List FDMVector2) (b0 : FDMVector2) (bs : List FDMVector2),
      x1.size = x2.size →
      ∃ args,
        FDMMGPCGSolver2.pcgArguments self ⟨⟨A0 :: As⟩, ⟨x1 :: xs⟩, ⟨b0 :: bs⟩⟩ = .ok args ∧
        FDMMGPCGSolver2.pcgArguments self ⟨⟨A0 :: As⟩, ⟨x2 :: xs⟩, ⟨b0 :: bs⟩⟩ = .ok args ∧
        args.system.A.levels = A0 :: As ∧ args.system.b.levels = b0 :: bs ∧
        args.system.x.levels = ⟨x1.size, fun _ _ => 0⟩ :: xs ∧
        args.r = ⟨A0.size, fun _ _ => 0⟩ ∧
        args.d = ⟨A0.size, fun _ _ => 0⟩ ∧ args.q = ⟨A0.size, fun _ _ => 0⟩ ∧
        args.s = ⟨A0.size, fun _ _ => 0⟩) := by
  constructor
  · intro self sys1 sys2 hA hb hxs h1 h2
    obtain ⟨P, hP, _, _, _, hargs⟩ := FDMICCGSolver2.iccg_pcgArguments_spec self sys1 h1 h2
    obtain ⟨P2, hP2, _, _, _, hargs2⟩ := FDMICCGSolver2.iccg_pcgArguments_spec self sys2
      (by rw [← hA, ← hb]; exact h1) (by rw [← hA, ← hxs]; exact h2)
    rw [← hA, hP] at hP2
    cases hP2
    refine ⟨_, hargs, ?_, ?_, rfl, rfl, rfl, rfl⟩
    · rw [hargs2, ← hA, ← hb, ← hxs]
    · simp only [h2]
  · intro self A0 As x1 x2 xs b0 bs hx
    refine ⟨_, FDMMGPCGSolver2.mgpcg_pcgArguments_spec self A0 As x1 xs b0 bs, ?_,
      rfl, rfl, rfl, rfl, rfl, rfl, rfl⟩
    rw [FDMMGPCGSolver2.mgpcg_pcgArguments_spec self A0 As x2 xs b0 bs, hx]

theorem initial_guess_discarded_witness :
    (∃ args, FDMICCGSolver2.pcgArguments Examples.iccgSolver Examples.system22 = .ok args ∧
      FDMICCGSolver2.pcgArguments Examples.iccgSolver Examples.system22b = .ok args ∧
      args.x = ⟨⟨2, 2⟩, fun _ _ => 0⟩ ∧ args.r = ⟨⟨2, 2⟩, fun _ _ => 0⟩ ∧
      args.d = ⟨⟨2, 2⟩, fun _ _ => 0⟩ ∧ args.q = ⟨⟨2, 2⟩, fun _ _ => 0⟩ ∧
      args.s = ⟨⟨2, 2⟩, fun _ _ => 0⟩) ∧
    (∃ args,
      FDMMGPCGSolver2.pcgArguments Examples.mgpcgSolver
          ⟨⟨[Examples.matrix22]⟩, ⟨[Examples.nine22]⟩, ⟨[Examples.ramp22]⟩⟩ = .ok args ∧
      FDMMGPCGSolver2.pcgArguments Examples.mgpcgSolver
          ⟨⟨[Examples.matrix22]⟩, ⟨[Examples.zero22]⟩, ⟨[Examples.ramp22]⟩⟩ = .ok args ∧
      args.system.A.levels = [Examples.matrix22] ∧
      args.system.b.levels = [Examples.ramp22] ∧
      args.system.x.levels = [⟨⟨2, 2⟩, fun _ _ => 0⟩] ∧
      args.r = ⟨⟨2, 2⟩, fun _ _ => 0⟩ ∧
      args.d = ⟨⟨2, 2⟩, fun _ _ => 0⟩ ∧ args.q = ⟨⟨2, 2⟩, fun _ _ => 0⟩ ∧
      args.s = ⟨⟨2, 2⟩, fun _ _ => 0⟩) :=
  ⟨(@initial_guess_discarded Unit).1 Examples.iccgSolver Examples.system22 Examples.system22b
      rfl rfl rfl rfl rfl,
    (@initial_guess_discarded Unit).2 Examples.mgpcgSolver Examples.matrix22 []
      Examples.nine22 Examples.zero22 [] Examples.ramp22 [] rfl⟩

/-! ## Claims on the ranges of the transfer operators -/

/-- C12. Transfer operators stay in range: for a coarse grid of size `(nx, ny)` and a fine
grid of size exactly `(2nx, 2ny)`, `Restrict` and `Correct` complete (every access to a
grid is bounds-checked, so no read of `Restrict` and no write of `Correct` leaves the
grid), and every fine index they use for a coarse cell satisfies `index_x < 2nx` and
`index_y < 2ny`, at the boundary cells and for `nx = 1` or `ny = 1` as well; the first
index is `2i - 1` without underflow: computed in the integers it is `2i - 1` for `i > 0`
and `2i` for `i = 0`. -/
theorem transfer_indices_in_range (nx ny : Nat) (finer coarser : FDMVector2)
    (hf : finer.size = ⟨2 * nx, 2 * ny⟩) (hc : coarser.size = ⟨nx, ny⟩) :
    (∃ c, FDMMGUtils2.Restrict finer coarser = .ok c) ∧
    (∃ f, FDMMGUtils2.Correct coarser finer = .ok f) ∧
    (∀ i j a b, i < nx → j < ny → a < 4 → b < 4 →
      FDMMGUtils2.fineIndices nx i a < 2 * nx ∧ FDMMGUtils2.fineIndices ny j b < 2 * ny ∧
      finer.inRange (FDMMGUtils2.fineIndices nx i a) (FDMMGUtils2.fineIndices ny j b)) ∧
    (∀ n i, ((FDMMGUtils2.fineIndices n i 0 : Nat) : ℤ)
      = if 0 < i then 2 * (i : ℤ) - 1 else 2 * (i : ℤ)) := by
  obtain ⟨c, h1, _⟩ := FDMMGUtils2.Restrict_spec finer coarser
    (by rw [hf, hc]) (by rw [hf, hc])
  obtain ⟨f, g1, _⟩ := FDMMGUtils2.Correct_spec coarser finer
    (by rw [hf, hc]) (by rw [hf, hc])
  refine ⟨⟨c, h1⟩, ⟨f, g1⟩, ?_, ?_⟩
  · intro i j a b hi hj _ _
    have h1 := FDMMGUtils2.fineIndices_lt nx i a hi
    have h2 := FDMMGUtils2.fineIndices_lt ny j b hj
    refine ⟨h1, h2, ?_⟩
    simp only [Array2.inRange, hf]
    exact ⟨h1, h2⟩
  · intro n i
    simp only [FDMMGUtils2.fineIndices]
    split_ifs with h0
    · omega
    · push_cast; ring

theorem transfer_indices_in_range_witness :
    (Examples.rampFine.size = ⟨2 * 2, 2 * 1⟩ ∧ Examples.rampCoarse.size = ⟨2, 1⟩) ∧
    (∃ c, FDMMGUtils2.Restrict Examples.rampFine Examples.rampCoarse = .ok c) ∧
    (∃ f, FDMMGUtils2.Correct Examples.rampCoarse Examples.rampFine = .ok f) ∧
    (∀ i j a b, i < 2 → j < 1 → a < 4 → b < 4 →
      FDMMGUtils2.fineIndices 2 i a < 2 * 2 ∧ FDMMGUtils2.fineIndices 1 j b < 2 * 1 ∧
      Examples.rampFine.inRange (FDMMGUtils2.fineIndices 2 i a)
        (FDMMGUtils2.fineIndices 1 j b)) ∧
    (∀ n i, ((FDMMGUtils2.fineIndices n i 0 : Nat) : ℤ)
      = if 0 < i then 2 * (i : ℤ) - 1 else 2 * (i : ℤ)) :=
  ⟨⟨rfl, rfl⟩, transfer_indices_in_range 2 1 Examples.rampFine Examples.rampCoarse rfl rfl⟩

/-- C13 (as stated, refuted). For the fine size `3 x 3` and the coarse size `2 x 2`, which
is the fine size halved with rounding up, the size precondition of `Restrict` and of
`Correct` does not hold: both stop at their first assertion; and the fine index `2i + 1`
of the last coarse cell `i = 1` is `3`, outside the fine grid. -/
theorem odd_fine_size_counterexample :
    Examples.coarse22.size = ⟨(3 + 1) / 2, (3 + 1) / 2⟩ ∧
    Examples.fine33.size = ⟨3, 3⟩ ∧
    FDMMGUtils2.Restrict Examples.fine33 Examples.coarse22 = .error .assertion ∧
    FDMMGUtils2.Correct Examples.coarse22 Examples.fine33 = .error .assertion ∧
    ¬ Examples.fine33.inRange (FDMMGUtils2.fineIndices 2 1 2) (FDMMGUtils2.fineIndices 2 0 1) :=
  ⟨rfl, rfl, rfl, rfl, by
    simp [Array2.inRange, Examples.fine33, FDMMGUtils2.fineIndices]⟩

/-- C13 (amended). For adjacent levels in which the coarse size is the fine size
`(sx, sy)` halved with rounding up in each axis: when `sx` and `sy` are both even,
`Restrict` and `Correct` satisfy their size preconditions and complete, accessing only
in-range cells; when `sx` or `sy` is odd, both stop at their size assertion. -/
theorem halved_levels_transfer (sx sy : Nat) (finer coarser : FDMVector2)
    (hf : finer.size = ⟨sx, sy⟩) (hc : coarser.size = ⟨(sx + 1) / 2, (sy + 1) / 2⟩) :
    ((sx % 2 = 0 ∧ sy % 2 = 0) →
      (∃ c, FDMMGUtils2.Restrict finer coarser = .ok c) ∧
      (∃ f, FDMMGUtils2.Correct coarser finer = .ok f)) ∧
    (¬ (sx % 2 = 0 ∧ sy % 2 = 0) →
      FDMMGUtils2.Restrict finer coarser = .error .assertion ∧
      FDMMGUtils2.Correct coarser finer = .error .assertion) := by
  constructor
  · rintro ⟨h1, h2⟩
    have hx : finer.size.x = 2 * coarser.size.x := by rw [hf, hc]; simp only; omega
    have hy : finer.size.y = 2 * coarser.size.y := by rw [hf, hc]; simp only; omega
    obtain ⟨c, g1, _⟩ := FDMMGUtils2.Restrict_spec finer coarser hx hy
    obtain ⟨f, g2, _⟩ := FDMMGUtils2.Correct_spec coarser finer hx hy
    exact ⟨⟨c, g1⟩, ⟨f, g2⟩⟩
  · intro h
    have hne : finer.size.x ≠ 2 * coarser.size.x ∨ finer.size.y ≠ 2 * coarser.size.y := by
      rw [hf, hc]
      simp only
      omega
    unfold FDMMGUtils2.Restrict FDMMGUtils2.Correct
    rcases hne with h1 | h1
    · simp only [h1, ne_eq, not_false_eq_true, if_true, and_self]
    · by_cases h2 : finer.size.x = 2 * coarser.size.x
      · simp only [h1, h2, ne_eq, not_true_eq_false, not_false_eq_true, if_true, if_false,
          and_self]
      · simp only [h2, ne_eq, not_false_eq_true, if_true, and_self]

theorem halved_levels_transfer_witness :
    (Examples.rampFine.size = ⟨4, 2⟩ ∧ Examples.rampCoarse.size = ⟨(4 + 1) / 2, (2 + 1) / 2⟩) ∧
    (∃ c, FDMMGUtils2.Restrict Examples.rampFine Examples.rampCoarse = .ok c) ∧
    (∃ f, FDMMGUtils2.Correct Examples.rampCoarse Examples.rampFine = .ok f) :=
  ⟨⟨rfl, rfl⟩,
    (halved_levels_transfer 4 2 Examples.rampFine Examples.rampCoarse rfl rfl).1 ⟨rfl, rfl⟩⟩

/-! ## More on the incomplete-Cholesky preconditioner -/

namespace FDMICCGSolver2.Preconditioner

/-- The forward value of a cell depends on `y` through the left and the lower neighbour
only, and on `d` through the cell itself. -/
theorem forwardValue_congr (A : Nat → Nat → FDMMatrixRow2) (d1 d2 b y1 y2 : Nat → Nat → ℚ)
    (i j : Nat) (hd : d1 i j = d2 i j) (hl : i ≠ 0 → y1 (i - 1) j = y2 (i - 1) j)
    (hdn : j ≠ 0 → y1 i (j - 1) = y2 i (j - 1)) :
    Spec.forwardValue A d1 b y1 i j = Spec.forwardValue A d2 b y2 i j := by
  have e3 : (if i = 0 then 0 else (A (i - 1) j).right * y1 (i - 1) j)
      = (if i = 0 then 0 else (A (i - 1) j).right * y2 (i - 1) j) := by
    split_ifs with h0
    · rfl
    · rw [hl h0]
  have e4 : (if j = 0 then 0 else (A i (j - 1)).up * y1 i (j - 1))
      = (if j = 0 then 0 else (A i (j - 1)).up * y2 i (j - 1)) := by
    split_ifs with h0
    · rfl
    · rw [hdn h0]
  unfold Spec.forwardValue
  rw [e3, e4, hd]

/-- The backward value of a cell depends on `x` through the right and the upper neighbour
only, and on `d` and `y` through the cell itself. -/
theorem backwardValue_congr (A : Nat → Nat → FDMMatrixRow2)
    (d1 d2 y1 y2 x1 x2 : Nat → Nat → ℚ) (sx sy i j : Nat)
    (hd : d1 i j = d2 i j) (hy : y1 i j = y2 i j)
    (hr : i + 1 < sx → x1 (i + 1) j = x2 (i + 1) j)
    (hu : j + 1 < sy → x1 i (j + 1) = x2 i (j + 1)) :
    Spec.backwardValue A d1 y1 x1 sx sy i j = Spec.backwardValue A d2 y2 x2 sx sy i j := by
  have e3 : (if i + 1 < sx then (A i j).right * x1 (i + 1) j else 0)
      = (if i + 1 < sx then (A i j).right * x2 (i + 1) j else 0) := by
    split_ifs with h0
    · rw [hr h0]
    · rfl
  have e4 : (if j + 1 < sy then (A i j).up * x1 i (j + 1) else 0)
      = (if j + 1 < sy then (A i j).up * x2 i (j + 1) else 0) := by
    split_ifs with h0
    · rw [hu h0]
    · rfl
  unfold Spec.backwardValue
  rw [e3, e4, hd, hy]

/-- The forward substitution equations have at most one solution on a grid. -/
theorem forward_unique (A : Nat → Nat → FDMMatrixRow2) (nx ny : Nat)
    (d1 d2 b y1 y2 : Nat → Nat → ℚ)
    (hd : ∀ i j, i < nx → j < ny → d1 i j = d2 i j)
    (h1 : ∀ i j, i < nx → j < ny → y1 i j = Spec.forwardValue A d1 b y1 i j)
    (h2 : ∀ i j, i < nx → j < ny → y2 i j = Spec.forwardValue A d2 b y2 i j) :
    ∀ j, j < ny → ∀ i, i < nx → y1 i j = y2 i j := by
  intro j
  induction j using Nat.strong_induction_on with
  | _ j ihj =>
    intro hj i
    induction i using Nat.strong_induction_on with
    | _ i ihi =>
      intro hi
      rw [h1 i j hi hj, h2 i j hi hj]
      exact forwardValue_congr A d1 d2 b y1 y2 i j (hd i j hi hj)
        (fun h0 => ihi (i - 1) (by omega) (by omega))
        (fun h0 => ihj (j - 1) (by omega) (by omega) i hi)

/-- The backward substitution equations have at most one solution on a grid. -/
theorem backward_unique (A : Nat → Nat → FDMMatrixRow2) (sx sy : Nat)
    (d1 d2 y1 y2 x1 x2 : Nat → Nat → ℚ)
    (hd : ∀ i j, i < sx → j < sy → d1 i j = d2 i j)
    (hy : ∀ i j, i < sx → j < sy → y1 i j = y2 i j)
    (h1 : ∀ i j, i < sx → j < sy → x1 i j = Spec.backwardValue A d1 y1 x1 sx sy i j)
    (h2 : ∀ i j, i < sx → j < sy → x2 i j = Spec.backwardValue A d2 y2 x2 sx sy i j) :
    ∀ j, j < sy → ∀ i, i < sx → x1 i j = x2 i j := by
  have rows : ∀ n j, j < sy → sy - j ≤ n → ∀ i, i < sx → x1 i j = x2 i j := by
    intro n
    induction n with
    | zero => intro j hj hn; omega
    | succ n ihn =>
      intro j hj hn
      have cols : ∀ m i, i < sx → sx - i ≤ m → x1 i j = x2 i j := by
        intro m
        induction m with
        | zero => intro i hi hm; omega
        | succ m ihm =>
          intro i hi hm
          rw [h1 i j hi hj, h2 i j hi hj]
          exact backwardValue_congr A d1 d2 y1 y2 x1 x2 sx sy i j (hd i j hi hj)
            (hy i j hi hj) (fun h0 => ihm (i + 1) h0 (by omega))
            (fun h0 => ihn (j + 1) h0 (by omega) i hi)
      exact fun i hi => cols (sx - i) i hi (le_refl _)
  exact fun j hj => rows (sy - j) j hj (le_refl _)

/-- For a matrix without off-diagonal coefficients and with non-zero centre coefficients,
`Build` followed by `Solve(b, x)` divides `b` by the square of the centre coefficient. -/
theorem diagonal_solve (self : Preconditioner) (matrix : FDMMatrix2) (b x : FDMVector2)
    (hb : b.size = matrix.size) (hx : x.size = matrix.size)
    (hoff : ∀ i j, i < matrix.size.x → j < matrix.size.y →
      (matrix.cell i j).right = 0 ∧ (matrix.cell i j).up = 0)
    (hcen : ∀ i j, i < matrix.size.x → j < matrix.size.y → (matrix.cell i j).center ≠ 0) :
    ∃ P P2 t, Build self matrix = .ok P ∧ Solve P b x = .ok (P2, t) ∧
      ∀ i j, i < matrix.size.x → j < matrix.size.y →
        t.cell i j = b.cell i j / (matrix.cell i j).center ^ 2 := by
  obtain ⟨P, h1, h2, h3, h5, h4⟩ := Build_spec self matrix
  obtain ⟨P2, t, g1, _, _, _, _, g6, g7⟩ := Solve_spec P b x
    (by rw [h2, hb]) (by rw [h3, hb]) (by rw [h5, hb]) (by rw [hx, hb])
  rw [h2, hb] at g6 g7
  refine ⟨P, P2, t, h1, g1, ?_⟩
  intro i j hi hj
  have e1 : (if i = 0 then (0 : ℚ)
      else (matrix.cell (i - 1) j).right ^ 2 * P.d.cell (i - 1) j) = 0 := by
    split_ifs with h0
    · rfl
    · rw [(hoff (i - 1) j (by omega) hj).1]; ring
  have e2 : (if j = 0 then (0 : ℚ)
      else (matrix.cell i (j - 1)).up ^ 2 * P.d.cell i (j - 1)) = 0 := by
    split_ifs with h0
    · rfl
    · rw [(hoff i (j - 1) hi (by omega)).2]; ring
  have hd : P.d.cell i j = 1 / (matrix.cell i j).center := by
    rw [h4 i j hi hj]
    unfold Spec.factorValue Spec.factorDenom
    rw [e1, e2, sub_zero, sub_zero, if_neg (hcen i j hi hj)]
  have e3 : (if i = 0 then (0 : ℚ)
      else (matrix.cell (i - 1) j).right * P2.y.cell (i - 1) j) = 0 := by
    split_ifs with h0
    · rfl
    · rw [(hoff (i - 1) j (by omega) hj).1]; ring
  have e4 : (if j = 0 then (0 : ℚ)
      else (matrix.cell i (j - 1)).up * P2.y.cell i (j - 1)) = 0 := by
    split_ifs with h0
    · rfl
    · rw [(hoff i (j - 1) hi (by omega)).2]; ring
  have hyv : P2.y.cell i j = b.cell i j * P.d.cell i j := by
    rw [g6 i j hi hj]
    unfold Spec.forwardValue
    rw [e3, e4, sub_zero, sub_zero]
  have e5 : (if i + 1 < matrix.size.x then (matrix.cell i j).right * t.cell (i + 1) j
      else (0 : ℚ)) = 0 := by
    split_ifs with h0
    · rw [(hoff i j hi hj).1]; ring
    · rfl
  have e6 : (if j + 1 < matrix.size.y then (matrix.cell i j).up * t.cell i (j + 1)
      else (0 : ℚ)) = 0 := by
    split_ifs with h0
    · rw [(hoff i j hi hj).2]; ring
    · rfl
  rw [g7 i j hi hj]
  unfold Spec.backwardValue
  rw [e5, e6, sub_zero, sub_zero, hyv, hd]
  simp only [one_div, div_eq_mul_inv]
  ring

end FDMICCGSolver2.Preconditioner

/-- C14 (the code at the failing input). For the `1 x 1` matrix with `center = 2` and
`right = up = 0` and the right-hand side `b = 1`, `Build` followed by
`Preconditioner::Solve(b, x)` gives `x = 1/4`, so `center * x = 1/2`, which is not `b`:
the backward substitution multiplies by `d` once more, and for a matrix of this kind the
preconditioner divides by the square of the centre coefficient. -/
theorem ICCG_diagonal_not_inverse :
    ∃ P P2 t,
      FDMICCGSolver2.Preconditioner.Build Examples.freshPreconditioner Examples.diagonal11
        = .ok P ∧
      FDMICCGSolver2.Preconditioner.Solve P Examples.one11 Examples.one11 = .ok (P2, t) ∧
      t.cell 0 0 = 1 / 4 ∧
      (Examples.diagonal11.cell 0 0).center * t.cell 0 0 = 1 / 2 ∧
      (Examples.diagonal11.cell 0 0).center * t.cell 0 0 ≠ Examples.one11.cell 0 0 := by
  obtain ⟨P, P2, t, h1, h2, h3⟩ := FDMICCGSolver2.Preconditioner.diagonal_solve
    Examples.freshPreconditioner Examples.diagonal11 Examples.one11 Examples.one11 rfl rfl
    (fun _ _ _ _ => ⟨rfl, rfl⟩)
    (fun _ _ _ _ => by simp only [Examples.diagonal11]; norm_num)
  have h4 : t.cell 0 0 = 1 / 4 := by
    rw [h3 0 0 (by simp [Examples.diagonal11]) (by simp [Examples.diagonal11])]
    simp only [Examples.diagonal11, Examples.one11]
    norm_num
  refine ⟨P, P2, t, h1, h2, h4, ?_, ?_⟩
  · rw [h4]; simp only [Examples.diagonal11]; norm_num
  · rw [h4]; simp only [Examples.diagonal11, Examples.one11]; norm_num

/-- C15. The ICCG preconditioner carries no stale state: for a matrix and vectors `b`,
`x` of its size, the cells of the `x` written by `Build(matrix)` followed by
`Preconditioner::Solve(b, x)` are the same whatever the preconditioner held before (its
`A`, and its buffers `d` and `y` of any size and contents, which `Resize` may keep) and
whatever the incoming `x` held. -/
theorem ICCG_no_stale_state (self1 self2 : FDMICCGSolver2.Preconditioner)
    (matrix : FDMMatrix2) (b x1 x2 : FDMVector2)
    (hb : b.size = matrix.size) (hx1 : x1.size = matrix.size) (hx2 : x2.size = matrix.size) :
    ∃ P1 Q1 t1 P2 Q2 t2,
      FDMICCGSolver2.Preconditioner.Build self1 matrix = .ok P1 ∧
      FDMICCGSolver2.Preconditioner.Solve P1 b x1 = .ok (Q1, t1) ∧
      FDMICCGSolver2.Preconditioner.Build self2 matrix = .ok P2 ∧
      FDMICCGSolver2.Preconditioner.Solve P2 b x2 = .ok (Q2, t2) ∧
      t1.size = t2.size ∧
      ∀ i j, i < matrix.size.x → j < matrix.size.y → t1.cell i j = t2.cell i j := by
  obtain ⟨P1, a1, a2, a3, a5, a4⟩ := FDMICCGSolver2.Preconditioner.Build_spec self1 matrix
  obtain ⟨P2, b1, b2, b3, b5, b4⟩ := FDMICCGSolver2.Preconditioner.Build_spec self2 matrix
  obtain ⟨Q1, t1, c1, _, _, _, c5, c6, c7⟩ := FDMICCGSolver2.Preconditioner.Solve_spec P1 b x1
    (by rw [a2, hb]) (by rw [a3, hb]) (by rw [a5, hb]) (by rw [hx1, hb])
  obtain ⟨Q2, t2, d1, _, _, _, d5, d6, d7⟩ := FDMICCGSolver2.Preconditioner.Solve_spec P2 b x2
    (by rw [b2, hb]) (by rw [b3, hb]) (by rw [b5, hb]) (by rw [hx2, hb])
  rw [a2, hb] at c6 c7
  rw [b2, hb] at d6 d7
  refine ⟨P1, Q1, t1, P2, Q2, t2, a1, c1, b1, d1, c5.trans d5.symm, ?_⟩
  have hd : ∀ i j, i < matrix.size.x → j < matrix.size.y → P1.d.cell i j = P2.d.cell i j :=
    fun i j hi hj => FDMICCGSolver2.Preconditioner.factor_unique matrix.cell
      matrix.size.x matrix.size.y P1.d.cell P2.d.cell a4 b4 j hj i hi
  have hy : ∀ i j, i < matrix.size.x → j < matrix.size.y → Q1.y.cell i j = Q2.y.cell i j :=
    fun i j hi hj => FDMICCGSolver2.Preconditioner.forward_unique matrix.cell
      matrix.size.x matrix.size.y P1.d.cell P2.d.cell b.cell Q1.y.cell Q2.y.cell hd c6 d6
      j hj i hi
  intro i j hi hj
  exact FDMICCGSolver2.Preconditioner.backward_unique matrix.cell matrix.size.x matrix.size.y
    P1.d.cell P2.d.cell Q1.y.cell Q2.y.cell t1.cell t2.cell hd hy c7 d7 j hj i hi

theorem ICCG_no_stale_state_witness :
    (Examples.ramp22.size = Examples.matrix22.size ∧
      Examples.nine22.size = Examples.matrix22.size ∧
      Examples.zero22.size = Examples.matrix22.size) ∧
    ∃ P1 Q1 t1 P2 Q2 t2,
      FDMICCGSolver2.Preconditioner.Build Examples.freshPreconditioner Examples.matrix22
        = .ok P1 ∧
      FDMICCGSolver2.Preconditioner.Solve P1 Examples.ramp22 Examples.nine22 = .ok (Q1, t1) ∧
      FDMICCGSolver2.Preconditioner.Build Examples.stalePreconditioner Examples.matrix22
        = .ok P2 ∧
      FDMICCGSolver2.Preconditioner.Solve P2 Examples.ramp22 Examples.zero22 = .ok (Q2, t2) ∧
      t1.size = t2.size ∧
      ∀ i j, i < Examples.matrix22.size.x → j < Examples.matrix22.size.y →
        t1.cell i j = t2.cell i j :=
  ⟨⟨rfl, rfl, rfl⟩,
    ICCG_no_stale_state Examples.freshPreconditioner Examples.stalePreconditioner
      Examples.matrix22 Examples.ramp22 Examples.nine22 Examples.zero22 rfl rfl rfl⟩

/-! ## Claims on malformed input and on what the solvers write -/

/-- The two functions that embed `FDMICCGSolver2::Solve` agree: the run with its final
state ends in the fault, or with the result, solver and system, that `Solve` gives. -/
theorem SolveRun_eq_Solve (pcg : PCGDriver FDMICCGSolver2.Preconditioner)
    (self : FDMICCGSolver2) (system : FDMLinearSystem2) :
    (∀ e, FDMICCGSolver2.Solve pcg self system = .error e →
      (FDMICCGSolver2.SolveRun pcg self system).1 = .error e) ∧
    (∀ ret self2 system2, FDMICCGSolver2.Solve pcg self system = .ok (ret, self2, system2) →
      FDMICCGSolver2.SolveRun pcg self system = (.ok ret, self2, system2)) := by
  unfold FDMICCGSolver2.Solve FDMICCGSolver2.SolveRun FDMICCGSolver2.pcgArguments
  by_cases h1 : system.A.size = system.b.size
  · by_cases h2 : system.A.size = system.x.size
    · rw [if_neg (not_not.2 h1), if_neg (not_not.2 h2), if_neg (not_not.2 h1),
        if_neg (not_not.2 h2)]
      dsimp only
      cases hB : self.m_precond.Build system.A with
      | error e =>
        simp only [error_bind]
        exact ⟨fun e2 h => (by cases h; rfl), fun _ _ _ h => by cases h⟩
      | ok precond =>
        simp only [ok_bind, pure_eq_ok]
        cases hP : pcg
            ({ A := system.A, b := system.b,
               maxNumberOfIterations := self.m_maxNumberOfIterations,
               tolerance := self.m_tolerance, M := precond, x := system.x.Set 0,
               r := (self.m_r.Resize system.A.size 0).Set 0,
               d := (self.m_d.Resize system.A.size 0).Set 0,
               q := (self.m_q.Resize system.A.size 0).Set 0,
               s := (self.m_s.Resize system.A.size 0).Set 0 } :
              PCGArguments FDMICCGSolver2.Preconditioner) with
        | error e =>
          simp only [error_bind]
          exact ⟨fun e2 h => (by cases h; rfl), fun _ _ _ h => by cases h⟩
        | ok out =>
          simp only [ok_bind]
          exact ⟨fun e2 h => (by cases h), fun _ _ _ h => by cases h; rfl⟩
    · rw [if_neg (not_not.2 h1), if_pos h2, if_neg (not_not.2 h1), if_pos h2]
      exact ⟨fun e2 h => (by cases h; rfl), fun _ _ _ h => by cases h⟩
  · rw [if_pos h1, if_pos h1]
    exact ⟨fun e2 h => (by cases h; rfl), fun _ _ _ h => by cases h⟩

/-- C18. ICCG fails fast on malformed input. The part of `FDMICCGSolver2::Solve` before the
call of `PCG` raises an assertion if and only if the matrix size differs from the
right-hand-side size or from the solution size, and with a driver that raises no assertion
of its own the same holds for the whole run. On such input the run stops at the assertion
with the solver and the system exactly as they were when `Solve` was called, whatever the
solver holds and whatever the driver is: no buffer has been resized, no value has been
written to the system, the preconditioner has not been built. On well-formed input, by
contrast, the run goes on: the solution is zeroed before the driver is called. -/
theorem ICCG_fails_fast :
    (∀ (self : FDMICCGSolver2) (system : FDMLinearSystem2),
      FDMICCGSolver2.pcgArguments self system = .error .assertion ↔
        (system.A.size ≠ system.b.size ∨ system.A.size ≠ system.x.size)) ∧
    (∀ (pcg : PCGDriver FDMICCGSolver2.Preconditioner) (self : FDMICCGSolver2)
        (system : FDMLinearSystem2),
      (∀ a, pcg a ≠ .error .assertion) →
      ((FDMICCGSolver2.SolveRun pcg self system).1 = .error .assertion ↔
        (system.A.size ≠ system.b.size ∨ system.A.size ≠ system.x.size))) ∧
    (∀ (system : FDMLinearSystem2),
      (system.A.size ≠ system.b.size ∨ system.A.size ≠ system.x.size) →
      ∀ (pcg : PCGDriver FDMICCGSolver2.Preconditioner) (self : FDMICCGSolver2),
        FDMICCGSolver2.SolveRun pcg self system = (.error .assertion, self, system) ∧
        FDMICCGSolver2.Solve pcg self system = .error .assertion) ∧
    (∀ (pcg : PCGDriver FDMICCGSolver2.Preconditioner) (self : FDMICCGSolver2)
        (system : FDMLinearSystem2),
      system.A.size = system.b.size → system.A.size = system.x.size →
      (FDMICCGSolver2.SolveRun pcg self system).2.2.A = system.A ∧
      (FDMICCGSolver2.SolveRun pcg self system).2.2.b = system.b ∧
      ((∀ a, ∃ e, pcg a = .error e) →
        (FDMICCGSolver2.SolveRun pcg self system).2.2.x = system.x.Set 0 ∧
        (FDMICCGSolver2.SolveRun pcg self system).2.1.m_r
          = ⟨system.A.size, fun _ _ => 0⟩)) ∧
    FDMICCGSolver2.SolveRun (Examples.idleDriver _) Examples.iccgSolver
        Examples.systemMismatched
      = (.error .assertion, Examples.iccgSolver, Examples.systemMismatched) := by
  have hbad : ∀ (self : FDMICCGSolver2) (system : FDMLinearSystem2),
      (system.A.size ≠ system.b.size ∨ system.A.size ≠ system.x.size) →
      FDMICCGSolver2.pcgArguments self system = .error .assertion := by
    intro self system h
    unfold FDMICCGSolver2.pcgArguments
    by_cases h1 : system.A.size = system.b.size
    · have h2 : system.A.size ≠ system.x.size := h.resolve_left (fun hn => hn h1)
      rw [if_neg (not_not.2 h1), if_pos h2]
    · rw [if_pos h1]
  have hbadRun : ∀ (pcg : PCGDriver FDMICCGSolver2.Preconditioner) (self : FDMICCGSolver2)
      (system : FDMLinearSystem2),
      (system.A.size ≠ system.b.size ∨ system.A.size ≠ system.x.size) →
      FDMICCGSolver2.SolveRun pcg self system = (.error .assertion, self, system) := by
    intro pcg self system h
    unfold FDMICCGSolver2.SolveRun
    by_cases h1 : system.A.size = system.b.size
    · have h2 : system.A.size ≠ system.x.size := h.resolve_left (fun hn => hn h1)
      rw [if_neg (not_not.2 h1), if_pos h2]
    · rw [if_pos h1]
  have hgood : ∀ (self : FDMICCGSolver2) (system : FDMLinearSystem2),
      ¬ (system.A.size ≠ system.b.size ∨ system.A.size ≠ system.x.size) →
      ∃ args, FDMICCGSolver2.pcgArguments self system = .ok args := by
    intro self system h
    rw [not_or, not_not, not_not] at h
    obtain ⟨P, _, _, _, _, hargs⟩ := FDMICCGSolver2.iccg_pcgArguments_spec self system h.1 h.2
    exact ⟨_, hargs⟩
  have hrun : ∀ (pcg : PCGDriver FDMICCGSolver2.Preconditioner) (self : FDMICCGSolver2)
      (system : FDMLinearSystem2),
      system.A.size = system.b.size → system.A.size = system.x.size →
      ∃ P, self.m_precond.Build system.A = .ok P ∧
        FDMICCGSolver2.SolveRun pcg self system
          = (match pcg
              ({ A := system.A, b := system.b,
                 maxNumberOfIterations := self.m_maxNumberOfIterations,
                 tolerance := self.m_tolerance, M := P, x := system.x.Set 0,
                 r := (self.m_r.Resize system.A.size 0).Set 0,
                 d := (self.m_d.Resize system.A.size 0).Set 0,
                 q := (self.m_q.Resize system.A.size 0).Set 0,
                 s := (self.m_s.Resize system.A.size 0).Set 0 } :
                PCGArguments FDMICCGSolver2.Preconditioner) with
            | .error e =>
              (.error e,
                { self with m_r := (self.m_r.Resize system.A.size 0).Set 0,
                            m_d := (self.m_d.Resize system.A.size 0).Set 0,
                            m_q := (self.m_q.Resize system.A.size 0).Set 0,
                            m_s := (self.m_s.Resize system.A.size 0).Set 0,
                            m_precond := P },
                { system with x := system.x.Set 0 })
            | .ok out =>
              (.ok (decide (out.lastResidualNorm ≤ self.m_tolerance) ||
                    decide (out.lastNumberOfIterations < self.m_maxNumberOfIterations)),
                { self with m_lastNumberOfIterations := out.lastNumberOfIterations,
                            m_lastResidualNorm := out.lastResidualNorm,
                            m_r := out.r, m_d := out.d, m_q := out.q, m_s := out.s,
                            m_precond := out.M },
                { system with x := out.x })) := by
    intro pcg self system h1 h2
    obtain ⟨P, hP, _⟩ := FDMICCGSolver2.Preconditioner.Build_spec self.m_precond system.A
    refine ⟨P, hP, ?_⟩
    unfold FDMICCGSolver2.SolveRun
    rw [if_neg (not_not.2 h1), if_neg (not_not.2 h2)]
    dsimp only
    rw [hP]
  refine ⟨?_, ?_, ?_, ?_, ?_⟩
  · intro self system
    constructor
    · intro h
      by_contra hn
      obtain ⟨args, hargs⟩ := hgood self system hn
      rw [hargs] at h
      cases h
    · exact hbad self system
  · intro pcg self system hpcg
    constructor
    · intro h
      by_contra hn
      rw [not_or, not_not, not_not] at hn
      obtain ⟨P, _, hr⟩ := hrun pcg self system hn.1 hn.2
      rw [hr] at h
      cases hcall : pcg
          ({ A := system.A, b := system.b,
             maxNumberOfIterations := self.m_maxNumberOfIterations,
             tolerance := self.m_tolerance, M := P, x := system.x.Set 0,
             r := (self.m_r.Resize system.A.size 0).Set 0,
             d := (self.m_d.Resize system.A.size 0).Set 0,
             q := (self.m_q.Resize system.A.size 0).Set 0,
             s := (self.m_s.Resize system.A.size 0).Set 0 } :
            PCGArguments FDMICCGSolver2.Preconditioner) with
      | error e =>
        rw [hcall] at h
        simp only [Except.error.injEq] at h
        rw [h] at hcall
        exact hpcg _ hcall
      | ok out =>
        rw [hcall] at h
        cases h
    · intro h
      rw [hbadRun pcg self system h]
  · intro system h pcg self
    refine ⟨hbadRun pcg self system h, ?_⟩
    unfold FDMICCGSolver2.Solve
    rw [hbad self system h]
    rfl
  · intro pcg self system h1 h2
    obtain ⟨P, _, hr⟩ := hrun pcg self system h1 h2
    rw [hr]
    cases hcall : pcg
        ({ A := system.A, b := system.b,
           maxNumberOfIterations := self.m_maxNumberOfIterations,
           tolerance := self.m_tolerance, M := P, x := system.x.Set 0,
           r := (self.m_r.Resize system.A.size 0).Set 0,
           d := (self.m_d.Resize system.A.size 0).Set 0,
           q := (self.m_q.Resize system.A.size 0).Set 0,
           s := (self.m_s.Resize system.A.size 0).Set 0 } :
          PCGArguments FDMICCGSolver2.Preconditioner) with
    | error e =>
      exact ⟨rfl, rfl, fun _ => ⟨rfl, rfl⟩⟩
    | ok out =>
      refine ⟨rfl, rfl, fun hf => ?_⟩
      obtain ⟨e, he⟩ := hf _
      rw [he] at hcall
      cases hcall
  · rfl

/-- C19 (the code at the failing inputs). The function `FDMMGPCGSolver2::Solve` has no
assertion. On a one-level system whose matrix is `2 x 2`, whose solution is `3 x 3` and
whose right-hand side is `1 x 1` it zeroes the solution, calls the driver and completes;
on a system without levels it accesses the front of an empty vector, which is an
out-of-bounds access and not a contract violation. For no system does the part before the
call of the driver end in an assertion. -/
theorem MGPCG_no_fail_fast :
    (∃ ret self2,
      FDMMGPCGSolver2.Solve (Examples.idleSystemDriver _) Examples.mgpcgSolver
          Examples.mgMismatched
        = .ok (ret, self2, ⟨⟨[Examples.matrix22]⟩, ⟨[⟨⟨3, 3⟩, fun _ _ => 0⟩]⟩,
            ⟨[Examples.one11]⟩⟩)) ∧
    FDMMGPCGSolver2.Solve (Examples.idleSystemDriver _) Examples.mgpcgSolver
        Examples.mgNoLevels
      = .error .outOfRange ∧
    (∀ (self : FDMMGPCGSolver2 Unit) (system : FDMMGLinearSystem2),
      FDMMGPCGSolver2.pcgArguments self system ≠ .error .assertion) := by
  refine ⟨⟨_, _, rfl⟩, rfl, ?_⟩
  intro self system h
  unfold FDMMGPCGSolver2.pcgArguments at h
  cases hA : system.A.levels with
  | nil =>
    simp only [hA, front, error_bind] at h
    cases h
  | cons A0 As =>
    cases hxs : system.x.levels with
    | nil =>
      simp only [hA, hxs, front, ok_bind, error_bind] at h
      cases h
    | cons x0 xs =>
      cases hbs : system.b.levels with
      | nil =>
        simp only [hA, hxs, hbs, front, setFront, ok_bind, error_bind] at h
        cases h
      | cons b0 bs =>
        simp only [hA, hxs, hbs, front, setFront, ok_bind, pure_eq_ok] at h
        cases h

/-! ## Claims on the multigrid preconditioner -/

/-- The run of `Preconditioner::Solve` when the system its pointer refers to has at least
one level, from any list of earlier calls: one call is appended, and the outcome is decided
by that call. -/
theorem mgpcg_Solve_run {MGParams : Type} (MGVCycle : MGVCycleFunction MGParams)
    (P : FDMMGPCGSolver2.Preconditioner MGParams) (system : FDMMGLinearSystem2)
    (b x x0 : FDMVector2) (xs : List FDMVector2) (hx : system.x.levels = x0 :: xs)
    (calls : List (MGVCycleArguments MGParams)) :
    (FDMMGPCGSolver2.Preconditioner.Solve MGVCycle P system b x).run calls
      = (MGVCycle ⟨system.A, P.mgParams, ⟨x :: xs⟩, ⟨b :: xs⟩, system.x⟩ >>= fun out =>
          front out.x.levels >>= fun top =>
            pure (top, calls ++ [⟨system.A, P.mgParams, ⟨x :: xs⟩, ⟨b :: xs⟩, system.x⟩])) := by
  unfold FDMMGPCGSolver2.Preconditioner.Solve invoke
  simp only [hx, front, setFront, Array2.SetArray, StateT.run_bind, StateT.run_lift,
    StateT.run_modify, StateT.run_pure, ok_bind, bind_assoc, pure_bind]

/-- The vector that `Preconditioner::Solve` returns: the finest solution level of what the
V-cycle makes of the hierarchy whose finest level is the incoming `x`. -/
theorem mgpcg_Solve_result {MGParams : Type} (MGVCycle : MGVCycleFunction MGParams)
    (P : FDMMGPCGSolver2.Preconditioner MGParams) (system : FDMMGLinearSystem2)
    (b x x0 : FDMVector2) (xs : List FDMVector2) (hx : system.x.levels = x0 :: xs) :
    (FDMMGPCGSolver2.Preconditioner.Solve MGVCycle P system b x).run' []
      = (MGVCycle ⟨system.A, P.mgParams, ⟨x :: xs⟩, ⟨b :: xs⟩, system.x⟩ >>= fun out =>
          front out.x.levels) := by
  have hrun2 : (FDMMGPCGSolver2.Preconditioner.Solve MGVCycle P system b x).run' []
      = (fun r => r.1) <$> (FDMMGPCGSolver2.Preconditioner.Solve MGVCycle P system b x).run []
      := rfl
  rw [hrun2, mgpcg_Solve_run MGVCycle P system b x x0 xs hx []]
  cases MGVCycle ⟨system.A, P.mgParams, ⟨x :: xs⟩, ⟨b :: xs⟩, system.x⟩ with
  | error e => rfl
  | ok out =>
    cases hf : front out.x.levels with
    | error e => simp only [ok_bind, hf]; rfl
    | ok top => simp only [ok_bind, hf]; rfl

/-- One plain Gauss-Seidel sweep on the `2 x 1` example: the first cell. -/
theorem relax_example (x : FDMVector2) (hx : x.size = ⟨2, 1⟩) :
    ∃ t, Relax Examples.matrix21 Examples.one21 1 false x = .ok t ∧
      t.cell 0 0 = x.cell 0 0 + (1 - (2 * x.cell 0 0 + x.cell 1 0)) / 2 := by
  have hr1 : List.range 1 = [0] := rfl
  have hr2 : List.range 2 = [0, 1] := rfl
  simp [Relax, Array2.ForEachIndex, Examples.matrix21, Examples.one21, hr1, hr2, RelaxCell,
    divide, FDMBLAS2.MVM, Array2.put, Array2.inRange, Array2.write, hx, ok_bind, pure_eq_ok]

/-- The preconditioner of the `2 x 1` example, applied to the right-hand side `(1, 1)` and
an incoming `x` of size `2 x 1`: the first cell of the result. -/
theorem mgpcg_Solve_example (x : FDMVector2) (hx : x.size = ⟨2, 1⟩) :
    ∃ t, (FDMMGPCGSolver2.Preconditioner.Solve MGVCycle Examples.mgPreconditioner
        Examples.mgBound Examples.one21 x).run' [] = .ok t ∧
      t.cell 0 0 = x.cell 0 0 + (1 - (2 * x.cell 0 0 + x.cell 1 0)) / 2 := by
  obtain ⟨t, ht, hcell⟩ := relax_example x hx
  refine ⟨t, ?_, hcell⟩
  rw [mgpcg_Solve_result MGVCycle Examples.mgPreconditioner Examples.mgBound Examples.one21 x
    Examples.zero21 [] rfl]
  simp [MGVCycle, MGVCycleLevels, RelaxSweeps, Examples.mgPreconditioner, Examples.mgBound,
    Examples.oneSweep, ht, front, setFront, ok_bind, pure_eq_ok]

/-- C11. The MGPCG preconditioner is exactly one V-cycle: when the system it is bound to
has at least one level, `FDMMGPCGSolver2::Preconditioner::Solve(b, x)` makes one call of
`MGVCycle` and no other (the list of calls of the run is that one call), with the matrix
hierarchy of the bound system and the bound parameters, on a right-hand-side hierarchy
whose finest level is `b` (and a solution hierarchy whose finest level is the incoming
`x`); when the V-cycle completes, the `x` returned is the finest level of the solution
hierarchy it produced, and when it faults, so does `Solve`. -/
theorem MGPCG_preconditioner_one_VCycle {MGParams : Type}
    (MGVCycle : MGVCycleFunction MGParams) (P : FDMMGPCGSolver2.Preconditioner MGParams)
    (system : FDMMGLinearSystem2)
    (b x x0 : FDMVector2) (xs : List FDMVector2) (hx : system.x.levels = x0 :: xs) :
    ∃ args : MGVCycleArguments MGParams,
      args.A = system.A ∧ args.params = P.mgParams ∧
      args.b.levels.head? = some b ∧ args.x.levels.head? = some x ∧
      (∀ out top rest, MGVCycle args = .ok out → out.x.levels = top :: rest →
        (FDMMGPCGSolver2.Preconditioner.Solve MGVCycle P system b x).run []
          = .ok (top, [args])) ∧
      (∀ e, MGVCycle args = .error e →
        (FDMMGPCGSolver2.Preconditioner.Solve MGVCycle P system b x).run [] = .error e) := by
  refine ⟨⟨system.A, P.mgParams, ⟨x :: xs⟩, ⟨b :: xs⟩, system.x⟩, rfl, rfl, rfl, rfl,
    ?_, ?_⟩
  · intro out top rest hcall hout
    rw [mgpcg_Solve_run MGVCycle P system b x x0 xs hx [], hcall]
    simp only [ok_bind, hout, front, pure_eq_ok, List.nil_append]
  · intro e hcall
    rw [mgpcg_Solve_run MGVCycle P system b x x0 xs hx [], hcall]
    rfl

theorem MGPCG_preconditioner_one_VCycle_witness :
    Examples.mgBound.x.levels = Examples.zero21 :: [] ∧
    ∃ args : MGVCycleArguments MGParameters,
      args.A = Examples.mgBound.A ∧
      args.params = Examples.mgPreconditioner.mgParams ∧
      args.b.levels.head? = some Examples.one21 ∧
      args.x.levels.head? = some Examples.other21 ∧
      (∀ out top rest, MGVCycle args = .ok out → out.x.levels = top :: rest →
        (FDMMGPCGSolver2.Preconditioner.Solve MGVCycle Examples.mgPreconditioner
          Examples.mgBound Examples.one21 Examples.other21).run [] = .ok (top, [args])) ∧
      (∀ e, MGVCycle args = .error e →
        (FDMMGPCGSolver2.Preconditioner.Solve MGVCycle Examples.mgPreconditioner
          Examples.mgBound Examples.one21 Examples.other21).run [] = .error e) :=
  ⟨rfl, MGPCG_preconditioner_one_VCycle MGVCycle Examples.mgPreconditioner Examples.mgBound
    Examples.one21 Examples.other21 Examples.zero21 [] rfl⟩

/-- C16 (as stated, refuted). On one bound system (one level of size `2 x 1`) with one
parameter set, two calls of `FDMMGPCGSolver2::Preconditioner::Solve` with the same
`b = (1, 1)` and the incoming `x = (0, 0)`, respectively `x = (0, 2)`: whatever the
V-cycle function is, the first call hands it the solution hierarchy `[(0, 0)]` and the
second the solution hierarchy `[(0, 2)]`, and each returns the finest solution level of
what the V-cycle makes of that; with the V-cycle of the specification (one plain
Gauss-Seidel sweep) both complete, and the first cell of the result is `1/2`, respectively
`-1/2`. -/
theorem MGPCG_preconditioner_depends_on_x :
    Examples.zero21.size = Examples.other21.size ∧
    Examples.zero21.cell 1 0 ≠ Examples.other21.cell 1 0 ∧
    (∀ V : MGVCycleFunction MGParameters,
      (FDMMGPCGSolver2.Preconditioner.Solve V Examples.mgPreconditioner Examples.mgBound
          Examples.one21 Examples.zero21).run' []
        = (V ⟨⟨[Examples.matrix21]⟩, Examples.oneSweep, ⟨[Examples.zero21]⟩,
            ⟨[Examples.one21]⟩, ⟨[Examples.zero21]⟩⟩ >>= fun out => front out.x.levels) ∧
      (FDMMGPCGSolver2.Preconditioner.Solve V Examples.mgPreconditioner Examples.mgBound
          Examples.one21 Examples.other21).run' []
        = (V ⟨⟨[Examples.matrix21]⟩, Examples.oneSweep, ⟨[Examples.other21]⟩,
            ⟨[Examples.one21]⟩, ⟨[Examples.zero21]⟩⟩ >>= fun out => front out.x.levels)) ∧
    ∃ t1 t2,
      (FDMMGPCGSolver2.Preconditioner.Solve MGVCycle Examples.mgPreconditioner
        Examples.mgBound Examples.one21 Examples.zero21).run' [] = .ok t1 ∧
      (FDMMGPCGSolver2.Preconditioner.Solve MGVCycle Examples.mgPreconditioner
        Examples.mgBound Examples.one21 Examples.other21).run' [] = .ok t2 ∧
      t1.cell 0 0 = 1 / 2 ∧ t2.cell 0 0 = -1 / 2 ∧ t1.cell 0 0 ≠ t2.cell 0 0 := by
  obtain ⟨t1, h1, c1⟩ := mgpcg_Solve_example Examples.zero21 rfl
  obtain ⟨t2, h2, c2⟩ := mgpcg_Solve_example Examples.other21 rfl
  have e1 : t1.cell 0 0 = 1 / 2 := by
    rw [c1]; simp only [Examples.zero21]; norm_num
  have e2 : t2.cell 0 0 = -1 / 2 := by
    rw [c2]; simp only [Examples.other21]; norm_num
  refine ⟨rfl, ?_, ?_, t1, t2, h1, h2, e1, e2, ?_⟩
  · simp only [Examples.zero21, Examples.other21]
    norm_num
  · intro V
    exact ⟨mgpcg_Solve_result V Examples.mgPreconditioner Examples.mgBound Examples.one21
        Examples.zero21 Examples.zero21 [] rfl,
      mgpcg_Solve_result V Examples.mgPreconditioner Examples.mgBound Examples.one21
        Examples.other21 Examples.zero21 [] rfl⟩
  · rw [e1, e2]
    norm_num

/-- C16 (amended). The MGPCG preconditioner is an operator on its input residual and on the
incoming `x`: when the system it is bound to has at least one level,
`FDMMGPCGSolver2::Preconditioner::Solve(b, x)` makes one call of the V-cycle, to which it
hands the incoming `x` as the finest level of the solution hierarchy (the coarser levels,
and the whole buffer hierarchy, are those of the solution hierarchy of the bound system),
and it returns the finest solution level of what that call produced. Hence two calls with
the same `b` and the incoming `x1`, `x2` produce the same `x` if and only if the V-cycle
produces the same finest solution level from these two initial guesses. -/
theorem MGPCG_preconditioner_operator {MGParams : Type}
    (MGVCycle : MGVCycleFunction MGParams) (P : FDMMGPCGSolver2.Preconditioner MGParams)
    (system : FDMMGLinearSystem2) (b x1 x2 x0 : FDMVector2) (xs : List FDMVector2)
    (hx : system.x.levels = x0 :: xs) :
    (FDMMGPCGSolver2.Preconditioner.Solve MGVCycle P system b x1).run []
      = (MGVCycle ⟨system.A, P.mgParams, ⟨x1 :: xs⟩, ⟨b :: xs⟩, ⟨x0 :: xs⟩⟩ >>= fun out =>
          front out.x.levels >>= fun top =>
            pure (top, [⟨system.A, P.mgParams, ⟨x1 :: xs⟩, ⟨b :: xs⟩, ⟨x0 :: xs⟩⟩])) ∧
    ((FDMMGPCGSolver2.Preconditioner.Solve MGVCycle P system b x1).run' []
        = (FDMMGPCGSolver2.Preconditioner.Solve MGVCycle P system b x2).run' [] ↔
      (MGVCycle ⟨system.A, P.mgParams, ⟨x1 :: xs⟩, ⟨b :: xs⟩, ⟨x0 :: xs⟩⟩ >>= fun out =>
          front out.x.levels)
        = (MGVCycle ⟨system.A, P.mgParams, ⟨x2 :: xs⟩, ⟨b :: xs⟩, ⟨x0 :: xs⟩⟩ >>= fun out =>
          front out.x.levels)) := by
  have hsx : system.x = ⟨x0 :: xs⟩ := by
    cases hs : system.x with
    | mk levels => rw [hs] at hx; rw [← hx]
  constructor
  · rw [mgpcg_Solve_run MGVCycle P system b x1 x0 xs hx [], hsx]
    rfl
  · rw [mgpcg_Solve_result MGVCycle P system b x1 x0 xs hx,
      mgpcg_Solve_result MGVCycle P system b x2 x0 xs hx, hsx]

theorem MGPCG_preconditioner_operator_witness :
    Examples.mgBound.x.levels = Examples.zero21 :: [] ∧
    (FDMMGPCGSolver2.Preconditioner.Solve MGVCycle Examples.mgPreconditioner Examples.mgBound
        Examples.one21 Examples.zero21).run []
      = (MGVCycle ⟨Examples.mgBound.A, Examples.mgPreconditioner.mgParams,
          ⟨Examples.zero21 :: []⟩, ⟨Examples.one21 :: []⟩, ⟨Examples.zero21 :: []⟩⟩
        >>= fun out => front out.x.levels >>= fun top =>
          pure (top, [⟨Examples.mgBound.A, Examples.mgPreconditioner.mgParams,
            ⟨Examples.zero21 :: []⟩, ⟨Examples.one21 :: []⟩, ⟨Examples.zero21 :: []⟩⟩])) ∧
    ((FDMMGPCGSolver2.Preconditioner.Solve MGVCycle Examples.mgPreconditioner
          Examples.mgBound Examples.one21 Examples.zero21).run' []
        = (FDMMGPCGSolver2.Preconditioner.Solve MGVCycle Examples.mgPreconditioner
          Examples.mgBound Examples.one21 Examples.other21).run' [] ↔
      (MGVCycle ⟨Examples.mgBound.A, Examples.mgPreconditioner.mgParams,
          ⟨Examples.zero21 :: []⟩, ⟨Examples.one21 :: []⟩, ⟨Examples.zero21 :: []⟩⟩
        >>= fun out => front out.x.levels)
        = (MGVCycle ⟨Examples.mgBound.A, Examples.mgPreconditioner.mgParams,
          ⟨Examples.other21 :: []⟩, ⟨Examples.one21 :: []⟩, ⟨Examples.zero21 :: []⟩⟩
        >>= fun out => front out.x.levels)) :=
  ⟨rfl, MGPCG_preconditioner_operator MGVCycle Examples.mgPreconditioner Examples.mgBound
    Examples.one21 Examples.zero21 Examples.other21 Examples.zero21 [] rfl⟩

/-! ## Claims on what the multigrid solver writes -/

/-- C20 (the code at the failing input). The mesh obtained from the empty mesh by
`AddUV` has as many UV index triples as point index triples (none), yet
`AddPointUVTriangle` stops at its assertion, which compares the number of point index
triples with the number of UVs; the sibling `AddPointUVNormalTriangle`, which compares with
the number of UV index triples, completes on the same mesh. -/
theorem AddPointUVTriangle_assertion_trips :
    Examples.meshOneUV.m_uvIndices.length = Examples.meshOneUV.m_pointIndices.length ∧
    TriangleMesh3.AddPointUVTriangle Examples.meshOneUV ⟨0, 0, 0⟩ ⟨0, 0, 0⟩
      = .error .assertion ∧
    (∃ m, TriangleMesh3.AddPointUVNormalTriangle Examples.meshOneUV ⟨0, 0, 0⟩ ⟨0, 0, 0⟩
      ⟨0, 0, 0⟩ = .ok m) :=
  ⟨rfl, rfl, ⟨_, rfl⟩⟩

/-! ## Claims on the bounding box -/

namespace BoundingBox2

theorem Contains_iff (self : BoundingBox2) (p : Vector2D) :
    self.Contains p = true ↔
      self.lowerCorner.x ≤ p.x ∧ p.x ≤ self.upperCorner.x ∧
      self.lowerCorner.y ≤ p.y ∧ p.y ≤ self.upperCorner.y := by
  unfold Contains
  constructor
  · intro h
    split_ifs at h with h1 h2
    simp only [not_or, not_lt, gt_iff_lt] at h1 h2
    exact ⟨h1.2, h1.1, h2.2, h2.1⟩
  · rintro ⟨h1, h2, h3, h4⟩
    rw [if_neg (by simp only [not_or, not_lt, gt_iff_lt]; exact ⟨h2, h1⟩),
      if_neg (by simp only [not_or, not_lt, gt_iff_lt]; exact ⟨h4, h3⟩)]

theorem Overlaps_iff (self other : BoundingBox2) :
    self.Overlaps other = true ↔
      other.lowerCorner.x ≤ self.upperCorner.x ∧ self.lowerCorner.x ≤ other.upperCorner.x ∧
      other.lowerCorner.y ≤ self.upperCorner.y ∧ self.lowerCorner.y ≤ other.upperCorner.y := by
  unfold Overlaps
  constructor
  · intro h
    split_ifs at h with h1 h2
    simp only [not_or, not_lt, gt_iff_lt] at h1 h2
    exact ⟨h1.1, h1.2, h2.1, h2.2⟩
  · rintro ⟨h1, h2, h3, h4⟩
    rw [if_neg (by simp only [not_or, not_lt, gt_iff_lt]; exact ⟨h1, h2⟩),
      if_neg (by simp only [not_or, not_lt, gt_iff_lt]; exact ⟨h3, h4⟩)]

end BoundingBox2

/-- C24. For two boxes `a`, `b`, each with `lowerCorner <= upperCorner` in both components,
`a.Overlaps(b)` is true exactly when some point is contained in both; `Overlaps` is
symmetric; and boxes that touch along an edge (`a.upperCorner.x = b.lowerCorner.x` with
meeting `y` ranges) or in a corner (`a.upperCorner = b.lowerCorner`) overlap. -/
theorem Overlaps_shared_point (a b : BoundingBox2)
    (ha : a.lowerCorner.x ≤ a.upperCorner.x ∧ a.lowerCorner.y ≤ a.upperCorner.y)
    (hb : b.lowerCorner.x ≤ b.upperCorner.x ∧ b.lowerCorner.y ≤ b.upperCorner.y) :
    (a.Overlaps b = true ↔ ∃ p, a.Contains p = true ∧ b.Contains p = true) ∧
    a.Overlaps b = b.Overlaps a ∧
    (a.upperCorner.x = b.lowerCorner.x → b.lowerCorner.y ≤ a.upperCorner.y →
      a.lowerCorner.y ≤ b.upperCorner.y → a.Overlaps b = true) ∧
    (a.upperCorner.x = b.lowerCorner.x → a.upperCorner.y = b.lowerCorner.y →
      a.Overlaps b = true) := by
  refine ⟨?_, ?_, ?_, ?_⟩
  · rw [BoundingBox2.Overlaps_iff]
    constructor
    · rintro ⟨h1, h2, h3, h4⟩
      refine ⟨⟨max a.lowerCorner.x b.lowerCorner.x, max a.lowerCorner.y b.lowerCorner.y⟩,
        ?_, ?_⟩
      · rw [BoundingBox2.Contains_iff]
        exact ⟨le_max_left _ _, max_le ha.1 h1, le_max_left _ _, max_le ha.2 h3⟩
      · rw [BoundingBox2.Contains_iff]
        exact ⟨le_max_right _ _, max_le h2 hb.1, le_max_right _ _, max_le h4 hb.2⟩
    · rintro ⟨p, hp, hq⟩
      rw [BoundingBox2.Contains_iff] at hp hq
      exact ⟨hq.1.trans hp.2.1, hp.1.trans hq.2.1, hq.2.2.1.trans hp.2.2.2,
        hp.2.2.1.trans hq.2.2.2⟩
  · rw [Bool.eq_iff_iff, BoundingBox2.Overlaps_iff, BoundingBox2.Overlaps_iff]
    constructor
    · rintro ⟨h1, h2, h3, h4⟩
      exact ⟨h2, h1, h4, h3⟩
    · rintro ⟨h1, h2, h3, h4⟩
      exact ⟨h2, h1, h4, h3⟩
  · intro hx h3 h4
    rw [BoundingBox2.Overlaps_iff]
    exact ⟨hx.ge, (ha.1.trans hx.le).trans hb.1, h3, h4⟩
  · intro hx hy
    rw [BoundingBox2.Overlaps_iff]
    exact ⟨hx.ge, (ha.1.trans hx.le).trans hb.1, hy.ge, (ha.2.trans hy.le).trans hb.2⟩

theorem Overlaps_shared_point_witness :
    ((Examples.unitBox.lowerCorner.x ≤ Examples.unitBox.upperCorner.x ∧
        Examples.unitBox.lowerCorner.y ≤ Examples.unitBox.upperCorner.y) ∧
      (Examples.cornerBox.lowerCorner.x ≤ Examples.cornerBox.upperCorner.x ∧
        Examples.cornerBox.lowerCorner.y ≤ Examples.cornerBox.upperCorner.y)) ∧
    ((Examples.unitBox.Overlaps Examples.cornerBox = true ↔
        ∃ p, Examples.unitBox.Contains p = true ∧ Examples.cornerBox.Contains p = true) ∧
      Examples.unitBox.Overlaps Examples.cornerBox
        = Examples.cornerBox.Overlaps Examples.unitBox ∧
      (Examples.unitBox.upperCorner.x = Examples.cornerBox.lowerCorner.x →
        Examples.cornerBox.lowerCorner.y ≤ Examples.unitBox.upperCorner.y →
        Examples.unitBox.lowerCorner.y ≤ Examples.cornerBox.upperCorner.y →
        Examples.unitBox.Overlaps Examples.cornerBox = true) ∧
      (Examples.unitBox.upperCorner.x = Examples.cornerBox.lowerCorner.x →
        Examples.unitBox.upperCorner.y = Examples.cornerBox.lowerCorner.y →
        Examples.unitBox.Overlaps Examples.cornerBox = true)) :=
  ⟨⟨⟨by norm_num [Examples.unitBox], by norm_num [Examples.unitBox]⟩,
      ⟨by norm_num [Examples.cornerBox], by norm_num [Examples.cornerBox]⟩⟩,
    Overlaps_shared_point Examples.unitBox Examples.cornerBox
      ⟨by norm_num [Examples.unitBox], by norm_num [Examples.unitBox]⟩
      ⟨by norm_num [Examples.cornerBox], by norm_num [Examples.cornerBox]⟩⟩

/-- C25. After `Merge(point)` the box contains the point and every point it contained
before; its lower corner is the componentwise minimum, and its upper corner the
componentwise maximum, of the old corner and the point; every box that contains the point
and reaches at least as far as the old corners reaches at least as far as the merged box;
and merging a point of the range of the number type (`-max <= x, y <= max`) into a freshly
`Reset` box gives `lowerCorner = upperCorner = point`. -/
theorem Merge_smallest_box (self : BoundingBox2) (point : Vector2D) (numericMax : ℚ) :
    (self.Merge point).Contains point = true ∧
    (∀ p, self.Contains p = true → (self.Merge point).Contains p = true) ∧
    (self.Merge point).lowerCorner
      = ⟨min self.lowerCorner.x point.x, min self.lowerCorner.y point.y⟩ ∧
    (self.Merge point).upperCorner
      = ⟨max self.upperCorner.x point.x, max self.upperCorner.y point.y⟩ ∧
    (∀ c : BoundingBox2, c.Contains point = true →
      c.lowerCorner.x ≤ self.lowerCorner.x → c.lowerCorner.y ≤ self.lowerCorner.y →
      self.upperCorner.x ≤ c.upperCorner.x → self.upperCorner.y ≤ c.upperCorner.y →
      c.lowerCorner.x ≤ (self.Merge point).lowerCorner.x ∧
      c.lowerCorner.y ≤ (self.Merge point).lowerCorner.y ∧
      (self.Merge point).upperCorner.x ≤ c.upperCorner.x ∧
      (self.Merge point).upperCorner.y ≤ c.upperCorner.y) ∧
    (-numericMax ≤ point.x → point.x ≤ numericMax →
      -numericMax ≤ point.y → point.y ≤ numericMax →
      ((self.Reset numericMax).Merge point).lowerCorner = point ∧
      ((self.Reset numericMax).Merge point).upperCorner = point) := by
  refine ⟨?_, ?_, rfl, rfl, ?_, ?_⟩
  · rw [BoundingBox2.Contains_iff]
    exact ⟨min_le_right _ _, le_max_right _ _, min_le_right _ _, le_max_right _ _⟩
  · intro p hp
    rw [BoundingBox2.Contains_iff] at hp ⊢
    exact ⟨(min_le_left _ _).trans hp.1, hp.2.1.trans (le_max_left _ _),
      (min_le_left _ _).trans hp.2.2.1, hp.2.2.2.trans (le_max_left _ _)⟩
  · intro c hc h1 h2 h3 h4
    rw [BoundingBox2.Contains_iff] at hc
    exact ⟨le_min h1 hc.1, le_min h2 hc.2.2.1, max_le h3 hc.2.1, max_le h4 hc.2.2.2⟩
  · intro h1 h2 h3 h4
    obtain ⟨px, py⟩ := point
    simp only [BoundingBox2.Merge, BoundingBox2.Reset] at h1 h2 h3 h4 ⊢
    rw [min_eq_right h2, min_eq_right h4, max_eq_right h1, max_eq_right h3]
    exact ⟨rfl, rfl⟩

theorem Merge_smallest_box_witness :
    ((-5 : ℚ) ≤ (⟨3, 4⟩ : Vector2D).x ∧ (⟨3, 4⟩ : Vector2D).x ≤ 5 ∧
      (-5 : ℚ) ≤ (⟨3, 4⟩ : Vector2D).y ∧ (⟨3, 4⟩ : Vector2D).y ≤ 5) ∧
    (Examples.unitBox.Merge ⟨3, 4⟩).Contains ⟨3, 4⟩ = true ∧
    ((Examples.unitBox.Reset 5).Merge ⟨3, 4⟩).lowerCorner = ⟨3, 4⟩ ∧
    ((Examples.unitBox.Reset 5).Merge ⟨3, 4⟩).upperCorner = ⟨3, 4⟩ :=
  ⟨⟨by norm_num, by norm_num, by norm_num, by norm_num⟩,
    (Merge_smallest_box Examples.unitBox ⟨3, 4⟩ 5).1,
    (Merge_smallest_box Examples.unitBox ⟨3, 4⟩ 5).2.2.2.2.2
      (by norm_num) (by norm_num) (by norm_num) (by norm_num)⟩

theorem sum_swap_pairs (Q P J I : Finset ℕ) (G : ℕ → ℕ → ℕ → ℕ → ℚ) :
    ∑ q in Q, ∑ p in P, ∑ j in J, ∑ i in I, G q p j i
      = ∑ j in J, ∑ i in I, ∑ q in Q, ∑ p in P, G q p j i := by
  calc ∑ q in Q, ∑ p in P, ∑ j in J, ∑ i in I, G q p j i
      = ∑ q in Q, ∑ j in J, ∑ p in P, ∑ i in I, G q p j i :=
        Finset.sum_congr rfl fun q _ => Finset.sum_comm
    _ = ∑ j in J, ∑ q in Q, ∑ p in P, ∑ i in I, G q p j i := Finset.sum_comm
    _ = ∑ j in J, ∑ q in Q, ∑ i in I, ∑ p in P, G q p j i :=
        Finset.sum_congr rfl fun j _ => Finset.sum_congr rfl fun q _ => Finset.sum_comm
    _ = ∑ j in J, ∑ i in I, ∑ q in Q, ∑ p in P, G q p j i :=
        Finset.sum_congr rfl fun j _ => Finset.sum_comm

theorem sum_indicator_pair (P Q : Finset ℕ) (p0 q0 : ℕ) (hp : p0 ∈ P) (hq : q0 ∈ Q)
    (g : ℕ → ℕ → ℚ) :
    ∑ q in Q, ∑ p in P, (if p = p0 ∧ q = q0 then g p q else 0) = g p0 q0 := by
  rw [Finset.sum_eq_single_of_mem q0 hq, Finset.sum_eq_single_of_mem p0 hp, if_pos ⟨rfl, rfl⟩]
  · intro p _ hne
    exact if_neg (fun h => hne h.1)
  · intro q _ hne
    exact Finset.sum_eq_zero (fun p _ => if_neg (fun h => hne h.2))

namespace FDMMGUtils2

theorem correctKernel_eq_two_mul (a : Nat) : correctKernel a = 2 * restrictKernel a := by
  match a with
  | 0 => norm_num [correctKernel, restrictKernel]
  | 1 => norm_num [correctKernel, restrictKernel]
  | 2 => norm_num [correctKernel, restrictKernel]
  | 3 => norm_num [correctKernel, restrictKernel]
  | _ + 4 => exact (mul_zero (2 : ℚ)).symm

theorem correct_restrict_adjoint (finer coarser : FDMVector2) (n : Size2) :
    ∑ q in Finset.range (2 * n.y), ∑ p in Finset.range (2 * n.x),
        finer.cell p q * correctValue coarser n p q
      = 4 * ∑ j in Finset.range n.y, ∑ i in Finset.range n.x,
          restrictValue finer n i j * coarser.cell i j := by
  unfold correctValue restrictValue
  simp only [Finset.mul_sum, Finset.sum_mul, mul_ite, mul_zero]
  rw [sum_swap_pairs]
  refine Finset.sum_congr rfl fun j hj => Finset.sum_congr rfl fun i hi => ?_
  rw [sum_swap_pairs, Finset.sum_comm]
  refine Finset.sum_congr rfl fun a ha => Finset.sum_congr rfl fun b hb => ?_
  rw [sum_indicator_pair _ _ _ _
    (Finset.mem_range.2 (fineIndices_lt n.x i a (Finset.mem_range.1 hi)))
    (Finset.mem_range.2 (fineIndices_lt n.y j b (Finset.mem_range.1 hj)))
    (fun p q => finer.cell p q * (correctKernel a * correctKernel b * coarser.cell i j))]
  rw [correctKernel_eq_two_mul, correctKernel_eq_two_mul]
  ring

end FDMMGUtils2

/-- One worker on the whole index range: for a coarse size `(nx, ny)`, a fine field `f` of
size `(2nx, 2ny)` and a coarse field `c` of size `(nx, ny)`, `Correct(c, 0)`, visiting the
coarse cells one after the other, and `Restrict(f)` complete, and the sum over the fine
cells of `f(p, q) * Correct(c, 0)(p, q)` is 4 times the sum over the coarse cells of
`Restrict(f)(i, j) * c(i, j)`. -/
theorem Restrict_Correct_serial_adjoint (nx ny : Nat) (finer coarser target : FDMVector2)
    (hf : finer.size = ⟨2 * nx, 2 * ny⟩) (hc : coarser.size = ⟨nx, ny⟩)
    (ht : target.size = ⟨nx, ny⟩) :
    ∃ z r, FDMMGUtils2.Correct coarser (finer.Set 0) = .ok z ∧
      FDMMGUtils2.Restrict finer target = .ok r ∧
      ∑ q in Finset.range (2 * ny), ∑ p in Finset.range (2 * nx),
          finer.cell p q * z.cell p q
        = 4 * ∑ j in Finset.range ny, ∑ i in Finset.range nx,
            r.cell i j * coarser.cell i j := by
  obtain ⟨z, g1, _, g3⟩ := FDMMGUtils2.Correct_spec coarser (finer.Set 0)
    (by simp [Array2.Set, hf, hc]) (by simp [Array2.Set, hf, hc])
  obtain ⟨r, h1, _, h3⟩ := FDMMGUtils2.Restrict_spec finer target
    (by rw [hf, ht]) (by rw [hf, ht])
  refine ⟨z, r, g1, h1, ?_⟩
  rw [ht] at h3
  rw [hc] at g3
  have hz : ∀ p q, z.cell p q = correctValue coarser ⟨nx, ny⟩ p q := by
    intro p q
    rw [g3 p q]
    simp [Array2.Set]
  have hL : ∑ q in Finset.range (2 * ny), ∑ p in Finset.range (2 * nx),
        finer.cell p q * z.cell p q
      = ∑ q in Finset.range (2 * ny), ∑ p in Finset.range (2 * nx),
        finer.cell p q * correctValue coarser ⟨nx, ny⟩ p q :=
    Finset.sum_congr rfl fun q _ => Finset.sum_congr rfl fun p _ => by rw [hz p q]
  have hR : ∑ j in Finset.range ny, ∑ i in Finset.range nx, r.cell i j * coarser.cell i j
      = ∑ j in Finset.range ny, ∑ i in Finset.range nx,
        restrictValue finer ⟨nx, ny⟩ i j * coarser.cell i j :=
    Finset.sum_congr rfl fun j hj => Finset.sum_congr rfl fun i hi => by
      rw [h3 i j (Finset.mem_range.1 hi) (Finset.mem_range.1 hj)]
  rw [hL, hR]
  exact FDMMGUtils2.correct_restrict_adjoint finer coarser ⟨nx, ny⟩

/-! ## Claims on the cells that Correct updates -/

/-- Neighbouring coarse indices share two fine indices: slots 2 and 3 of the coarse index
`i` are slots 0 and 1 of the coarse index `i + 1`. -/
theorem fineIndices_shared (n i : Nat) (h : i + 1 < n) :
    FDMMGUtils2.fineIndices n i 2 = FDMMGUtils2.fineIndices n (i + 1) 0 ∧
    FDMMGUtils2.fineIndices n i 3 = FDMMGUtils2.fineIndices n (i + 1) 1 := by
  constructor
  · show 2 * i + 1 = if i + 1 > 0 then 2 * (i + 1) - 1 else 2 * (i + 1)
    rw [if_pos (Nat.succ_pos i)]
    omega
  · show (if i + 1 < n then 2 * i + 2 else 2 * i + 1) = 2 * (i + 1)
    rw [if_pos h]
    omega

/-- C23 (the code at the failing input). On a `2 x 1` coarse grid the coarse cells `(0, 0)`
and `(1, 0)` both have the fine index `1` among their `iIndices` (slot 2 of the first, slot
0 of the second) and `0` among their `jIndices`; the function that `Correct` passes to
`ParallelRangeFor`, run on the sub-range `[0, 1) x [0, 1)` and on the sub-range
`[1, 2) x [0, 1)` from an all-zero fine grid with the coarse values `7`, adds `21/4` and
`7/4` to the same fine cell `(1, 0)`. -/
theorem Correct_subranges_share_fine_cell :
    (FDMMGUtils2.fineIndices 2 0 2 = 1 ∧ FDMMGUtils2.fineIndices 2 1 0 = 1 ∧
      FDMMGUtils2.fineIndices 1 0 0 = 0) ∧
    (∃ f, FDMMGUtils2.CorrectRange Examples.constCoarse ⟨2, 1⟩ 0 1 0 1 Examples.zeroFine
        = .ok f ∧ f.cell 1 0 = 21 / 4) ∧
    (∃ f, FDMMGUtils2.CorrectRange Examples.constCoarse ⟨2, 1⟩ 1 2 0 1 Examples.zeroFine
        = .ok f ∧ f.cell 1 0 = 7 / 4) := by
  refine ⟨⟨rfl, rfl, rfl⟩, ⟨_, rfl, ?_⟩, ⟨_, rfl, ?_⟩⟩
  · simp [Array2.write, FDMMGUtils2.fineIndices, FDMMGUtils2.correctKernel,
      Examples.zeroFine, Examples.constCoarse]
    norm_num
  · simp [Array2.write, FDMMGUtils2.fineIndices, FDMMGUtils2.correctKernel,
      Examples.zeroFine, Examples.constCoarse]
    norm_num

/-! ## Correct under worker threads

The fine cells that `Correct` updates for neighbouring coarse cells overlap, and the
update `+=` is a read followed by a store. The lemmas below relate the run with one worker
on the whole index range to `Correct`; the theorems after them evaluate runs with two
workers. -/

/-- A loop over a concatenation of lists of items is the nested loop. -/
theorem foldlM_flatMap {σ ι κ : Type} (f : σ → κ → Except Fault σ) (g : ι → List κ)
    (l : List ι) (s : σ) :
    List.foldlM f s (l.flatMap g) = List.foldlM (fun s a => List.foldlM f s (g a)) s l := by
  induction l generalizing s with
  | nil => rfl
  | cons a l ih =>
    rw [List.flatMap_cons, List.foldlM_append, List.foldlM_cons]
    exact bind_congr ih

/-- A loop over the images of a list. -/
theorem foldlM_map_items {σ ι κ : Type} (f : σ → κ → Except Fault σ) (g : ι → κ)
    (l : List ι) (s : σ) :
    List.foldlM f s (l.map g) = List.foldlM (fun s a => f s (g a)) s l := by
  induction l generalizing s with
  | nil => rfl
  | cons a l ih =>
    rw [List.map_cons, List.foldlM_cons, List.foldlM_cons]
    exact bind_congr ih

/-- Two loop bodies that agree on the items of the list give the same loop. -/
theorem foldlM_congr_mem {σ ι : Type} (f g : σ → ι → Except Fault σ) (l : List ι)
    (h : ∀ s a, a ∈ l → f s a = g s a) (s : σ) :
    List.foldlM f s l = List.foldlM g s l := by
  induction l generalizing s with
  | nil => rfl
  | cons a l ih =>
    rw [List.foldlM_cons, List.foldlM_cons, h s a (List.mem_cons_self a l)]
    exact bind_congr fun s2 => ih (fun s b hb => h s b (List.mem_cons_of_mem a hb)) s2

/-- A loop that appends to a list what each item yields. -/
theorem foldlM_collect {ι β : Type} (g : ι → Except Fault (List β)) (h : ι → List β)
    (l : List ι) (hg : ∀ a ∈ l, g a = .ok (h a)) (acc : List β) :
    List.foldlM (fun acc a => g a >>= fun x => pure (acc ++ x)) acc l
      = .ok (acc ++ l.flatMap h) := by
  induction l generalizing acc with
  | nil => simp [pure_eq_ok]
  | cons a l ih =>
    rw [List.foldlM_cons, hg a (List.mem_cons_self a l), ok_bind, pure_eq_ok, ok_bind,
      ih (fun b hb => hg b (List.mem_cons_of_mem a hb)), List.flatMap_cons, List.append_assoc]

namespace FDMMGUtils2

/-- The two innermost loops of `Correct` execute the statements of the cell in order. -/
theorem correctCell_eq_statements (n : Size2) (i j : Nat) (cij : ℚ) (finer : FDMVector2) :
    correctCell n i j cij finer
      = List.foldlM FineUpdate.run finer (correctCellStatements n i j cij) := by
  unfold correctCell correctCellStatements
  rw [foldlM_flatMap]
  refine foldlM_congr_mem _ _ _ (fun s y _ => ?_) finer
  rw [foldlM_map_items]
  rfl

/-- The statements of an index range inside the coarse grid: those of its cells, in the
order of the two loops. -/
theorem correctStatements_inside (coarser : FDMVector2) (n : Size2)
    (iBegin iEnd jBegin jEnd : Nat) (hi : iEnd ≤ coarser.size.x) (hj : jEnd ≤ coarser.size.y) :
    correctStatements coarser n iBegin iEnd jBegin jEnd
      = .ok ((loopRange jBegin jEnd).flatMap (fun j => (loopRange iBegin iEnd).flatMap
          (fun i => correctCellStatements n i j (coarser.cell i j)))) := by
  have hget : ∀ i ∈ loopRange iBegin iEnd, ∀ j ∈ loopRange jBegin jEnd,
      coarser.get i j = .ok (coarser.cell i j) := by
    intro i hi2 j hj2
    unfold loopRange at hi2 hj2
    rw [List.mem_range'_1] at hi2 hj2
    unfold Array2.get
    rw [if_pos]
    exact ⟨by omega, by omega⟩
  unfold correctStatements
  have inner : ∀ j ∈ loopRange jBegin jEnd, ∀ acc : List FineUpdate,
      List.foldlM (fun statements i => do
        let cij ← coarser.get i j
        pure (statements ++ correctCellStatements n i j cij)) acc (loopRange iBegin iEnd)
      = .ok (acc ++ (loopRange iBegin iEnd).flatMap
          (fun i => correctCellStatements n i j (coarser.cell i j))) := by
    intro j hj2 acc
    have h := foldlM_collect
      (fun i => coarser.get i j >>= fun cij => pure (correctCellStatements n i j cij))
      (fun i => correctCellStatements n i j (coarser.cell i j)) (loopRange iBegin iEnd)
      (fun i hi2 => by show (coarser.get i j >>= _) = _; rw [hget i hi2 j hj2]; rfl) acc
    rw [← h]
    refine foldlM_congr_mem _ _ _ (fun s i _ => ?_) acc
    cases coarser.get i j <;> rfl
  have outer := foldlM_collect
    (fun j => List.foldlM (fun statements i => do
        let cij ← coarser.get i j
        pure (statements ++ correctCellStatements n i j cij)) [] (loopRange iBegin iEnd))
    (fun j => (loopRange iBegin iEnd).flatMap
          (fun i => correctCellStatements n i j (coarser.cell i j))) (loopRange jBegin jEnd)
    (fun j hj2 => by show List.foldlM _ [] _ = _; rw [inner j hj2 []]; rfl) []
  rw [List.nil_append] at outer
  rw [← outer]
  refine foldlM_congr_mem _ _ _ (fun s j hj2 => ?_) []
  rw [inner j hj2 s, inner j hj2 [], ok_bind]
  rfl

/-- On an index range inside the coarse grid, the function that `Correct` passes to
`ParallelRangeFor` executes the statements of the range one after the other. -/
theorem CorrectRange_eq_statements (coarser : FDMVector2) (n : Size2)
    (iBegin iEnd jBegin jEnd : Nat) (hi : iEnd ≤ coarser.size.x) (hj : jEnd ≤ coarser.size.y)
    (finer : FDMVector2) :
    CorrectRange coarser n iBegin iEnd jBegin jEnd finer
      = List.foldlM FineUpdate.run finer
          ((loopRange jBegin jEnd).flatMap (fun j => (loopRange iBegin iEnd).flatMap
            (fun i => correctCellStatements n i j (coarser.cell i j)))) := by
  unfold CorrectRange
  rw [foldlM_flatMap]
  refine foldlM_congr_mem _ _ _ (fun s j hj2 => ?_) finer
  rw [foldlM_flatMap]
  refine foldlM_congr_mem _ _ _ (fun s i hi2 => ?_) s
  unfold loopRange at hi2 hj2
  rw [List.mem_range'_1] at hi2 hj2
  have hget : coarser.get i j = .ok (coarser.cell i j) := by
    unfold Array2.get
    rw [if_pos]
    exact ⟨by omega, by omega⟩
  rw [hget, ok_bind, correctCell_eq_statements]

end FDMMGUtils2

/-- A worker that is alone and takes two steps per statement executes its statements one
after the other. -/
theorem runWorkers_alone (statements : List FineUpdate) (finer : FDMVector2) :
    runWorkers (List.replicate (2 * statements.length) 0) [⟨statements, none⟩] finer
      = List.foldlM FineUpdate.run finer statements >>= fun f => pure ([⟨[], none⟩], f) := by
  induction statements generalizing finer with
  | nil => rfl
  | cons u rest ih =>
    have hlen : 2 * (u :: rest).length = (2 * rest.length + 1) + 1 := by
      rw [List.length_cons]; omega
    rw [hlen, List.replicate_succ, List.replicate_succ, List.foldlM_cons]
    unfold FineUpdate.run
    cases hg : finer.get u.p u.q with
    | error e => simp [runWorkers, Worker.step, hg, error_bind]
    | ok old =>
      cases hp : finer.put u.p u.q (old + u.amount) with
      | error e => simp [runWorkers, Worker.step, hg, hp, ok_bind, error_bind, pure_eq_ok]
      | ok f2 =>
        have := ih f2
        simp [runWorkers, Worker.step, hg, hp, ok_bind, pure_eq_ok]
        simpa [ok_bind] using this

/-- The length of a concatenation of lists of one length. -/
theorem length_flatMap_const {ι κ : Type} (g : ι → List κ) (k : Nat)
    (h : ∀ a, (g a).length = k) (l : List ι) : (l.flatMap g).length = l.length * k := by
  induction l with
  | nil => simp
  | cons a l ih => rw [List.flatMap_cons, List.length_append, ih, h, List.length_cons]; ring

/-- One worker alone on the whole index range: `CorrectWithWorkers` is `Correct`. The
schedule gives the worker two steps (the read and the store) for each of its
`16 * nx * ny` statements. -/
theorem CorrectWithWorkers_alone (coarser finer : FDMVector2) :
    CorrectWithWorkers coarser finer [⟨0, coarser.size.x, 0, coarser.size.y⟩]
        (List.replicate (32 * (coarser.size.x * coarser.size.y)) 0)
      = FDMMGUtils2.Correct coarser finer >>= fun f => pure ([⟨[], none⟩], f) := by
  have hn : 32 * (coarser.size.x * coarser.size.y)
      = 2 * (coarser.size.y * (coarser.size.x * 16)) := by ring
  rw [hn]
  unfold CorrectWithWorkers FDMMGUtils2.Correct
  by_cases hx : finer.size.x ≠ 2 * coarser.size.x
  · rw [if_pos hx, if_pos hx]; rfl
  rw [if_neg hx, if_neg hx]
  by_cases hy : finer.size.y ≠ 2 * coarser.size.y
  · rw [if_pos hy, if_pos hy]; rfl
  rw [if_neg hy, if_neg hy]
  have hs := FDMMGUtils2.correctStatements_inside coarser coarser.size 0 coarser.size.x 0
    coarser.size.y le_rfl le_rfl
  have hr := FDMMGUtils2.CorrectRange_eq_statements coarser coarser.size 0 coarser.size.x 0
    coarser.size.y le_rfl le_rfl finer
  have hl : ((loopRange 0 coarser.size.y).flatMap (fun j =>
      (loopRange 0 coarser.size.x).flatMap (fun i =>
        FDMMGUtils2.correctCellStatements coarser.size i j (coarser.cell i j)))).length
      = coarser.size.y * (coarser.size.x * 16) := by
    rw [length_flatMap_const _ (coarser.size.x * 16)]
    · unfold loopRange; rw [List.length_range']; rfl
    · intro j
      rw [length_flatMap_const
        (fun i => FDMMGUtils2.correctCellStatements coarser.size i j (coarser.cell i j)) 16
        (fun i => rfl)]
      unfold loopRange; rw [List.length_range']; rfl
  simp only [List.mapM_cons, List.mapM_nil, hs, ok_bind, pure_eq_ok, ParallelRangeFor]
  rw [← hl, runWorkers_alone, hr]
  rfl

/-- One worker alone on the whole index range, when `Correct` completes. -/
theorem CorrectWithWorkers_alone_ok (nx ny : Nat) (coarser finer f : FDMVector2)
    (hc : coarser.size = ⟨nx, ny⟩) (h : FDMMGUtils2.Correct coarser finer = .ok f) :
    CorrectWithWorkers coarser finer [⟨0, nx, 0, ny⟩] (List.replicate (32 * (nx * ny)) 0)
      = .ok ([⟨[], none⟩], f) := by
  have h1 := CorrectWithWorkers_alone coarser finer
  rw [h, hc] at h1
  exact h1

/-- The run of `Correct` on the constant `1 x 2` coarse grid and the all-zero `2 x 4` fine
grid in which the second worker is interrupted between the read and the store of its first
statement, `finer(0, 1) += 0.25 * 0.25 * 7`: both workers finish, and the fine cell
`(0, 1)` ends as `7/4`. -/
theorem racing_run_from_zero :
    ∃ f, CorrectWithWorkers Examples.coarse12 Examples.zeroFine24 Examples.rowBlocks
        Examples.racingSchedule = .ok ([⟨[], none⟩, ⟨[], none⟩], f) ∧
      f.size = ⟨2, 4⟩ ∧ f.cell 0 1 = 7 / 4 := by
  refine ⟨_, rfl, rfl, ?_⟩
  simp [Array2.write, FDMMGUtils2.fineIndices, FDMMGUtils2.correctKernel,
    Examples.zeroFine24, Examples.coarse12]
  norm_num

/-- C2 (the code at the failing input). `Correct` adds into fine cells that neighbouring
coarse cells share, with a `+=` that is a read followed by a store. Run by one worker that
visits the coarse cells one after the other, `Correct` turns an all-zero fine grid of size
`(2nx, 2ny)` into the constant `v` of the coarse grid. Run by two workers on the `1 x 2`
coarse grid with `v = 7`, one row of coarse cells each: if each worker runs to its end
before the other starts, the fine cell `(0, 1)` ends as `7`; if the second worker is
interrupted by the first between the read and the store of its first statement, both
workers finish and the fine cell `(0, 1)` ends as `7/4`, not as `v = 7`. -/
theorem Correct_partition_of_unity_lost :
    (∀ (nx ny : Nat) (coarser finer : FDMVector2) (v : ℚ),
      finer.size = ⟨2 * nx, 2 * ny⟩ → coarser.size = ⟨nx, ny⟩ →
      (∀ i j, i < nx → j < ny → coarser.cell i j = v) →
      (∀ p q, p < 2 * nx → q < 2 * ny → finer.cell p q = 0) →
      ∃ f, CorrectWithWorkers coarser finer [⟨0, nx, 0, ny⟩]
          (List.replicate (32 * (nx * ny)) 0) = .ok ([⟨[], none⟩], f) ∧
        ∀ p q, p < 2 * nx → q < 2 * ny → f.cell p q = v) ∧
    (∃ f, CorrectWithWorkers Examples.coarse12 Examples.zeroFine24 Examples.rowBlocks
        Examples.serialSchedule = .ok ([⟨[], none⟩, ⟨[], none⟩], f) ∧ f.cell 0 1 = 7) ∧
    (∃ f, CorrectWithWorkers Examples.coarse12 Examples.zeroFine24 Examples.rowBlocks
        Examples.racingSchedule = .ok ([⟨[], none⟩, ⟨[], none⟩], f) ∧
      f.cell 0 1 = 7 / 4 ∧ f.cell 0 1 ≠ Examples.coarse12.cell 0 0 ∧
      f.cell 0 1 ≠ Examples.coarse12.cell 0 1) := by
  refine ⟨?_, ⟨_, rfl, ?_⟩, ?_⟩
  · intro nx ny coarser finer v hf hc hv hz
    obtain ⟨f, h1, _, h3⟩ :=
      Correct_serial_partition_of_unity nx ny coarser finer v hf hc hv hz
    exact ⟨f, CorrectWithWorkers_alone_ok nx ny coarser finer f hc h1, h3⟩
  · simp [Array2.write, FDMMGUtils2.fineIndices, FDMMGUtils2.correctKernel,
      Examples.zeroFine24, Examples.coarse12]
    norm_num
  · obtain ⟨f, h1, _, h3⟩ := racing_run_from_zero
    refine ⟨f, h1, h3, ?_, ?_⟩
    · rw [h3]; show (7 / 4 : ℚ) ≠ 7; norm_num
    · rw [h3]; show (7 / 4 : ℚ) ≠ 7; norm_num

/-- C10 (the code at the failing input). Run by one worker that visits the coarse cells one
after the other, `Correct(c, f)` is `f + Correct(c, 0)` cell by cell, with
`Correct(c, 0)(p, q)` the sum of `k[a] * k[b] * c(i, j)` over the coarse cells and slots
whose clamped fine indices are `(p, q)` (`Spec.correctValue`). Run by two workers on the
`1 x 2` coarse grid of values `7` and the fine grid `f(p, q) = p + 10 q`, one row of coarse
cells each, with the second worker interrupted by the first between the read and the store
of its first statement: both workers finish and the fine cell `(0, 1)` ends as
`10 + 7/4 = 47/4`, whereas `f(0, 1)` plus that sum is `10 + 7 = 17`. -/
theorem Correct_additivity_lost :
    (∀ (nx ny : Nat) (coarser finer : FDMVector2),
      finer.size = ⟨2 * nx, 2 * ny⟩ → coarser.size = ⟨nx, ny⟩ →
      ∃ f, CorrectWithWorkers coarser finer [⟨0, nx, 0, ny⟩]
          (List.replicate (32 * (nx * ny)) 0) = .ok ([⟨[], none⟩], f) ∧
        ∀ p q, p < 2 * nx → q < 2 * ny →
          f.cell p q = finer.cell p q + Spec.correctValue coarser.cell nx ny p q) ∧
    (∃ f, CorrectWithWorkers Examples.coarse12 Examples.rampFine24 Examples.rowBlocks
        Examples.racingSchedule = .ok ([⟨[], none⟩, ⟨[], none⟩], f) ∧
      f.cell 0 1 = 47 / 4 ∧
      Examples.rampFine24.cell 0 1 + Spec.correctValue Examples.coarse12.cell 1 2 0 1 = 17 ∧
      f.cell 0 1
        ≠ Examples.rampFine24.cell 0 1 + Spec.correctValue Examples.coarse12.cell 1 2 0 1) := by
  have h17 : Examples.rampFine24.cell 0 1 + Spec.correctValue Examples.coarse12.cell 1 2 0 1
      = 17 := by
    have e := FDMMGUtils2.correctValue_eq_spec Examples.coarse12 ⟨1, 2⟩ 0 1
    rw [← e,
      FDMMGUtils2.correctValue_const Examples.coarse12 ⟨1, 2⟩ 7 0 1 (fun _ _ _ _ => rfl)
        (by decide) (by decide)]
    show ((0 : ℕ) : ℚ) + 10 * ((1 : ℕ) : ℚ) + 7 = 17
    norm_num
  refine ⟨?_, ?_⟩
  · intro nx ny coarser finer hf hc
    obtain ⟨f, z, h1, _, _, _, h5, _⟩ := Correct_serial_additive nx ny coarser finer hf hc
    refine ⟨f, CorrectWithWorkers_alone_ok nx ny coarser finer f hc h1, ?_⟩
    intro p q hp hq
    rw [(h5 p q hp hq).1, (h5 p q hp hq).2]
  · have hrun : ∃ f, CorrectWithWorkers Examples.coarse12 Examples.rampFine24
        Examples.rowBlocks Examples.racingSchedule = .ok ([⟨[], none⟩, ⟨[], none⟩], f) ∧
        f.cell 0 1 = 47 / 4 := by
      refine ⟨_, rfl, ?_⟩
      simp [Array2.write, FDMMGUtils2.fineIndices, FDMMGUtils2.correctKernel,
        Examples.rampFine24, Examples.coarse12]
      norm_num
    obtain ⟨f, h1, h3⟩ := hrun
    refine ⟨f, h1, h3, h17, ?_⟩
    rw [h3, h17]
    norm_num

/-- The sum of the products of the cells of `spikeFine24` with the cells of a `2 x 4` grid
is the cell `(0, 1)` of that grid. -/
theorem sum_spikeFine24 (z : FDMVector2) :
    ∑ q in Finset.range (2 * 2), ∑ p in Finset.range (2 * 1),
        Examples.spikeFine24.cell p q * z.cell p q = z.cell 0 1 := by
  have h : ∀ p q, Examples.spikeFine24.cell p q * z.cell p q
      = if p = 0 ∧ q = 1 then z.cell p q else 0 := by
    intro p q
    show (if p = 0 ∧ q = 1 then (1 : ℚ) else 0) * z.cell p q = _
    split_ifs <;> simp
  simp only [h]
  exact sum_indicator_pair _ _ 0 1 (by decide) (by decide) (fun p q => z.cell p q)

/-- C21 (the code at the failing input). Run by one worker that visits the coarse cells
one after the other, `Correct(c, 0)` and `Restrict(f)` are adjoint up to the factor 4: the
sum over the fine cells of `f(p, q) * Correct(c, 0)(p, q)` is 4 times the sum over the
coarse cells of `Restrict(f)(i, j) * c(i, j)`. Run by two workers on the `1 x 2` coarse
grid `c` of values `7`, one row of coarse cells each, with the second worker interrupted by
the first between the read and the store of its first statement, and with `f` the `2 x 4`
fine grid that is `1` in the cell `(0, 1)` and `0` elsewhere: both workers finish, the sum
of `f * Correct(c, 0)` is `7/4`, and 4 times the sum of `Restrict(f) * c` is `7`. -/
theorem Restrict_Correct_adjoint_lost :
    (∀ (nx ny : Nat) (finer coarser target : FDMVector2),
      finer.size = ⟨2 * nx, 2 * ny⟩ → coarser.size = ⟨nx, ny⟩ → target.size = ⟨nx, ny⟩ →
      ∃ z r, CorrectWithWorkers coarser (finer.Set 0) [⟨0, nx, 0, ny⟩]
          (List.replicate (32 * (nx * ny)) 0) = .ok ([⟨[], none⟩], z) ∧
        FDMMGUtils2.Restrict finer target = .ok r ∧
        ∑ q in Finset.range (2 * ny), ∑ p in Finset.range (2 * nx),
            finer.cell p q * z.cell p q
          = 4 * ∑ j in Finset.range ny, ∑ i in Finset.range nx,
              r.cell i j * coarser.cell i j) ∧
    (∃ z r, CorrectWithWorkers Examples.coarse12 (Examples.spikeFine24.Set 0)
          Examples.rowBlocks Examples.racingSchedule = .ok ([⟨[], none⟩, ⟨[], none⟩], z) ∧
        FDMMGUtils2.Restrict Examples.spikeFine24 Examples.coarse12 = .ok r ∧
        ∑ q in Finset.range (2 * 2), ∑ p in Finset.range (2 * 1),
            Examples.spikeFine24.cell p q * z.cell p q = 7 / 4 ∧
        4 * ∑ j in Finset.range 2, ∑ i in Finset.range 1,
            r.cell i j * Examples.coarse12.cell i j = 7 ∧
        ∑ q in Finset.range (2 * 2), ∑ p in Finset.range (2 * 1),
            Examples.spikeFine24.cell p q * z.cell p q
          ≠ 4 * ∑ j in Finset.range 2, ∑ i in Finset.range 1,
              r.cell i j * Examples.coarse12.cell i j) := by
  refine ⟨?_, ?_⟩
  · intro nx ny finer coarser target hf hc ht
    obtain ⟨z, r, h1, h2, h3⟩ :=
      Restrict_Correct_serial_adjoint nx ny finer coarser target hf hc ht
    exact ⟨z, r, CorrectWithWorkers_alone_ok nx ny coarser (finer.Set 0) z hc h1, h2, h3⟩
  · obtain ⟨z, h1, _, h3⟩ := racing_run_from_zero
    obtain ⟨z2, r, g1, g2, g3⟩ := Restrict_Correct_serial_adjoint 1 2 Examples.spikeFine24
      Examples.coarse12 Examples.coarse12 rfl rfl rfl
    obtain ⟨f, k1, _, k3⟩ := Correct_serial_partition_of_unity 1 2 Examples.coarse12
      (Examples.spikeFine24.Set 0) 7 rfl rfl (fun _ _ _ _ => rfl) (fun _ _ _ _ => rfl)
    have hz2 : z2.cell 0 1 = 7 := by
      have e : z2 = f := Except.ok.inj (g1.symm.trans k1)
      rw [e]
      exact k3 0 1 (by decide) (by decide)
    have hL : ∑ q in Finset.range (2 * 2), ∑ p in Finset.range (2 * 1),
        Examples.spikeFine24.cell p q * z.cell p q = 7 / 4 := by
      rw [sum_spikeFine24, h3]
    have hR : 4 * ∑ j in Finset.range 2, ∑ i in Finset.range 1,
        r.cell i j * Examples.coarse12.cell i j = 7 := by
      rw [← g3, sum_spikeFine24, hz2]
    refine ⟨z, r, h1, g2, hL, hR, ?_⟩
    rw [hL, hR]
    norm_num

/-! ## The incomplete-Cholesky preconditioner as an operator -/

theorem sum_shift (n : ℕ) (F : ℕ → ℚ) :
    ∑ i in Finset.range n, (if i = 0 then 0 else F (i - 1))
      = ∑ i in Finset.range n, (if i + 1 < n then F i else 0) := by
  cases n with
  | zero => simp
  | succ n =>
    rw [Finset.sum_range_succ', Finset.sum_range_succ]
    simp only [if_true, add_zero, lt_self_iff_false, if_false, Nat.add_sub_cancel]
    refine Finset.sum_congr rfl fun i hi => ?_
    rw [if_neg (Nat.succ_ne_zero i), if_pos (Nat.succ_lt_succ (Finset.mem_range.1 hi))]

namespace FDMICCGSolver2.Preconditioner

/-- The pairing of a backward substitution with a right-hand side equals the pairing of
the two intermediate fields. -/
theorem substitution_pairing (A : Nat → Nat → FDMMatrixRow2) (d b y' y x : Nat → Nat → ℚ)
    (nx ny : Nat)
    (hf : ∀ i j, i < nx → j < ny → y' i j = Spec.forwardValue A d b y' i j)
    (hb : ∀ i j, i < nx → j < ny → x i j = Spec.backwardValue A d y x nx ny i j) :
    ∑ j in Finset.range ny, ∑ i in Finset.range nx, x i j * b i j
      = ∑ j in Finset.range ny, ∑ i in Finset.range nx, y i j * y' i j := by
  have cell : ∀ j ∈ Finset.range ny, ∀ i ∈ Finset.range nx,
      x i j * b i j = y i j * y' i j
        + ((if i = 0 then 0 else (A (i - 1) j).right * y' (i - 1) j * x (i - 1 + 1) j)
          - (if i + 1 < nx then (A i j).right * y' i j * x (i + 1) j else 0))
        + ((if j = 0 then 0 else (A i (j - 1)).up * y' i (j - 1) * x i (j - 1 + 1))
          - (if j + 1 < ny then (A i j).up * y' i j * x i (j + 1) else 0)) := by
    intro j hj i hi
    have e1 := hf i j (Finset.mem_range.1 hi) (Finset.mem_range.1 hj)
    have e2 := hb i j (Finset.mem_range.1 hi) (Finset.mem_range.1 hj)
    unfold Spec.forwardValue at e1
    unfold Spec.backwardValue at e2
    have a1 : (if i = 0 then (0 : ℚ) else (A (i - 1) j).right * y' (i - 1) j * x (i - 1 + 1) j)
        = x i j * (if i = 0 then 0 else (A (i - 1) j).right * y' (i - 1) j) := by
      by_cases h : i = 0
      · simp only [h, if_true, mul_zero]
      · rw [if_neg h, if_neg h, Nat.sub_add_cancel (Nat.pos_of_ne_zero h)]
        ring
    have a2 : (if j = 0 then (0 : ℚ) else (A i (j - 1)).up * y' i (j - 1) * x i (j - 1 + 1))
        = x i j * (if j = 0 then 0 else (A i (j - 1)).up * y' i (j - 1)) := by
      by_cases h : j = 0
      · simp only [h, if_true, mul_zero]
      · rw [if_neg h, if_neg h, Nat.sub_add_cancel (Nat.pos_of_ne_zero h)]
        ring
    have a3 : (if i + 1 < nx then (A i j).right * y' i j * x (i + 1) j else 0)
        = y' i j * (if i + 1 < nx then (A i j).right * x (i + 1) j else 0) := by
      by_cases h : i + 1 < nx
      · rw [if_pos h, if_pos h]
        ring
      · rw [if_neg h, if_neg h, mul_zero]
    have a4 : (if j + 1 < ny then (A i j).up * y' i j * x i (j + 1) else 0)
        = y' i j * (if j + 1 < ny then (A i j).up * x i (j + 1) else 0) := by
      by_cases h : j + 1 < ny
      · rw [if_pos h, if_pos h]
        ring
      · rw [if_neg h, if_neg h, mul_zero]
    rw [a1, a2, a3, a4]
    generalize (if i = 0 then (0 : ℚ) else (A (i - 1) j).right * y' (i - 1) j) = L1 at e1 ⊢
    generalize (if j = 0 then (0 : ℚ) else (A i (j - 1)).up * y' i (j - 1)) = L2 at e1 ⊢
    generalize (if i + 1 < nx then (A i j).right * x (i + 1) j else 0) = U1 at e2 ⊢
    generalize (if j + 1 < ny then (A i j).up * x i (j + 1) else 0) = U2 at e2 ⊢
    linear_combination (b i j - L1 - L2) * e2 - (y i j - U1 - U2) * e1
  rw [Finset.sum_congr rfl fun j hj => Finset.sum_congr rfl (cell j hj)]
  simp only [Finset.sum_add_distrib, Finset.sum_sub_distrib]
  have s1 : ∀ j, ∑ i in Finset.range nx,
        (if i = 0 then 0 else (A (i - 1) j).right * y' (i - 1) j * x (i - 1 + 1) j)
      = ∑ i in Finset.range nx,
        (if i + 1 < nx then (A i j).right * y' i j * x (i + 1) j else 0) :=
    fun j => sum_shift nx (fun k => (A k j).right * y' k j * x (k + 1) j)
  have s2 : ∀ i, ∑ j in Finset.range ny,
        (if j = 0 then 0 else (A i (j - 1)).up * y' i (j - 1) * x i (j - 1 + 1))
      = ∑ j in Finset.range ny,
        (if j + 1 < ny then (A i j).up * y' i j * x i (j + 1) else 0) :=
    fun i => sum_shift ny (fun k => (A i k).up * y' i k * x i (k + 1))
  have t1 : ∑ j in Finset.range ny, ∑ i in Finset.range nx,
        (if i = 0 then 0 else (A (i - 1) j).right * y' (i - 1) j * x (i - 1 + 1) j)
      = ∑ j in Finset.range ny, ∑ i in Finset.range nx,
        (if i + 1 < nx then (A i j).right * y' i j * x (i + 1) j else 0) :=
    Finset.sum_congr rfl fun j _ => s1 j
  have t2 : ∑ j in Finset.range ny, ∑ i in Finset.range nx,
        (if j = 0 then 0 else (A i (j - 1)).up * y' i (j - 1) * x i (j - 1 + 1))
      = ∑ j in Finset.range ny, ∑ i in Finset.range nx,
        (if j + 1 < ny then (A i j).up * y' i j * x i (j + 1) else 0) := by
    rw [Finset.sum_comm, Finset.sum_congr rfl fun i _ => s2 i, Finset.sum_comm]
  rw [t1, t2]
  ring

theorem forwardValue_linear (A : Nat → Nat → FDMMatrixRow2) (d b1 b2 y1 y2 : Nat → Nat → ℚ)
    (α β : ℚ) (i j : Nat) :
    Spec.forwardValue A d (fun i j => α * b1 i j + β * b2 i j)
        (fun i j => α * y1 i j + β * y2 i j) i j
      = α * Spec.forwardValue A d b1 y1 i j + β * Spec.forwardValue A d b2 y2 i j := by
  unfold Spec.forwardValue
  by_cases h1 : i = 0 <;> by_cases h2 : j = 0 <;> simp only [h1, h2, if_true, if_false] <;>
    ring

theorem backwardValue_linear (A : Nat → Nat → FDMMatrixRow2) (d y1 y2 x1 x2 : Nat → Nat → ℚ)
    (sx sy : Nat) (α β : ℚ) (i j : Nat) :
    Spec.backwardValue A d (fun i j => α * y1 i j + β * y2 i j)
        (fun i j => α * x1 i j + β * x2 i j) sx sy i j
      = α * Spec.backwardValue A d y1 x1 sx sy i j
        + β * Spec.backwardValue A d y2 x2 sx sy i j := by
  unfold Spec.backwardValue
  by_cases h1 : i + 1 < sx <;> by_cases h2 : j + 1 < sy <;>
    simp only [h1, h2, if_true, if_false] <;> ring

end FDMICCGSolver2.Preconditioner

/-- C22. The ICCG preconditioner is a symmetric linear operator: after `Build(matrix)`, for
fields `b1`, `b2` of the size of the matrix and numbers `α`, `β`, the calls
`Solve(b1)`, `Solve(b2)` and `Solve(α b1 + β b2)` (made one after the other on the same
preconditioner) complete; the third result is `α Solve(b1) + β Solve(b2)` in every cell;
and the sum over the cells of `Solve(b1)(i, j) * b2(i, j)` equals the sum of
`b1(i, j) * Solve(b2)(i, j)`. No condition is put on the matrix, so entries of `d` may be
the degenerate `0`. -/
theorem ICCG_preconditioner_symmetric_linear (self : FDMICCGSolver2.Preconditioner)
    (matrix : FDMMatrix2) (b1 b2 x1 x2 x3 : FDMVector2) (α β : ℚ)
    (hb1 : b1.size = matrix.size) (hb2 : b2.size = matrix.size)
    (hx1 : x1.size = matrix.size) (hx2 : x2.size = matrix.size)
    (hx3 : x3.size = matrix.size) :
    ∃ P P1 t1 P2 t2 P3 t3,
      FDMICCGSolver2.Preconditioner.Build self matrix = .ok P ∧
      FDMICCGSolver2.Preconditioner.Solve P b1 x1 = .ok (P1, t1) ∧
      FDMICCGSolver2.Preconditioner.Solve P1 b2 x2 = .ok (P2, t2) ∧
      FDMICCGSolver2.Preconditioner.Solve P2
        ⟨matrix.size, fun i j => α * b1.cell i j + β * b2.cell i j⟩ x3 = .ok (P3, t3) ∧
      (∀ i j, i < matrix.size.x → j < matrix.size.y →
        t3.cell i j = α * t1.cell i j + β * t2.cell i j) ∧
      ∑ j in Finset.range matrix.size.y, ∑ i in Finset.range matrix.size.x,
          t1.cell i j * b2.cell i j
        = ∑ j in Finset.range matrix.size.y, ∑ i in Finset.range matrix.size.x,
          b1.cell i j * t2.cell i j := by
  obtain ⟨P, hB, hPA, hPd, hPy, _⟩ := FDMICCGSolver2.Preconditioner.Build_spec self matrix
  obtain ⟨P1, t1, hS1, hA1, hd1, hy1, _, hf1, hk1⟩ :=
    FDMICCGSolver2.Preconditioner.Solve_spec P b1 x1 (by rw [hPA, hb1]) (by rw [hPd, hb1])
      (by rw [hPy, hb1]) (by rw [hx1, hb1])
  obtain ⟨P2, t2, hS2, hA2, hd2, hy2, _, hf2, hk2⟩ :=
    FDMICCGSolver2.Preconditioner.Solve_spec P1 b2 x2 (by rw [hA1, hPA, hb2])
      (by rw [hd1, hPd, hb2]) (by rw [hy1, hb1, hb2]) (by rw [hx2, hb2])
  obtain ⟨P3, t3, hS3, _, _, _, _, hf3, hk3⟩ :=
    FDMICCGSolver2.Preconditioner.Solve_spec P2
      ⟨matrix.size, fun i j => α * b1.cell i j + β * b2.cell i j⟩ x3
      (by rw [hA2, hA1, hPA]) (by rw [hd2, hd1, hPd]) (by rw [hy2, hb2]) (by rw [hx3])
  refine ⟨P, P1, t1, P2, t2, P3, t3, hB, hS1, hS2, hS3, ?_, ?_⟩
  all_goals
    rw [hb1] at hf1 hk1
    rw [hA1, hd1, hb2] at hf2 hk2
    rw [hA2, hd2, hA1, hd1] at hf3 hk3
    simp only [] at hf3 hk3
  · have hy3 := FDMICCGSolver2.Preconditioner.forward_unique P.A.cell matrix.size.x
      matrix.size.y P.d.cell P.d.cell (fun i j => α * b1.cell i j + β * b2.cell i j)
      P3.y.cell (fun i j => α * P1.y.cell i j + β * P2.y.cell i j)
      (fun _ _ _ _ => rfl) hf3
      (fun i j hi hj => by
        rw [FDMICCGSolver2.Preconditioner.forwardValue_linear, ← hf1 i j hi hj,
          ← hf2 i j hi hj])
    have ht3 := FDMICCGSolver2.Preconditioner.backward_unique P.A.cell matrix.size.x
      matrix.size.y P.d.cell P.d.cell P3.y.cell
      (fun i j => α * P1.y.cell i j + β * P2.y.cell i j)
      t3.cell (fun i j => α * t1.cell i j + β * t2.cell i j)
      (fun _ _ _ _ => rfl) (fun i j hi hj => hy3 j hj i hi) hk3
      (fun i j hi hj => by
        rw [FDMICCGSolver2.Preconditioner.backwardValue_linear, ← hk1 i j hi hj,
          ← hk2 i j hi hj])
    exact fun i j hi hj => ht3 j hj i hi
  · rw [FDMICCGSolver2.Preconditioner.substitution_pairing P.A.cell P.d.cell b2.cell
      P2.y.cell P1.y.cell t1.cell matrix.size.x matrix.size.y hf2 hk1]
    have e : ∑ j in Finset.range matrix.size.y, ∑ i in Finset.range matrix.size.x,
          b1.cell i j * t2.cell i j
        = ∑ j in Finset.range matrix.size.y, ∑ i in Finset.range matrix.size.x,
          t2.cell i j * b1.cell i j :=
      Finset.sum_congr rfl fun j _ => Finset.sum_congr rfl fun i _ => mul_comm _ _
    rw [e, FDMICCGSolver2.Preconditioner.substitution_pairing P.A.cell P.d.cell b1.cell
      P1.y.cell P2.y.cell t2.cell matrix.size.x matrix.size.y hf1 hk2]
    exact Finset.sum_congr rfl fun j _ => Finset.sum_congr rfl fun i _ => mul_comm _ _

theorem ICCG_preconditioner_symmetric_linear_witness :
    (Examples.one21.size = Examples.degenerate21.size ∧
      Examples.other21.size = Examples.degenerate21.size ∧
      Examples.zero21.size = Examples.degenerate21.size) ∧
    ∃ P P1 t1 P2 t2 P3 t3,
      FDMICCGSolver2.Preconditioner.Build Examples.freshPreconditioner Examples.degenerate21
        = .ok P ∧
      FDMICCGSolver2.Preconditioner.Solve P Examples.one21 Examples.zero21 = .ok (P1, t1) ∧
      FDMICCGSolver2.Preconditioner.Solve P1 Examples.other21 Examples.zero21
        = .ok (P2, t2) ∧
      FDMICCGSolver2.Preconditioner.Solve P2
        ⟨Examples.degenerate21.size,
          fun i j => 2 * Examples.one21.cell i j + 3 * Examples.other21.cell i j⟩
        Examples.zero21 = .ok (P3, t3) ∧
      (∀ i j, i < Examples.degenerate21.size.x → j < Examples.degenerate21.size.y →
        t3.cell i j = 2 * t1.cell i j + 3 * t2.cell i j) ∧
      ∑ j in Finset.range Examples.degenerate21.size.y,
          ∑ i in Finset.range Examples.degenerate21.size.x,
            t1.cell i j * Examples.other21.cell i j
        = ∑ j in Finset.range Examples.degenerate21.size.y,
          ∑ i in Finset.range Examples.degenerate21.size.x,
            Examples.one21.cell i j * t2.cell i j :=
  ⟨⟨rfl, rfl, rfl⟩,
    ICCG_preconditioner_symmetric_linear Examples.freshPreconditioner Examples.degenerate21
      Examples.one21 Examples.other21 Examples.zero21 Examples.zero21 Examples.zero21 2 3
      rfl rfl rfl rfl rfl⟩

/-! ## Claims on the cylinder -/

namespace Cylinder3

/-- When the ray hits the infinite cylinder (`A >= epsilon` and `B*B - A*C >= 0`) and the
height is not negative, the height test of `IntersectsLocal` holds whatever the hit point
is, and the function returns `true`. -/
theorem IntersectsLocal_of_infinite_hit (sqrt : ℚ → ℚ) (BoundingBox : Cylinder3 → BoundingBox3D)
    (ClosestIntersection : Plane3 → Ray3D → SurfaceRayIntersection3)
    (self : Cylinder3) (ray : Ray3D) (hh : 0 ≤ self.height)
    (hA : ¬ ray.direction.horizontal.LengthSquared < doubleEpsilon)
    (hD : ¬ ray.direction.horizontal.Dot (ray.origin.sub self.center).horizontal
          * ray.direction.horizontal.Dot (ray.origin.sub self.center).horizontal
        - ray.direction.horizontal.LengthSquared
          * ((ray.origin.sub self.center).horizontal.LengthSquared - Square self.radius)
        < 0) :
    IntersectsLocal sqrt BoundingBox ClosestIntersection self ray = true := by
  unfold IntersectsLocal
  dsimp only
  have htest : ∀ y : ℚ, y ≥ self.center.y - 1 / 2 * self.height ∨
      y ≤ self.center.y + 1 / 2 * self.height := by
    intro y
    by_cases h : y ≥ self.center.y - 1 / 2 * self.height
    · exact Or.inl h
    · exact Or.inr (by linarith [not_le.1 h])
  rw [if_neg (not_or.2 ⟨hA, hD⟩), if_pos (htest _)]

end Cylinder3

/-- C27 (the code at the failing input). For the cylinder with center `(0, 0, 0)`, radius
`1` and height `2` and the horizontal ray from `(-2, 5, 0)` in the direction `(1, 0, 0)`:
the horizontal direction is not zero (`A = 1`), the ray hits the infinite cylinder
(`B*B - A*C = 1`), every point of the ray has `y = 5`, outside `[-1, 1]`, yet
`IntersectsLocal` returns `true`, whatever `std::sqrt`, the bounding box and the plane
intersections (hence also when neither cap plane is hit) are. -/
theorem IntersectsLocal_ignores_height :
    Examples.highRay.direction.horizontal.LengthSquared = 1 ∧
    (∀ t, (Examples.highRay.PointAt t).y = 5) ∧
    ¬ (Examples.cylinder.center.y - 1 / 2 * Examples.cylinder.height ≤ 5 ∧
      (5 : ℚ) ≤ Examples.cylinder.center.y + 1 / 2 * Examples.cylinder.height) ∧
    ∀ (sqrt : ℚ → ℚ) (BoundingBox : Cylinder3 → BoundingBox3D)
      (ClosestIntersection : Plane3 → Ray3D → SurfaceRayIntersection3),
      Cylinder3.IntersectsLocal sqrt BoundingBox ClosestIntersection Examples.cylinder
        Examples.highRay = true := by
  refine ⟨?_, ?_, ?_, ?_⟩
  · norm_num [Vector3D.LengthSquared, Vector3D.horizontal, Examples.highRay]
  · intro t
    norm_num [Ray3D.PointAt, Examples.highRay]
  · norm_num [Examples.cylinder]
  · intro sqrt BoundingBox ClosestIntersection
    refine Cylinder3.IntersectsLocal_of_infinite_hit sqrt BoundingBox ClosestIntersection
      Examples.cylinder Examples.highRay ?_ ?_ ?_
    · norm_num [Examples.cylinder]
    · norm_num [Vector3D.LengthSquared, Vector3D.horizontal, Examples.highRay, doubleEpsilon]
    · norm_num [Vector3D.LengthSquared, Vector3D.Dot, Vector3D.sub, Vector3D.horizontal, Square,
        Examples.highRay, Examples.cylinder]

/-! ## Claims on the volume particle emitter -/

theorem ForEachPoint_inv {σ : Type} (I : σ → Prop) (callback : Vector2D → σ → σ × Bool)
    (hstep : ∀ p s, I s → I (callback p s).1) (points : List Vector2D) (s : σ) (hs : I s) :
    I (ForEachPoint callback points s) := by
  induction points generalizing s with
  | nil => exact hs
  | cons p rest ih =>
    unfold ForEachPoint
    split_ifs
    · exact ih _ (hstep p s hs)
    · exact hstep p s hs

theorem Array1_Set_Resize (a : List Vector2D) (n : Nat) (v : Vector2D) :
    Array1.Set (Array1.Resize a n) v = List.replicate n v := by
  unfold Array1.Set Array1.Resize
  rw [List.eq_replicate_iff]
  constructor
  · simp only [List.length_map, List.length_append, List.length_take, List.length_replicate]
    omega
  · intro b hb
    rw [List.mem_map] at hb
    obtain ⟨_, _, h⟩ := hb
    exact h.symm

namespace VolumeParticleEmitter2

theorem emitOverlapping_inv (MakeRotationMatrix : ℚ → Matrix2x2D) (surface : Vector2D → ℚ)
    (maxJitterDist : ℚ) (e0 : VolumeParticleEmitter2) (n0 : Nat) (point : Vector2D)
    (s : VolumeParticleEmitter2 × List Vector2D)
    (hs : s.1.m_maxNumberOfParticles = e0.m_maxNumberOfParticles ∧
      s.1.m_initialVel = e0.m_initialVel ∧
      s.1.m_numberOfEmittedParticles ≤ e0.m_maxNumberOfParticles ∧
      s.1.m_numberOfEmittedParticles + n0 = e0.m_numberOfEmittedParticles + s.2.length) :
    (emitOverlapping MakeRotationMatrix surface maxJitterDist point s).1.1.m_maxNumberOfParticles
        = e0.m_maxNumberOfParticles ∧
      (emitOverlapping MakeRotationMatrix surface maxJitterDist point s).1.1.m_initialVel
        = e0.m_initialVel ∧
      (emitOverlapping MakeRotationMatrix surface maxJitterDist point
          s).1.1.m_numberOfEmittedParticles ≤ e0.m_maxNumberOfParticles ∧
      (emitOverlapping MakeRotationMatrix surface maxJitterDist point
          s).1.1.m_numberOfEmittedParticles + n0
        = e0.m_numberOfEmittedParticles
          + (emitOverlapping MakeRotationMatrix surface maxJitterDist point s).1.2.length := by
  obtain ⟨h1, h2, h3, h4⟩ := hs
  unfold emitOverlapping candidateFor Random
  dsimp only
  split_ifs with c1 c2
  · refine ⟨h1, h2, ?_, ?_⟩
    · dsimp only
      rw [h1] at c2
      omega
    · dsimp only
      rw [List.length_append, List.length_singleton]
      omega
  · exact ⟨h1, h2, h3, h4⟩
  · exact ⟨h1, h2, h3, h4⟩

theorem emitSeparated_inv (MakeRotationMatrix : ℚ → Matrix2x2D) (surface : Vector2D → ℚ)
    (maxJitterDist : ℚ) (e0 : VolumeParticleEmitter2) (n0 : Nat) (point : Vector2D)
    (s : VolumeParticleEmitter2 × List Vector2D × PointHashGridSearcher2)
    (hs : s.1.m_maxNumberOfParticles = e0.m_maxNumberOfParticles ∧
      s.1.m_initialVel = e0.m_initialVel ∧
      s.1.m_numberOfEmittedParticles ≤ e0.m_maxNumberOfParticles ∧
      s.1.m_numberOfEmittedParticles + n0 = e0.m_numberOfEmittedParticles + s.2.1.length) :
    (emitSeparated MakeRotationMatrix surface maxJitterDist point s).1.1.m_maxNumberOfParticles
        = e0.m_maxNumberOfParticles ∧
      (emitSeparated MakeRotationMatrix surface maxJitterDist point s).1.1.m_initialVel
        = e0.m_initialVel ∧
      (emitSeparated MakeRotationMatrix surface maxJitterDist point
          s).1.1.m_numberOfEmittedParticles ≤ e0.m_maxNumberOfParticles ∧
      (emitSeparated MakeRotationMatrix surface maxJitterDist point
          s).1.1.m_numberOfEmittedParticles + n0
        = e0.m_numberOfEmittedParticles
          + (emitSeparated MakeRotationMatrix surface maxJitterDist point s).1.2.1.length := by
  obtain ⟨h1, h2, h3, h4⟩ := hs
  unfold emitSeparated candidateFor Random
  dsimp only
  split_ifs with c1 c2
  · refine ⟨h1, h2, ?_, ?_⟩
    · dsimp only
      rw [h1] at c2
      omega
    · dsimp only
      rw [List.length_append, List.length_singleton]
      omega
  · exact ⟨h1, h2, h3, h4⟩
  · exact ⟨h1, h2, h3, h4⟩

/-- One call of `Emit` on an emitter whose count is within the cap. -/
theorem Emit_step (MakeRotationMatrix : ℚ → Matrix2x2D) (self : VolumeParticleEmitter2)
    (particlePositions newPositions newVelocities : List Vector2D)
    (hc : self.m_numberOfEmittedParticles ≤ self.m_maxNumberOfParticles) :
    (Emit MakeRotationMatrix self particlePositions newPositions
        newVelocities).1.m_maxNumberOfParticles = self.m_maxNumberOfParticles ∧
    (Emit MakeRotationMatrix self particlePositions newPositions newVelocities).1.m_initialVel
      = self.m_initialVel ∧
    (Emit MakeRotationMatrix self particlePositions newPositions
        newVelocities).1.m_numberOfEmittedParticles ≤ self.m_maxNumberOfParticles ∧
    (Emit MakeRotationMatrix self particlePositions newPositions
        newVelocities).1.m_numberOfEmittedParticles + newPositions.length
      = self.m_numberOfEmittedParticles
        + (Emit MakeRotationMatrix self particlePositions newPositions
          newVelocities).2.1.length ∧
    ((Emit MakeRotationMatrix self particlePositions newPositions newVelocities).2.2
        = List.replicate
          (Emit MakeRotationMatrix self particlePositions newPositions newVelocities).2.1.length
          self.m_initialVel ∨
      (Emit MakeRotationMatrix self particlePositions newPositions newVelocities).2
        = (newPositions, newVelocities)) := by
  unfold Emit
  cases hsurf : self.m_implicitSurface with
  | none => exact ⟨rfl, rfl, hc, rfl, Or.inr rfl⟩
  | some surface =>
    dsimp only
    rw [Array1_Set_Resize]
    by_cases hbranch : self.m_allowOverlapping = true ∨ self.m_isOneShot = true
    · rw [if_pos hbranch]
      have h := ForEachPoint_inv
        (fun s : VolumeParticleEmitter2 × List Vector2D =>
          s.1.m_maxNumberOfParticles = self.m_maxNumberOfParticles ∧
          s.1.m_initialVel = self.m_initialVel ∧
          s.1.m_numberOfEmittedParticles ≤ self.m_maxNumberOfParticles ∧
          s.1.m_numberOfEmittedParticles + newPositions.length
            = self.m_numberOfEmittedParticles + s.2.length)
        (emitOverlapping MakeRotationMatrix surface (1 / 2 * self.GetJitter * self.m_spacing))
        (fun p s hs => emitOverlapping_inv MakeRotationMatrix surface _ self
          newPositions.length p s hs)
        (self.m_pointsGen self.m_bounds self.m_spacing) (self, newPositions)
        ⟨rfl, rfl, hc, rfl⟩
      obtain ⟨h1, h2, h3, h4⟩ := h
      exact ⟨h1, h2, h3, h4, Or.inl (by rw [h2])⟩
    · rw [if_neg hbranch]
      have h := ForEachPoint_inv
        (fun s : VolumeParticleEmitter2 × List Vector2D × PointHashGridSearcher2 =>
          s.1.m_maxNumberOfParticles = self.m_maxNumberOfParticles ∧
          s.1.m_initialVel = self.m_initialVel ∧
          s.1.m_numberOfEmittedParticles ≤ self.m_maxNumberOfParticles ∧
          s.1.m_numberOfEmittedParticles + newPositions.length
            = self.m_numberOfEmittedParticles + s.2.1.length)
        (emitSeparated MakeRotationMatrix surface (1 / 2 * self.GetJitter * self.m_spacing))
        (fun p s hs => emitSeparated_inv MakeRotationMatrix surface _ self
          newPositions.length p s hs)
        (self.m_pointsGen self.m_bounds self.m_spacing)
        (self, newPositions,
          if self.m_allowOverlapping = false then
            PointHashGridSearcher2.Build ⟨[]⟩ particlePositions
          else ⟨[]⟩)
        ⟨rfl, rfl, hc, rfl⟩
      obtain ⟨h1, h2, h3, h4⟩ := h
      exact ⟨h1, h2, h3, h4, Or.inl (by rw [h2])⟩

end VolumeParticleEmitter2

/-- A sequence of `Emit` calls from an emitter whose count is within the cap. -/
theorem EmitCalls_spec (MakeRotationMatrix : ℚ → Matrix2x2D) (calls : List (List Vector2D)) :
    ∀ self : VolumeParticleEmitter2,
      self.m_numberOfEmittedParticles ≤ self.m_maxNumberOfParticles →
      (EmitCalls MakeRotationMatrix self calls).1.m_numberOfEmittedParticles
        ≤ self.m_maxNumberOfParticles ∧
      (EmitCalls MakeRotationMatrix self calls).1.m_numberOfEmittedParticles
        = self.m_numberOfEmittedParticles
          + ((EmitCalls MakeRotationMatrix self calls).2.map
              (fun r => r.newPositions.length)).sum ∧
      (EmitCalls MakeRotationMatrix self calls).2.length = calls.length ∧
      ∀ r ∈ (EmitCalls MakeRotationMatrix self calls).2,
        r.emittedBefore + r.newPositions.length ≤ self.m_maxNumberOfParticles ∧
        r.newVelocities = List.replicate r.newPositions.length self.m_initialVel := by
  induction calls with
  | nil =>
    intro self hc
    exact ⟨hc, by simp [EmitCalls], rfl, by simp [EmitCalls]⟩
  | cons ps rest ih =>
    intro self hc
    obtain ⟨e1, e2, e3, e4, e5⟩ :=
      VolumeParticleEmitter2.Emit_step MakeRotationMatrix self ps [] [] hc
    obtain ⟨i1, i2, i3, i4⟩ := ih
      (VolumeParticleEmitter2.Emit MakeRotationMatrix self ps [] []).1 (by rw [e1]; exact e3)
    rw [e1] at i1 i4
    rw [e2] at i4
    simp only [List.length_nil, add_zero] at e4
    unfold EmitCalls
    refine ⟨i1, ?_, ?_, ?_⟩
    · simp only [List.map_cons, List.sum_cons]
      rw [i2, e4, add_assoc]
    · dsimp only
      rw [List.length_cons, List.length_cons, i3]
    · intro r hr
      dsimp only at hr
      rw [List.mem_cons] at hr
      rcases hr with hr | hr
      · subst hr
        dsimp only
        refine ⟨by rw [← e4]; exact e3, ?_⟩
        rcases e5 with e5 | e5
        · exact e5
        · rw [e5]
          rfl
      · exact i4 r hr

/-- C28. The emitter never exceeds its particle cap: for every point generator (hence
every sequence of candidate lattice points) and every sequence of `Emit` calls on an
emitter that has emitted nothing yet, the count of emitted particles after the calls is at
most `maxNumberOfParticles` and equals the number of positions the calls returned; every
call leaves the running count within the cap, returns at most
`maxNumberOfParticles - previously emitted` positions, and returns a velocities array of
the same length as the positions array whose entries all equal the initial velocity. -/
theorem Emit_respects_cap (MakeRotationMatrix : ℚ → Matrix2x2D)
    (self : VolumeParticleEmitter2) (calls : List (List Vector2D))
    (h0 : self.m_numberOfEmittedParticles = 0) :
    (EmitCalls MakeRotationMatrix self calls).1.m_numberOfEmittedParticles
      ≤ self.m_maxNumberOfParticles ∧
    (EmitCalls MakeRotationMatrix self calls).1.m_numberOfEmittedParticles
      = ((EmitCalls MakeRotationMatrix self calls).2.map
          (fun r => r.newPositions.length)).sum ∧
    (EmitCalls MakeRotationMatrix self calls).2.length = calls.length ∧
    ∀ r ∈ (EmitCalls MakeRotationMatrix self calls).2,
      r.emittedBefore + r.newPositions.length ≤ self.m_maxNumberOfParticles ∧
      r.newPositions.length ≤ self.m_maxNumberOfParticles - r.emittedBefore ∧
      r.newVelocities.length = r.newPositions.length ∧
      ∀ v ∈ r.newVelocities, v = self.m_initialVel := by
  obtain ⟨h1, h2, h3, h4⟩ := EmitCalls_spec MakeRotationMatrix calls self
    (by rw [h0]; exact Nat.zero_le _)
  rw [h0, zero_add] at h2
  refine ⟨h1, h2, h3, ?_⟩
  intro r hr
  obtain ⟨g1, g2⟩ := h4 r hr
  refine ⟨g1, by omega, ?_, ?_⟩
  · rw [g2, List.length_replicate]
  · intro v hv
    rw [g2] at hv
    exact List.eq_of_mem_replicate hv

theorem Emit_respects_cap_witness :
    Examples.cappedEmitter.m_numberOfEmittedParticles = 0 ∧
    ((EmitCalls Examples.identityRotation Examples.cappedEmitter
        [[], []]).1.m_numberOfEmittedParticles
      ≤ Examples.cappedEmitter.m_maxNumberOfParticles ∧
    (EmitCalls Examples.identityRotation Examples.cappedEmitter
        [[], []]).1.m_numberOfEmittedParticles
      = ((EmitCalls Examples.identityRotation Examples.cappedEmitter [[], []]).2.map
          (fun r => r.newPositions.length)).sum ∧
    (EmitCalls Examples.identityRotation Examples.cappedEmitter [[], []]).2.length
      = ([[], []] : List (List Vector2D)).length ∧
    ∀ r ∈ (EmitCalls Examples.identityRotation Examples.cappedEmitter [[], []]).2,
      r.emittedBefore + r.newPositions.length
        ≤ Examples.cappedEmitter.m_maxNumberOfParticles ∧
      r.newPositions.length
        ≤ Examples.cappedEmitter.m_maxNumberOfParticles - r.emittedBefore ∧
      r.newVelocities.length = r.newPositions.length ∧
      ∀ v ∈ r.newVelocities, v = Examples.cappedEmitter.m_initialVel) :=
  ⟨rfl, Emit_respects_cap Examples.identityRotation Examples.cappedEmitter [[], []] rfl⟩

end CubbyFlow
